import Mathlib

/-!
oaFileParser: a shallow embedding of the table directory, the instance
emitter, the connectivity scanner and the dispatch loop.

Sources embedded here:
* `src/emit_instances.cpp`   (`main`)
* `src/scan_connectivity.cpp` (`main`)
* `src/oaFileParser.cpp`     (`oaFileParser::parse`, `roundAlign8Bit`,
  `read0x07`, `read0x0b`, `read0x1c`, `read0x1d`)

Conventions.
* A file is the list of its bytes; a byte is a `Fin 256`.
* `unsigned long` values are naturals; the width of the type is the
  parameter `Layout.ulongSize` (bytes) and every `unsigned long` sum the
  source computes is reduced modulo `2 ^ (8 * ulongSize)`.
* `oaFileParser.h` is not part of the sources at hand, so the sizes of
  `fileHeader` and `tableIndex` and the position of their `used` fields are
  parameters, collected in `Layout`.
* The host is little-endian (the format is, and the sources `memcpy` file
  bytes straight into integers).
* Memory allocation (`std::vector`) is taken to succeed in the definitions of
  the two tools; a buffer of `dataSize` bytes exists, so the loop bounds
  `p + 7`, `p + 1`, `q + 3` computed next to it do not wrap. The definitions
  whose names end in `Run` follow the same statements with the allocations
  that are sized from fields of the file made explicit (`Machine`): a vector
  that is refused throws, nothing catches it, and the run is terminated.
-/

namespace oafp

/-- One byte of a file or buffer. -/
abbrev Byte := Fin 256

/-- Platform and header parameters the sources obtain through `sizeof` and
through the record types of `oaFileParser.h`. -/
structure Layout where
  /-- Value of `sizeof(unsigned long)`. -/
  ulongSize : Nat
  /-- Value of `sizeof(oafp::fileHeader)`. -/
  fhSize : Nat
  /-- Field `used` of a `fileHeader` image. -/
  fhUsed : List Byte → Nat
  /-- Value of `sizeof(oafp::tableIndex)`. -/
  tiSize : Nat
  /-- Field `used` of a `tableIndex` image. -/
  tiUsed : List Byte → Nat

/-- Number of values of `unsigned long`: sums of that type wrap at this bound. -/
def Layout.ulongMod (L : Layout) : Nat := 2 ^ (8 * L.ulongSize)

/-- Little-endian value of a run of bytes. -/
def leNat : List Byte → Nat
  | [] => 0
  | b :: bs => b.val + 256 * leNat bs

/-- Bytes `pos .. pos + n - 1` of `bytes` (fewer when the list ends before). -/
def slice (bytes : List Byte) (pos n : Nat) : List Byte :=
  (bytes.drop pos).take n

/-- Byte `i` of a buffer, as a number (`0` outside the buffer, never used there). -/
def byteAt (buf : List Byte) (i : Nat) : Nat := (buf.getD i 0).val

/-- The effect of `memcpy(&v, &buf[p], 4)` on a zeroed `unsigned long v`. -/
def le4 (buf : List Byte) (p : Nat) : Nat :=
  byteAt buf p + 256 * byteAt buf (p + 1) + 65536 * byteAt buf (p + 2)
    + 16777216 * byteAt buf (p + 3)

/-- The call `fread(ptr, size, 1, f)` with the stream positioned at `pos`: the one
item is delivered exactly when all its `size` bytes are in the file; a zero
`size` delivers no item. -/
def fread1 (file : List Byte) (pos size : Nat) : Option (List Byte) :=
  if size = 0 then none
  else if pos + size ≤ file.length then some (slice file pos size)
  else none

/-- The call `fseek(f, pos, SEEK_SET)` succeeds when `pos`, converted to `long`,
is not negative. Seeking past the end of the file succeeds. -/
def fseekOk (L : Layout) (pos : Nat) : Bool :=
  decide (pos < 2 ^ (8 * L.ulongSize - 1))

/-- Element `i` of an `unsigned long` array stored in `bytes`. -/
def ulongAt (L : Layout) (bytes : List Byte) (i : Nat) : Nat :=
  leNat (slice bytes (L.ulongSize * i) L.ulongSize)

/-- The `n` elements of an `unsigned long` array stored in `bytes`. -/
def decodeULongs (L : Layout) (bytes : List Byte) (n : Nat) : List Nat :=
  (List.range n).map (ulongAt L bytes)

/-- Result of the header and directory reads at the start of both `main`s. -/
inductive DirLoad where
  /-- Case `return status;` before any table is looked at. -/
  | exit (status : Nat)
  /-- The three vectors `ids`, `offsets`, `sizes`, each of `used` entries. -/
  | loaded (used : Nat) (ids offsets sizes : List Nat)
  deriving DecidableEq

/-- Header and directory reads of `emit_instances.cpp` lines 41-74 and of
`scan_connectivity.cpp` lines 38-58 (the same statements). -/
def loadDirectory (L : Layout) (file : List Byte) : DirLoad :=
  match fread1 file 0 L.fhSize with
  | none => .exit 4
  | some fh =>
    let used := L.fhUsed fh
    if used = 0 then .exit 0
    else
      match fread1 file L.fhSize (L.ulongSize * used) with
      | none => .exit 5
      | some idBytes =>
        match fread1 file (L.fhSize + L.ulongSize * used) (L.ulongSize * used) with
        | none => .exit 6
        | some offBytes =>
          match fread1 file (L.fhSize + L.ulongSize * used + L.ulongSize * used)
              (L.ulongSize * used) with
          | none => .exit 7
          | some szBytes =>
            .loaded used (decodeULongs L idBytes used) (decodeULongs L offBytes used)
              (decodeULongs L szBytes used)

/-! ## emit_instances.cpp -/

/-- The local `struct Record` of `emit_instances.cpp`. -/
structure Record where
  table_index : Nat
  record_index : Nat
  instance_value : Nat
  master_value : Nat
  file_offset : Nat
  deriving DecidableEq

/-- The vector `targetIds`. -/
def targetIds : List Nat := [0x0b, 0x0101, 0x101, 0x105, 0x107]

/-- The loop `for(r = 0; r < numRecords; ++r)` of the 8-byte record branch;
`remaining` is `numRecords - r` and `cur` the stream position. Either `fread`
failing leaves the loop. -/
def fixedLoop (L : Layout) (file : List Byte) (t dataStart : Nat) :
    (remaining : Nat) → (r : Nat) → (cur : Nat) → List Record
  | 0, _, _ => []
  | n + 1, r, cur =>
    match fread1 file cur L.ulongSize with
    | none => []
    | some iv =>
      match fread1 file (cur + L.ulongSize) L.ulongSize with
      | none => []
      | some mv =>
        { table_index := t, record_index := r, instance_value := leNat iv,
          master_value := leNat mv,
          file_offset := (dataStart + r * 8) % L.ulongMod } ::
          fixedLoop L file t dataStart n (r + 1) (cur + L.ulongSize + L.ulongSize)

/-- The loop `for(p = 0; p + 7 < dataSize; p += 4)` of the heuristic branch.
The first argument bounds the number of iterations; `pairScan` passes the
buffer length, which the loop cannot exhaust since `p` grows by 4. -/
def pairLoop (L : Layout) (buf : List Byte) (t dataStart : Nat) :
    (fuel : Nat) → (p : Nat) → List Record
  | 0, _ => []
  | n + 1, p =>
    if p + 7 < buf.length then
      if le4 buf p = 0 ∧ le4 buf (p + 4) = 0 then pairLoop L buf t dataStart n (p + 4)
      else
        { table_index := t, record_index := p / 8, instance_value := le4 buf p,
          master_value := le4 buf (p + 4),
          file_offset := (dataStart + p) % L.ulongMod } ::
          pairLoop L buf t dataStart n (p + 4)
    else []

/-- The heuristic pair scan over the buffer `buf` (of `dataSize` bytes). -/
def pairScan (L : Layout) (buf : List Byte) (t dataStart : Nat) : List Record :=
  pairLoop L buf t dataStart buf.length 0

/-- The buffer `vector<unsigned char> buf(dataSize)` after
`fread(buf.data(), 1, dataSize, f)` at `dataStart`: the bytes the file has
there, then the zeros the vector was created with. -/
def fillBuf (file : List Byte) (dataStart dataSize : Nat) : List Byte :=
  slice file dataStart dataSize ++
    List.replicate (dataSize - (slice file dataStart dataSize).length) 0

/-- What the body of the table loop does for one table of interest. The two
decoding branches are kept apart by the constructor; the source appends the
records of either to `emitted[tid]`. -/
inductive TableResult where
  /-- One of the `continue` statements was reached. -/
  | skipped
  /-- Records of the branch `dataSize % 8 == 0`. -/
  | fixedRecords (rs : List Record)
  /-- Records of the heuristic branch. -/
  | pairCandidates (rs : List Record)
  deriving DecidableEq

/-- The records a table contributes to `emitted[tid]`. -/
def TableResult.records : TableResult → List Record
  | .skipped => []
  | .fixedRecords rs => rs
  | .pairCandidates rs => rs

/-- Body of the table loop of `emit_instances.cpp` (lines 105-180) for the
table at directory index `t`, once `interest` is established. -/
def decodeTable (L : Layout) (file : List Byte) (t tablePos tableSize : Nat) :
    TableResult :=
  if tableSize < L.tiSize then .skipped
  else if fseekOk L tablePos = false then .skipped
  else
    match fread1 file tablePos L.tiSize with
    | none => .skipped
    | some _ =>
      let dataStart := (tablePos + L.tiSize) % L.ulongMod
      let dataSize := if tableSize > L.tiSize then tableSize - L.tiSize else 0
      if dataSize = 0 then .skipped
      else if dataSize % 8 = 0 then
        if fseekOk L dataStart = false then .skipped
        else .fixedRecords (fixedLoop L file t dataStart (dataSize / 8) 0 dataStart)
      else
        if fseekOk L dataStart = false then .skipped
        else .pairCandidates (pairScan L (fillBuf file dataStart dataSize) t dataStart)

/-- One iteration of `for(t = 0; t < used; ++t)`: the `(tid, record)` pairs
pushed during it. -/
def emitTable (L : Layout) (file : List Byte) (ids offsets sizes : List Nat)
    (t : Nat) : List (Nat × Record) :=
  let tid := ids.getD t 0
  if tid ∈ targetIds then
    (decodeTable L file t (offsets.getD t 0) (sizes.getD t 0)).records.map
      (fun r => (tid, r))
  else []

/-- The table loop: the contents of the map `emitted`, as the sequence of
insertions `emitted[tid].push_back(rec)`. -/
def emitTables (L : Layout) (file : List Byte) (used : Nat)
    (ids offsets sizes : List Nat) : List (Nat × Record) :=
  (List.range used).flatMap (emitTable L file ids offsets sizes)

/-- The vector `emitted[tid]`. -/
def emittedAt (log : List (Nat × Record)) (tid : Nat) : List Record :=
  (log.filter (fun e => e.1 = tid)).map Prod.snd

/-- What a run of one of the two tools yields: the exit status and the
collection it built. -/
structure Outcome (α : Type) where
  status : Nat
  records : List α
  deriving DecidableEq

/-- The function `main` of `emit_instances.cpp` on an opened file. -/
def emitInstances (L : Layout) (file : List Byte) : Outcome (Nat × Record) :=
  match loadDirectory L file with
  | .exit s => { status := s, records := [] }
  | .loaded used ids offsets sizes =>
    { status := 0, records := emitTables L file used ids offsets sizes }

/-! ## scan_connectivity.cpp -/

/-- The conversion `(int)v` of an `unsigned long` (or `unsigned long` index): the
low 32 bits, read as a two's complement number. -/
def toInt (v : Nat) : Int :=
  if v % 2 ^ 32 < 2 ^ 31 then ((v % 2 ^ 32 : Nat) : Int)
  else ((v % 2 ^ 32 : Nat) : Int) - 2 ^ 32

/-- The vector `string_by_offset`; a string is the list of its bytes. -/
abbrev Pool := List (List Byte)

/-- The test `(unsigned char)buf[p] >= 32 && (unsigned char)buf[p] < 127`. -/
def printable (b : Byte) : Bool := decide (32 ≤ b.val) && decide (b.val < 127)

/-- The inner loop `while(p < r && printable buf[p]) { s.push_back(buf[p]); ++p; }`
started at `p`: the string `s` it builds; it leaves `p` advanced by the length
of `s`. -/
def runAt (buf : List Byte) (r p : Nat) : List Byte :=
  ((buf.take r).drop p).takeWhile printable

/-- The statements `if(string_by_offset.size() <= start) string_by_offset.resize(start+1);`
and `string_by_offset[start] = s;`. -/
def storeAt (pool : Pool) (start : Nat) (s : List Byte) : Pool :=
  (if pool.length ≤ start then pool ++ List.replicate (start + 1 - pool.length) []
   else pool).set start s

/-- The loop `while(p < r)` that builds the string pool from the `r` bytes read
into `buf`. Each unit of `fuel` pays for one evaluation of the loop condition;
`none` means the loop has not come to an end within `fuel` evaluations. -/
def poolLoop (buf : List Byte) (r : Nat) : (fuel : Nat) → (p : Nat) → Pool → Option Pool
  | 0, _, _ => none
  | n + 1, p, pool =>
    if p < r then
      if byteAt buf p < 32 then poolLoop buf r n (p + 1) pool
      else
        poolLoop buf r n (p + (runAt buf r p).length)
          (if runAt buf r p ≠ [] then storeAt pool p (runAt buf r p) else pool)
    else some pool

/-- The lambda `lookup_string`. -/
def lookup_string (pool : Pool) (off : Nat) : List Byte :=
  if off < pool.length ∧ pool.getD off [] ≠ [] then pool.getD off [] else []

/-- The loop that sets `stringTableIndex`: `-1`, or `(int)i` for the first `i`
with `ids[i] == 0x0a`. -/
def stringTableIndex (used : Nat) (ids : List Nat) : Int :=
  match (List.range used).find? (fun i => decide (ids.getD i 0 = 0x0a)) with
  | none => -1
  | some i => toInt i

/-- Lines 64-101 of `scan_connectivity.cpp`: the pool `string_by_offset` and the
value `string_table_used`. A failing `fseek` to the table is only reported, so
the table header is then read at the position the directory reads left the
stream at. The result is `none` when the pool loop does not end within `fuel`. -/
def loadStringTable (L : Layout) (file : List Byte) (used : Nat)
    (ids offsets sizes : List Nat) (fuel : Nat) : Option (Pool × Nat) :=
  let stIdx := stringTableIndex used ids
  if stIdx < 0 then some ([], 0)
  else
    let tablePos := offsets.getD stIdx.toNat 0
    let tableSize := sizes.getD stIdx.toNat 0
    if tableSize < L.tiSize then some ([], 0)
    else
      let hdrPos :=
        if fseekOk L tablePos then tablePos
        else L.fhSize + L.ulongSize * used + L.ulongSize * used + L.ulongSize * used
      match fread1 file hdrPos L.tiSize with
      | none => some ([], 0)
      | some th =>
        let dataStart := (tablePos + L.tiSize) % L.ulongMod
        let dataSize := if tableSize > L.tiSize then tableSize - L.tiSize else 0
        if dataSize = 0 then some ([], L.tiUsed th)
        else if fseekOk L dataStart = false then some ([], L.tiUsed th)
        else
          match poolLoop (fillBuf file dataStart dataSize)
              (slice file dataStart dataSize).length fuel 0 [] with
          | none => none
          | some pool => some (pool, L.tiUsed th)

/-- The local `struct Candidate` of `scan_connectivity.cpp`. -/
structure Candidate where
  tableId : Nat
  tableIndex : Nat
  fileOffset : Nat
  name : List Byte
  oids : List Nat
  deriving DecidableEq

/-- The expression `(unsigned int)(buf[p] | (buf[p+1] << 8))`. -/
def idxAt (buf : List Byte) (p : Nat) : Nat := byteAt buf p + 256 * byteAt buf (p + 1)

/-- The look-ahead loop `while(count < MAX_OIDS && q + 3 < got)`; `remaining` is
`MAX_OIDS - count`. -/
def oidLoop (buf : List Byte) (got : Nat) : (remaining : Nat) → (q : Nat) → List Nat
  | 0, _ => []
  | n + 1, q =>
    if q + 3 < got then
      if le4 buf q = 0 ∨ le4 buf q > 1000000 then []
      else le4 buf q :: oidLoop buf got n (q + 4)
    else []

/-- The loop `for(p = 0; p + 1 < got; ++p)` of the connectivity scan. The first
argument bounds the number of iterations; `scanTable` passes `got`. -/
def scanLoop (L : Layout) (pool : Pool) (stUsed : Nat) (buf : List Byte) (got : Nat)
    (t tid dataStart : Nat) : (fuel : Nat) → (p : Nat) → List Candidate
  | 0, _ => []
  | n + 1, p =>
    if p + 1 < got then
      if stUsed = 0 then []
      else if idxAt buf p ≥ stUsed then scanLoop L pool stUsed buf got t tid dataStart n (p + 1)
      else if lookup_string pool (idxAt buf p) = [] then
        scanLoop L pool stUsed buf got t tid dataStart n (p + 1)
      else if oidLoop buf got 16 (p + 2) ≠ [] then
        { tableId := tid, tableIndex := t, fileOffset := (dataStart + p) % L.ulongMod,
          name := lookup_string pool (idxAt buf p), oids := oidLoop buf got 16 (p + 2) } ::
          scanLoop L pool stUsed buf got t tid dataStart n (p + 1)
      else scanLoop L pool stUsed buf got t tid dataStart n (p + 1)
    else []

/-- Body of the table loop of `scan_connectivity.cpp` (lines 114-162) for a table
other than the string table. -/
def scanTable (L : Layout) (file : List Byte) (pool : Pool) (stUsed : Nat)
    (t tid tablePos tableSize : Nat) : List Candidate :=
  if tableSize < L.tiSize then []
  else if fseekOk L tablePos = false then []
  else
    match fread1 file tablePos L.tiSize with
    | none => []
    | some _ =>
      let dataStart := (tablePos + L.tiSize) % L.ulongMod
      let dataSize := if tableSize > L.tiSize then tableSize - L.tiSize else 0
      if dataSize = 0 then []
      else if fseekOk L dataStart = false then []
      else
        let got := (slice file dataStart dataSize).length
        if got = 0 then []
        else scanLoop L pool stUsed (fillBuf file dataStart dataSize) got t tid dataStart got 0

/-- The table loop of `scan_connectivity.cpp`: the vector `candidates`. -/
def scanTables (L : Layout) (file : List Byte) (pool : Pool) (stUsed : Nat) (used : Nat)
    (ids offsets sizes : List Nat) : List Candidate :=
  (List.range used).flatMap (fun t =>
    if toInt t = stringTableIndex used ids then []
    else scanTable L file pool stUsed t (ids.getD t 0) (offsets.getD t 0) (sizes.getD t 0))

/-- The function `main` of `scan_connectivity.cpp` on an opened file; `none` when
the string pool loop does not end within `fuel` evaluations of its condition. -/
def scanConnectivity (L : Layout) (file : List Byte) (fuel : Nat) :
    Option (Outcome Candidate) :=
  match loadDirectory L file with
  | .exit s => some { status := s, records := [] }
  | .loaded used ids offsets sizes =>
    match loadStringTable L file used ids offsets sizes fuel with
    | none => none
    | some (pool, stUsed) =>
      some { status := 0, records := scanTables L file pool stUsed used ids offsets sizes }

/-! ## oaFileParser.cpp: `oaFileParser::parse` -/

/-- The typed decoders `parse` can call. -/
inductive Decoder where
  | read0x04 | read0x05 | read0x06 | read0x07 | read0x0a | read0x0b
  | read0x19 | read0x1c | read0x1d | read0x28
  deriving DecidableEq

/-- One decoder call `readXX(file, pos, tblSize)`. -/
structure Call where
  decoder : Decoder
  pos : Nat
  tblSize : Nat
  deriving DecidableEq

/-- The loop that sets `startOffset`: `offsets[i]` for the first `i` with
`ids[i] == 1`, else the initial `0`. -/
def startOffset (used : Nat) (ids offsets : List Nat) : Nat :=
  match (List.range used).find? (fun i => decide (ids.getD i 0 = 1)) with
  | none => 0
  | some i => offsets.getD i 0

/-- The statement `switch((int)ids[i])` for one directory entry: the call it
makes, `none` when no `case` label matches. -/
def dispatch (L : Layout) (start id off size : Nat) : Option Call :=
  if toInt id = 0x04 then some ⟨.read0x04, (start + off) % L.ulongMod, size⟩
  else if toInt id = 0x05 then some ⟨.read0x05, (start + off) % L.ulongMod, size⟩
  else if toInt id = 0x06 then some ⟨.read0x06, (start + off) % L.ulongMod, size⟩
  else if toInt id = 0x07 then some ⟨.read0x07, (start + off) % L.ulongMod, size⟩
  else if toInt id = 0x19 then some ⟨.read0x19, (start + off) % L.ulongMod, size⟩
  else if toInt id = 0x1c then some ⟨.read0x1c, (start + off) % L.ulongMod, size⟩
  else if toInt id = 0x1d then some ⟨.read0x1d, (start + off) % L.ulongMod, size⟩
  else if toInt id = 0x28 then some ⟨.read0x28, (start + off) % L.ulongMod, size⟩
  else if toInt id = 0x0a then some ⟨.read0x0a, off, size⟩
  else if toInt id = 0x0b then some ⟨.read0x0b, off, size⟩
  else if toInt id = 0x0101 then some ⟨.read0x0b, off, size⟩
  else none

/-- The `switch` of the dispatch loop of `parse` over a directory held in `ids`,
`offsets`, `sizes`: for each index the call the `switch` selects for it, if
any. Whether the loop gets as far as an entry is the matter of `parseRun`. -/
def parseCalls (L : Layout) (used : Nat) (ids offsets sizes : List Nat) :
    List (Option Call) :=
  (List.range used).map (fun i =>
    dispatch L (startOffset used ids offsets) (ids.getD i 0) (offsets.getD i 0)
      (sizes.getD i 0))

/-- The header and directory reads of `parse` (lines 383-392). The results of
`fread` are not looked at there; when the header or one of the three arrays is
not in the file the variables keep indeterminate values, which is outside this
embedding: `none`. With `fh.used = 0` the arrays are empty. -/
def parseDirectory (L : Layout) (file : List Byte) :
    Option (Nat × List Nat × List Nat × List Nat) :=
  match fread1 file 0 L.fhSize with
  | none => none
  | some fh =>
    let used := L.fhUsed fh
    if used = 0 then some (0, [], [], [])
    else
      match fread1 file L.fhSize (L.ulongSize * used),
        fread1 file (L.fhSize + L.ulongSize * used) (L.ulongSize * used),
        fread1 file (L.fhSize + L.ulongSize * used + L.ulongSize * used)
          (L.ulongSize * used) with
      | some idBytes, some offBytes, some szBytes =>
        some (used, decodeULongs L idBytes used, decodeULongs L offBytes used,
          decodeULongs L szBytes used)
      | _, _, _ => none

/-- The function `parse` on an opened file when every decoder call returns: the
decoder calls it makes, in order (`none` as for `parseDirectory`). A decoder
call that throws or does not survive ends the loop; `parseRun` follows the
calls one by one. -/
def parse (L : Layout) (file : List Byte) : Option (List Call) :=
  match parseDirectory L file with
  | none => none
  | some (used, ids, offsets, sizes) =>
    some ((parseCalls L used ids offsets sizes).filterMap id)

/-! ## Names for the locals of the table loops -/

/-- The local `dataStart` of a table loop body: `tablePos + sizeof(tableIndex)`. -/
def tableDataStart (L : Layout) (tablePos : Nat) : Nat :=
  (tablePos + L.tiSize) % L.ulongMod

/-- The local `buf` of a table loop body after the payload read. -/
def tableBuf (L : Layout) (file : List Byte) (tablePos tableSize : Nat) : List Byte :=
  fillBuf file (tableDataStart L tablePos) (tableSize - L.tiSize)

/-- The local `got` of `scan_connectivity.cpp`: the number of payload bytes read. -/
def tableGot (L : Layout) (file : List Byte) (tablePos tableSize : Nat) : Nat :=
  (slice file (tableDataStart L tablePos) (tableSize - L.tiSize)).length

/-- Body of the loop `for(p = 0; p + 7 < dataSize; p += 4)` of the heuristic branch
at the window `p`: the record pushed, `none` when `continue` is taken. -/
def pairBody (L : Layout) (buf : List Byte) (t dataStart p : Nat) : Option Record :=
  if le4 buf p = 0 ∧ le4 buf (p + 4) = 0 then none
  else some { table_index := t, record_index := p / 8, instance_value := le4 buf p,
              master_value := le4 buf (p + 4),
              file_offset := (dataStart + p) % L.ulongMod }

/-- One iteration of the table loop of `scan_connectivity.cpp`: the candidates
pushed for directory index `t`. -/
def scanEntry (L : Layout) (file : List Byte) (pool : Pool) (stUsed : Nat) (used : Nat)
    (ids offsets sizes : List Nat) (t : Nat) : List Candidate :=
  if toInt t = stringTableIndex used ids then []
  else scanTable L file pool stUsed t (ids.getD t 0) (offsets.getD t 0) (sizes.getD t 0)

/-- Specification side of the look-ahead: the 4-byte little-endian integers at
`p + 2, p + 6, ...` that lie wholly in the first `got` bytes of `buf`, cut at
the first one that is zero or above 1000000, and capped at 16 entries. -/
def lookAheadSpec (buf : List Byte) (got p : Nat) : List Nat :=
  (((List.range ((got - (p + 2)) / 4)).map (fun i => le4 buf (p + 2 + 4 * i))).takeWhile
    (fun v => decide (v ≠ 0 ∧ v ≤ 1000000))).take 16

/-- Specification side of the connectivity scan of one payload: position `p`
gives a candidate when the index at `p` is below `stUsed`, the pool holds a
non-empty string at that index, and the integer at `p + 2` lies wholly in the
payload and in `(0, 1000000]`. -/
def scanSpec (L : Layout) (pool : Pool) (stUsed : Nat) (buf : List Byte) (got : Nat)
    (t tid dataStart : Nat) : List Candidate :=
  (List.range (got - 1)).filterMap (fun p =>
    if idxAt buf p < stUsed ∧ lookup_string pool (idxAt buf p) ≠ [] ∧ p + 5 < got
        ∧ 0 < le4 buf (p + 2) ∧ le4 buf (p + 2) ≤ 1000000 then
      some { tableId := tid, tableIndex := t, fileOffset := (dataStart + p) % L.ulongMod,
             name := lookup_string pool (idxAt buf p), oids := lookAheadSpec buf got p }
    else none)

/-! ## oaFileParser.cpp: typed decoders

`unsigned int` has 4 bytes and `unsigned short` 2. A seek that fails leaves the
stream where earlier calls put it, and a field that is not read in full keeps
an indeterminate value: such a field, or an array that is not read in full,
is shown as `none` inside the arguments of the hook call.

The decoders keep their arrays on the stack (variable-length arrays) or get
them from `new[]`, sized from fields of the file. `Machine` holds the limits
of the run; a decoder call ends in one of the ways of `Ending`. -/

/-- Limits of the machine a run takes place on. -/
structure Machine where
  /-- The largest request, in bytes, that the allocator grants. -/
  heap : Nat
  /-- The bytes of stack a function can give to its variable-length arrays. -/
  stack : Nat
  /-- The bytes that follow the array `buffer` of `read0x1d` in memory, up to the
  end of the readable memory. -/
  beyond : List Byte

/-- Whether the allocator grants the `bytes` bytes of `std::vector<T> v(n)` or
`new T[n]` (`bytes` is `n * sizeof(T)` as a number, not reduced). A request of
`2 ^ (8 * sizeof(long) - 1)` bytes or more is refused on every machine
(`max_size`, `bad_array_new_length`), a smaller one when it exceeds `heap`. -/
def heapOk (L : Layout) (m : Machine) (bytes : Nat) : Bool :=
  decide (bytes ≤ m.heap ∧ bytes < 2 ^ (8 * L.ulongSize - 1))

/-- How a decoder call ends. -/
inductive Ending where
  /-- The decoder returns to `parse`. -/
  | returns
  /-- A `new[]` is refused: the exception leaves the decoder and reaches the
  `catch(...)` of `parse`. -/
  | throws
  /-- A variable-length array does not fit the stack, or `strlen` runs to the end
  of the readable memory: undefined behaviour, which ends the process (a
  segmentation fault); nothing after the call takes place. -/
  | crashes
  /-- What the call does depends on a value that was never read. -/
  | undefined
  deriving DecidableEq

/-- A decoder call: the arguments of the hook call it makes (`none` when it makes
none, or none with determined arguments), and how it ends. -/
structure DecoderRun (α : Type) where
  hook : Option α
  ending : Ending
  deriving DecidableEq

/-- The difference `a - b` of two `unsigned long` values. -/
def subUL (L : Layout) (a b : Nat) : Nat :=
  (a + (L.ulongMod - b % L.ulongMod)) % L.ulongMod

/-- The function `roundAlign8Bit`: `rem = len % 8; return len + (8 - rem);`. -/
def roundAlign8Bit (L : Layout) (len : Nat) : Nat :=
  (len + (8 - len % 8)) % L.ulongMod

/-- The call `fread(&a[0], size, 1, file)` that fills a whole array of `size`
bytes: an empty array needs no byte; otherwise as `fread1`. -/
def freadArr (file : List Byte) (pos size : Nat) : Option (List Byte) :=
  if size = 0 then some [] else fread1 file pos size

/-- The `n` elements of an `unsigned int` array stored in `bytes`. -/
def decodeUInts (bytes : List Byte) (n : Nat) : List Nat :=
  (List.range n).map (fun i => le4 bytes (4 * i))

/-- The arguments of the call `onParsedDatabaseMap(ids, types, numRes, tblIds,
tblTypes, numOther)`. -/
structure DatabaseMap where
  ids : Option (List Nat)
  types : Option (List Nat)
  numRes : Nat
  tblIds : Option (List Nat)
  tblTypes : Option (List Nat)
  numOther : Nat
  deriving DecidableEq

/-- The local `numOther` of `read0x07`: the `unsigned int` difference
`numData - numRes`. -/
def read0x07_numOther (numRes numData : Nat) : Nat :=
  (numData + (2 ^ 32 - numRes)) % 2 ^ 32

/-- The bytes of stack the four arrays `ids[numRes]`, `types[numRes]`,
`tblIds[numOther]`, `tblTypes[numOther]` of `read0x07` take. -/
def read0x07_stackBytes (L : Layout) (numRes numOther : Nat) : Nat :=
  L.ulongSize * numRes + 4 * numRes + L.ulongSize * numOther + 4 * numOther

/-- The decoder `read0x07`. The two counts are read, `numOther` is derived, the
four arrays are declared with these sizes and then read one after the other. -/
def read0x07 (L : Layout) (m : Machine) (file : List Byte) (pos : Nat) :
    DecoderRun DatabaseMap :=
  if fseekOk L pos = false then { hook := none, ending := .undefined }
  else
    match fread1 file pos 4, fread1 file (pos + 4) 4 with
    | some a, some b =>
      let numRes := leNat a
      let numData := leNat b
      let numOther := read0x07_numOther numRes numData
      if read0x07_stackBytes L numRes numOther > m.stack then
        { hook := none, ending := .crashes }
      else
        { hook := some
            { ids := (freadArr file (pos + 8) (L.ulongSize * numRes)).map
                (fun bs => decodeULongs L bs numRes)
              types := (freadArr file (pos + 8 + L.ulongSize * numRes) (4 * numRes)).map
                (fun bs => decodeUInts bs numRes)
              numRes := numRes
              tblIds := (freadArr file (pos + 8 + L.ulongSize * numRes + 4 * numRes)
                (L.ulongSize * numOther)).map (fun bs => decodeULongs L bs numOther)
              tblTypes := (freadArr file
                (pos + 8 + L.ulongSize * numRes + 4 * numRes + L.ulongSize * numOther)
                (4 * numOther)).map (fun bs => decodeUInts bs numOther)
              numOther := numOther }
          ending := .returns }
    | _, _ => { hook := none, ending := .undefined }

/-- The local `dataSize` of `read0x0b`: `tblSize - sizeof(table)`. -/
def read0x0b_dataSize (L : Layout) (tblSize : Nat) : Nat := subUL L tblSize L.tiSize

/-- The arguments of the call `onParsedInstanceTable(numRecords, instanceIds,
masterIds)`; an element that was not read in full is `none` (the arrays are
not initialised), and `records` is `none` when the seek to the data section
failed. -/
structure InstanceTable where
  numRecords : Nat
  records : Option (List (Option Nat × Option Nat))
  deriving DecidableEq

/-- The decoder `read0x0b`. With `dataSize % 8 == 0` the two arrays of
`numRecords` elements come from `new[]`, the records are read and
`onParsedInstanceTable` is called; in either case the function then declares
`char buffer[tblSize]` on the stack for its text extraction. -/
def read0x0b (L : Layout) (m : Machine) (file : List Byte) (pos tblSize : Nat) :
    DecoderRun InstanceTable :=
  let dataStart := (pos + L.tiSize) % L.ulongMod
  let dataSize := read0x0b_dataSize L tblSize
  if dataSize % 8 = 0 then
    if heapOk L m (L.ulongSize * (dataSize / 8)) = false then
      { hook := none, ending := .throws }
    else
      { hook := some
          { numRecords := dataSize / 8
            records :=
              if fseekOk L dataStart = false then none
              else some ((List.range (dataSize / 8)).map (fun i =>
                ((fread1 file (dataStart + (L.ulongSize + L.ulongSize) * i)
                    L.ulongSize).map leNat,
                 (fread1 file (dataStart + (L.ulongSize + L.ulongSize) * i + L.ulongSize)
                    L.ulongSize).map leNat))) }
        ending := if tblSize > m.stack then .crashes else .returns }
  else { hook := none, ending := if tblSize > m.stack then .crashes else .returns }

/-- The length of the array `buildName` of `read0x1c`:
`tblSize - sizeof(dataModelRev)`. -/
def read0x1c_nameSize (L : Layout) (tblSize : Nat) : Nat := subUL L tblSize 2

/-- The arguments of the call `onParsedDMandBuildName(dataModelRev, buildName)`,
with the length the array `buildName` was given. -/
structure DMandBuildName where
  dataModelRev : Option Nat
  nameSize : Nat
  buildName : Option (List Byte)
  deriving DecidableEq

/-- The decoder `read0x1c`: the array `buildName` is declared on the stack with
`tblSize - sizeof(dataModelRev)` bytes, then the two reads are made and the
hook is called. -/
def read0x1c (L : Layout) (m : Machine) (file : List Byte) (pos tblSize : Nat) :
    DecoderRun DMandBuildName :=
  if read0x1c_nameSize L tblSize > m.stack then { hook := none, ending := .crashes }
  else if fseekOk L pos = false then
    { hook := some { dataModelRev := none, nameSize := read0x1c_nameSize L tblSize,
                     buildName := none }
      ending := .returns }
  else
    { hook := some
        { dataModelRev := (fread1 file pos 2).map leNat
          nameSize := read0x1c_nameSize L tblSize
          buildName := freadArr file (pos + 2) (read0x1c_nameSize L tblSize) }
      ending := .returns }

/-- The length of the array `buffer` of `read0x1d`:
`tblSize - (sizeof(unsigned short)*4)`. -/
def read0x1d_bufferSize (L : Layout) (tblSize : Nat) : Nat := subUL L tblSize 8

/-- The call `strlen(&buffer[b])`: the number of bytes before the first zero byte
at or after `b`; `none` when the buffer holds no zero byte from `b` on, where
`strlen` leaves the buffer. -/
def strlen (buffer : List Byte) (b : Nat) : Option Nat :=
  if ((buffer.drop b).takeWhile (fun c => decide (c ≠ 0))).length < (buffer.drop b).length then
    some ((buffer.drop b).takeWhile (fun c => decide (c ≠ 0))).length
  else none

/-- The arguments of the call `onParsedBuildInformation`: the record `ai`, and the
three string pointers as offsets into the array `buffer`. -/
structure BuildInformation where
  ai : List Byte
  buffer : List Byte
  appBuildName : Nat
  kitBuildName : Nat
  platforName : Nat
  deriving DecidableEq

/-- The decoder `read0x1d` as far as it depends on the table alone; `aiSize` is
`sizeof(appInfo)`. The cursor `b` is an `unsigned int`. The result is the
hook call made when both `strlen` calls end inside the array `buffer`, and
`none` otherwise: what a `strlen` that leaves the array finds depends on the
memory after the array, which `read0x1dRun` takes into account. -/
def read0x1d (L : Layout) (aiSize : Nat) (file : List Byte) (pos tblSize : Nat) :
    Option BuildInformation :=
  if fseekOk L pos = false then none
  else
    match fread1 file pos aiSize, freadArr file (pos + aiSize) (read0x1d_bufferSize L tblSize) with
    | some ai, some buffer =>
      match strlen buffer 0 with
      | none => none
      | some la =>
        match strlen buffer ((0 + roundAlign8Bit L la) % 2 ^ 32) with
        | none => none
        | some lk =>
          some
            { ai := ai
              buffer := buffer
              appBuildName := 0
              kitBuildName := (0 + roundAlign8Bit L la) % 2 ^ 32
              platforName :=
                ((0 + roundAlign8Bit L la) % 2 ^ 32 + roundAlign8Bit L lk) % 2 ^ 32 }
    | _, _ => none

/-- The decoder `read0x1d` on a machine: the array `buffer` is declared on the
stack, the two reads are made, and the two `strlen` calls run over the array
and, where it holds no terminator, on into the memory after it. The hook is
called with the three pointers, given as offsets from the start of `buffer`. -/
def read0x1dRun (L : Layout) (m : Machine) (aiSize : Nat) (file : List Byte)
    (pos tblSize : Nat) : DecoderRun BuildInformation :=
  if read0x1d_bufferSize L tblSize > m.stack then { hook := none, ending := .crashes }
  else if fseekOk L pos = false then { hook := none, ending := .undefined }
  else
    match fread1 file pos aiSize, freadArr file (pos + aiSize) (read0x1d_bufferSize L tblSize) with
    | some ai, some buffer =>
      match strlen (buffer ++ m.beyond) 0 with
      | none => { hook := none, ending := .crashes }
      | some la =>
        match strlen (buffer ++ m.beyond) ((0 + roundAlign8Bit L la) % 2 ^ 32) with
        | none => { hook := none, ending := .crashes }
        | some lk =>
          { hook := some
              { ai := ai
                buffer := buffer
                appBuildName := 0
                kitBuildName := (0 + roundAlign8Bit L la) % 2 ^ 32
                platforName :=
                  ((0 + roundAlign8Bit L la) % 2 ^ 32 + roundAlign8Bit L lk) % 2 ^ 32 }
            ending := .returns }
    | _, _ => { hook := none, ending := .undefined }

/-! ## oaFileParser.cpp: `oaFileParser::parse`, call by call -/

/-- How the decoder call `c` of `parse` ends. The decoders of single fields
(`read0x04`, `read0x05`, `read0x06`, `read0x19`, `read0x28`) read into a local
variable and return; `read0x0a` declares `char buffer[tblSize]` on the stack. -/
def callEnding (L : Layout) (m : Machine) (aiSize : Nat) (file : List Byte) (c : Call) :
    Ending :=
  match c.decoder with
  | .read0x04 => .returns
  | .read0x05 => .returns
  | .read0x06 => .returns
  | .read0x19 => .returns
  | .read0x28 => .returns
  | .read0x07 => (read0x07 L m file c.pos).ending
  | .read0x0a => if c.tblSize > m.stack then .crashes else .returns
  | .read0x0b => (read0x0b L m file c.pos c.tblSize).ending
  | .read0x1c => (read0x1c L m file c.pos c.tblSize).ending
  | .read0x1d => (read0x1dRun L m aiSize file c.pos c.tblSize).ending

/-- How a call of `parse` ends. -/
inductive ParseEnd where
  /-- The dispatch loop ran over the whole directory: `return 0`. -/
  | done
  /-- An exception reached `catch(...)`: `onParsedError`, `return 1`. -/
  | caught
  /-- The process did not survive a decoder call or the directory arrays. -/
  | crashed
  /-- What follows depends on a value that was never read. -/
  | undefined
  deriving DecidableEq

/-- A call of `parse`: the decoder calls made, in order, and how it ends. -/
structure ParseRun where
  calls : List Call
  ending : ParseEnd
  deriving DecidableEq

/-- The dispatch loop of `parse` inside its `try` block, over the calls the
`switch` selects for the entries still to come: a call that returns is
followed by the next entry, any other call is the last one made. -/
def parseLoop (L : Layout) (m : Machine) (aiSize : Nat) (file : List Byte) :
    List (Option Call) → ParseRun
  | [] => { calls := [], ending := .done }
  | none :: rest => parseLoop L m aiSize file rest
  | some c :: rest =>
    match callEnding L m aiSize file c with
    | .returns =>
      { calls := c :: (parseLoop L m aiSize file rest).calls
        ending := (parseLoop L m aiSize file rest).ending }
    | .throws => { calls := [c], ending := .caught }
    | .crashes => { calls := [c], ending := .crashed }
    | .undefined => { calls := [c], ending := .undefined }

/-- The function `parse` on an opened file and a machine. The three directory
arrays are variable-length arrays of `fh.used` elements on the stack. -/
def parseRun (L : Layout) (m : Machine) (aiSize : Nat) (file : List Byte) : ParseRun :=
  match fread1 file 0 L.fhSize with
  | none => { calls := [], ending := .undefined }
  | some fh =>
    if 3 * (L.ulongSize * L.fhUsed fh) > m.stack then { calls := [], ending := .crashed }
    else
      match parseDirectory L file with
      | none => { calls := [], ending := .undefined }
      | some (used, ids, offsets, sizes) =>
        parseLoop L m aiSize file (parseCalls L used ids offsets sizes)

/-! ## The two tools on a machine

The buffers `vector<unsigned char> buf(dataSize)`, `vector<char> buf(dataSize)`
and the three directory vectors are sized from fields of the file. Their
construction throws when the allocator refuses the request; neither `main` has
a handler, so the run is terminated before anything is printed. The growth of
the result containers is taken to be granted. -/

/-- How a run of one of the two tools ends. -/
inductive Pass (α : Type) where
  /-- The function `main` returns with the collection it built. -/
  | finished (a : α)
  /-- An exception left `main`: the process is terminated and nothing is
  printed. -/
  | terminated
  /-- The string pool loop has not ended within the fuel given. -/
  | running
  deriving DecidableEq

/-- Body of the table loop of `emit_instances.cpp` (lines 105-180) as in
`decodeTable`, with the construction of `buf` (line 158) made explicit: `none`
when it throws. -/
def decodeTableRun (L : Layout) (m : Machine) (file : List Byte) (t tablePos tableSize : Nat) :
    Option TableResult :=
  if tableSize < L.tiSize then some .skipped
  else if fseekOk L tablePos = false then some .skipped
  else
    match fread1 file tablePos L.tiSize with
    | none => some .skipped
    | some _ =>
      let dataStart := (tablePos + L.tiSize) % L.ulongMod
      let dataSize := if tableSize > L.tiSize then tableSize - L.tiSize else 0
      if dataSize = 0 then some .skipped
      else if dataSize % 8 = 0 then
        if fseekOk L dataStart = false then some .skipped
        else some (.fixedRecords (fixedLoop L file t dataStart (dataSize / 8) 0 dataStart))
      else
        if heapOk L m dataSize = false then none
        else if fseekOk L dataStart = false then some .skipped
        else some (.pairCandidates (pairScan L (fillBuf file dataStart dataSize) t dataStart))

/-- The table loop of `emit_instances.cpp` over the directory indices still to
come: the insertions into `emitted`, `none` when a buffer construction throws. -/
def emitLoopRun (L : Layout) (m : Machine) (file : List Byte) (ids offsets sizes : List Nat) :
    List Nat → Option (List (Nat × Record))
  | [] => some []
  | t :: ts =>
    if ids.getD t 0 ∈ targetIds then
      match decodeTableRun L m file t (offsets.getD t 0) (sizes.getD t 0) with
      | none => none
      | some r =>
        match emitLoopRun L m file ids offsets sizes ts with
        | none => none
        | some rest => some (r.records.map (fun x => (ids.getD t 0, x)) ++ rest)
    else emitLoopRun L m file ids offsets sizes ts

/-- The function `main` of `emit_instances.cpp` on an opened file and a machine. -/
def emitInstancesRun (L : Layout) (m : Machine) (file : List Byte) :
    Pass (Outcome (Nat × Record)) :=
  match fread1 file 0 L.fhSize with
  | none => .finished { status := 4, records := [] }
  | some fh =>
    if L.fhUsed fh = 0 then .finished { status := 0, records := [] }
    else if heapOk L m (L.ulongSize * L.fhUsed fh) = false then .terminated
    else
      match loadDirectory L file with
      | .exit s => .finished { status := s, records := [] }
      | .loaded used ids offsets sizes =>
        match emitLoopRun L m file ids offsets sizes (List.range used) with
        | none => .terminated
        | some recs => .finished { status := 0, records := recs }

/-- Lines 64-101 of `scan_connectivity.cpp` as in `loadStringTable`, with the
construction of `buf` (line 79) made explicit. -/
def loadStringTableRun (L : Layout) (m : Machine) (file : List Byte) (used : Nat)
    (ids offsets sizes : List Nat) (fuel : Nat) : Pass (Pool × Nat) :=
  let stIdx := stringTableIndex used ids
  if stIdx < 0 then .finished ([], 0)
  else
    let tablePos := offsets.getD stIdx.toNat 0
    let tableSize := sizes.getD stIdx.toNat 0
    if tableSize < L.tiSize then .finished ([], 0)
    else
      let hdrPos :=
        if fseekOk L tablePos then tablePos
        else L.fhSize + L.ulongSize * used + L.ulongSize * used + L.ulongSize * used
      match fread1 file hdrPos L.tiSize with
      | none => .finished ([], 0)
      | some th =>
        let dataStart := (tablePos + L.tiSize) % L.ulongMod
        let dataSize := if tableSize > L.tiSize then tableSize - L.tiSize else 0
        if dataSize = 0 then .finished ([], L.tiUsed th)
        else if heapOk L m dataSize = false then .terminated
        else if fseekOk L dataStart = false then .finished ([], L.tiUsed th)
        else
          match poolLoop (fillBuf file dataStart dataSize)
              (slice file dataStart dataSize).length fuel 0 [] with
          | none => .running
          | some pool => .finished (pool, L.tiUsed th)

/-- Body of the table loop of `scan_connectivity.cpp` (lines 114-162) as in
`scanTable`, with the construction of `buf` (line 126) made explicit: `none`
when it throws. -/
def scanTableRun (L : Layout) (m : Machine) (file : List Byte) (pool : Pool) (stUsed : Nat)
    (t tid tablePos tableSize : Nat) : Option (List Candidate) :=
  if tableSize < L.tiSize then some []
  else if fseekOk L tablePos = false then some []
  else
    match fread1 file tablePos L.tiSize with
    | none => some []
    | some _ =>
      let dataStart := (tablePos + L.tiSize) % L.ulongMod
      let dataSize := if tableSize > L.tiSize then tableSize - L.tiSize else 0
      if dataSize = 0 then some []
      else if heapOk L m dataSize = false then none
      else if fseekOk L dataStart = false then some []
      else
        let got := (slice file dataStart dataSize).length
        if got = 0 then some []
        else some (scanLoop L pool stUsed (fillBuf file dataStart dataSize) got t tid dataStart
          got 0)

/-- The table loop of `scan_connectivity.cpp` over the directory indices still to
come: the candidates pushed, `none` when a buffer construction throws. -/
def scanTablesRun (L : Layout) (m : Machine) (file : List Byte) (pool : Pool) (stUsed : Nat)
    (used : Nat) (ids offsets sizes : List Nat) : List Nat → Option (List Candidate)
  | [] => some []
  | t :: ts =>
    if toInt t = stringTableIndex used ids then
      scanTablesRun L m file pool stUsed used ids offsets sizes ts
    else
      match scanTableRun L m file pool stUsed t (ids.getD t 0) (offsets.getD t 0)
          (sizes.getD t 0) with
      | none => none
      | some cs =>
        match scanTablesRun L m file pool stUsed used ids offsets sizes ts with
        | none => none
        | some rest => some (cs ++ rest)

/-- The function `main` of `scan_connectivity.cpp` on an opened file and a
machine. -/
def scanConnectivityRun (L : Layout) (m : Machine) (file : List Byte) (fuel : Nat) :
    Pass (Outcome Candidate) :=
  match fread1 file 0 L.fhSize with
  | none => .finished { status := 4, records := [] }
  | some fh =>
    if L.fhUsed fh = 0 then .finished { status := 0, records := [] }
    else if heapOk L m (L.ulongSize * L.fhUsed fh) = false then .terminated
    else
      match loadDirectory L file with
      | .exit s => .finished { status := s, records := [] }
      | .loaded used ids offsets sizes =>
        match loadStringTableRun L m file used ids offsets sizes fuel with
        | .terminated => .terminated
        | .running => .running
        | .finished (pool, stUsed) =>
          match scanTablesRun L m file pool stUsed used ids offsets sizes (List.range used) with
          | none => .terminated
          | some cs => .finished { status := 0, records := cs }

/-- Specification side of the fixed-record branch: record `r` holds the two
`unsigned long` values read at `dataStart + 2 * sizeof(unsigned long) * r`; the
records are those whose two fields lie wholly in the file, `n` at most. -/
def fixedSpec (L : Layout) (file : List Byte) (t dataStart n : Nat) : List Record :=
  (List.range (min n ((file.length - dataStart) / (L.ulongSize + L.ulongSize)))).map (fun r =>
    { table_index := t, record_index := r,
      instance_value := leNat (slice file (dataStart + (L.ulongSize + L.ulongSize) * r)
        L.ulongSize),
      master_value := leNat (slice file
        (dataStart + (L.ulongSize + L.ulongSize) * r + L.ulongSize) L.ulongSize),
      file_offset := (dataStart + r * 8) % L.ulongMod })

/-- Specification side of the pair scan, following the words of the
specification: the windows `p = 0, 4, 8, ...` with `p + 8 ≤ n` in increasing
order, each giving a candidate `(a, b)` unless `a = 0` and `b = 0`. The file
offset of a candidate is `wrap (dataStart + p)`. -/
def pairScanSpec (buf : List Byte) (t dataStart : Nat) (wrap : Nat → Nat) : List Record :=
  ((List.range buf.length).filter
      (fun p => decide (p % 4 = 0 ∧ p + 8 ≤ buf.length))).filterMap
    (fun p =>
      if le4 buf p = 0 ∧ le4 buf (p + 4) = 0 then none
      else some { table_index := t, record_index := p / 8, instance_value := le4 buf p,
                  master_value := le4 buf (p + 4), file_offset := wrap (dataStart + p) })

/-! ## Concrete layouts and files used to exercise the definitions -/

/-- The `n` low bytes of `v`, least significant first. -/
def encodeLE : Nat → Nat → List Byte
  | 0, _ => []
  | n + 1, v => Fin.ofNat v :: encodeLE n (v / 256)

/-- A layout with `sizeof(unsigned long) = W`, a file header of `fh` bytes whose
last four bytes are the field `used`, and a table header of `ti` bytes whose
first four bytes are the field `used`. -/
def mkLayout (W fh ti : Nat) : Layout :=
  { ulongSize := W, fhSize := fh, fhUsed := fun h => le4 h (fh - 4),
    tiSize := ti, tiUsed := fun h => le4 h 0 }

/-- The file of the end-to-end scenario of the specification, for
`sizeof(unsigned long) = W`: a 24-byte header with `used = 1`, the directory
entry `(id 0x0b, offset 64, size 24)`, padding up to offset 64, an 8-byte table
header and the two pairs `(1, 100)`, `(2, 100)` of 4-byte integers. -/
def scenarioFile (W : Nat) : List Byte :=
  List.replicate 20 0 ++ encodeLE 4 1 ++ encodeLE W 0x0b ++ encodeLE W 64 ++ encodeLE W 24
    ++ List.replicate (64 - 24 - 3 * W) 0 ++ List.replicate 8 0
    ++ encodeLE 4 1 ++ encodeLE 4 100 ++ encodeLE 4 2 ++ encodeLE 4 100

/-- A file whose directory has the single entry `(id 0x1f, offset 48, size 12)`
(8-byte `unsigned long`, 24-byte header), followed by the 12 bytes of the table. -/
def file0x1f : List Byte :=
  List.replicate 20 0 ++ encodeLE 4 1 ++ encodeLE 8 0x1f ++ encodeLE 8 48 ++ encodeLE 8 12
    ++ encodeLE 8 1 ++ encodeLE 4 7

/-- A 16-byte payload whose windows at 0, 4, 8 hold `(1, 0)`, `(0, 0)`, `(0, 2)`. -/
def samplePayload : List Byte := [1, 0, 0, 0, 0, 0, 0, 0, 0, 0, 0, 0, 2, 0, 0, 0]

/-- A file holding a 24-byte header with `used = 0` and three more bytes. -/
def emptyDirFile : List Byte := List.replicate 24 0 ++ [1, 2, 3]

/-- A file (8-byte `unsigned long`, 24-byte header, 12-byte table header) whose
only table is a string table `(0x0a, 48, 13)` with the one-byte payload `0x7f`. -/
def highByteFile : List Byte :=
  List.replicate 20 0 ++ encodeLE 4 1 ++ encodeLE 8 0x0a ++ encodeLE 8 48 ++ encodeLE 8 13
    ++ encodeLE 4 1 ++ List.replicate 8 0 ++ [127]

/-- A file (8-byte `unsigned long`, 24-byte header, 12-byte table header) with a
string table `(0x0a, 72, 17)` of payload `"AB\0CD"` and `used = 5`, and a table
`(0x0c, 96, 22)` whose payload holds the index 3 at position 1 followed by the
values 7 and 0. -/
def connectivityFile : List Byte :=
  List.replicate 20 0 ++ encodeLE 4 2
    ++ encodeLE 8 0x0a ++ encodeLE 8 0x0c
    ++ encodeLE 8 72 ++ encodeLE 8 96
    ++ encodeLE 8 17 ++ encodeLE 8 22
    ++ encodeLE 4 5 ++ List.replicate 8 0 ++ [65, 66, 0, 67, 68]
    ++ List.replicate 7 0
    ++ List.replicate 12 0 ++ [9, 3, 0] ++ encodeLE 4 7 ++ encodeLE 4 0

/-- The payload `"AB\0CD"` of the specification. -/
def payloadABCD : List Byte := [65, 66, 0, 67, 68]

/-- The payload `"AB\x7fCD"`. -/
def payloadAB7fCD : List Byte := [65, 66, 127, 67, 68]

/-- The file `connectivityFile` with the declared size of its string table, the
field `used` of the string table header and the declared size of its second
table as parameters: `connectivityFile = connFile 17 5 22`. -/
def connFile (stSize stUsed tblSize : Nat) : List Byte :=
  List.replicate 20 0 ++ encodeLE 4 2
    ++ encodeLE 8 0x0a ++ encodeLE 8 0x0c
    ++ encodeLE 8 72 ++ encodeLE 8 96
    ++ encodeLE 8 stSize ++ encodeLE 8 tblSize
    ++ encodeLE 4 stUsed ++ List.replicate 8 0 ++ [65, 66, 0, 67, 68]
    ++ List.replicate 7 0
    ++ List.replicate 12 0 ++ [9, 3, 0] ++ encodeLE 4 7 ++ encodeLE 4 0

/-- A database-map table with the counts `numRes = 1`, `numData = 0`, one resource
id (7) and one resource type (3). -/
def dbMapFile : List Byte := encodeLE 4 1 ++ encodeLE 4 0 ++ encodeLE 8 7 ++ encodeLE 4 3

/-- A database-map table with the counts `numRes = 1`, `numData = 3`: one resource
`(7, 3)` and two tables `(8, 4)`, `(9, 5)`. -/
def dbMapFileOk : List Byte :=
  encodeLE 4 1 ++ encodeLE 4 3 ++ encodeLE 8 7 ++ encodeLE 4 3
    ++ encodeLE 8 8 ++ encodeLE 8 9 ++ encodeLE 4 4 ++ encodeLE 4 5

/-- A build-information table of 40 bytes: 8 bytes of revision fields, then the
strings `"ABCDEFGH"` (8 characters, in a 16-byte slot), `"kit"` and `"lnx"`
(8-byte slots). -/
def buildInfoFile : List Byte :=
  encodeLE 2 1 ++ encodeLE 2 2 ++ encodeLE 2 3 ++ encodeLE 2 4
    ++ [65, 66, 67, 68, 69, 70, 71, 72] ++ List.replicate 8 0
    ++ [107, 105, 116] ++ List.replicate 5 0
    ++ [108, 110, 120] ++ List.replicate 5 0

/-- A build-information table of 24 bytes: 8 bytes of revision fields, then only
the strings `"app"` and `"kit"` in 8-byte slots; nothing follows. -/
def buildInfoFileTight : List Byte :=
  encodeLE 2 1 ++ encodeLE 2 2 ++ encodeLE 2 3 ++ encodeLE 2 4
    ++ [97, 112, 112] ++ List.replicate 5 0
    ++ [107, 105, 116] ++ List.replicate 5 0

/-- A file for an 8-byte `unsigned long` and a 24-byte header: the header with
`used` set to the number of entries, the three directory arrays built from the
`(id, offset, size)` triples, and then `body`, which so starts at offset
`24 + 24 * used`. -/
def mkFile (entries : List (Nat × Nat × Nat)) (body : List Byte) : List Byte :=
  List.replicate 20 0 ++ encodeLE 4 entries.length
    ++ entries.flatMap (fun e => encodeLE 8 e.1)
    ++ entries.flatMap (fun e => encodeLE 8 e.2.1)
    ++ entries.flatMap (fun e => encodeLE 8 e.2.2)
    ++ body

/-- A file whose only table, `(0x1d, 48, 40)`, is `buildInfoFile`. -/
def buildInfoTableFile : List Byte := mkFile [(0x1d, 48, 40)] buildInfoFile

/-- A file whose only table, `(0x1d, 48, 24)`, is `buildInfoFileTight`. -/
def buildInfoTightTableFile : List Byte := mkFile [(0x1d, 48, 24)] buildInfoFileTight

/-- A file whose only directory entry has the id `2^32 + 0x0b`, with a 12-byte
table at offset 48. -/
def highIdFile : List Byte := mkFile [(2 ^ 32 + 0x0b, 48, 12)] (List.replicate 12 0)

/-- A 12-byte payload whose windows at 0 and 4 hold `(1, 5)` and `(5, 9)`. -/
def overlapPayload : List Byte := [1, 0, 0, 0, 5, 0, 0, 0, 9, 0, 0, 0]

/-- A file (8-byte `unsigned long`, 24-byte header, 12-byte table header) with three
tables: `(0x0c, 96, 24)`, the string table `(0x0a, 120, 17)` of payload
`"AB\0CD"` with `used = 5`, and `(0x0d, 137, 18)`. The payload of table 0 gives
candidates at the positions 0, 4 and 6, that of table 2 at the position 0. -/
def orderFile : List Byte :=
  mkFile [(0x0c, 96, 24), (0x0a, 120, 17), (0x0d, 137, 18)]
    (List.replicate 12 0 ++ [3, 0, 7, 0, 0, 0, 3, 0, 8, 0, 0, 0]
      ++ encodeLE 4 5 ++ List.replicate 8 0 ++ [65, 66, 0, 67, 68]
      ++ List.replicate 12 0 ++ [3, 0, 9, 0, 0, 0])

/-- A file (8-byte `unsigned long`, 24-byte header, 12-byte table header) with the
directory entries `(0x0b, 36, 20)` and `(0x0c, off, 0)` and nothing after the
directory. The table of the first entry is declared inside the directory: its
8 payload bytes at `[48, 56)` are the offset field of the second entry. -/
def overlapFile (off : Nat) : List Byte := mkFile [(0x0b, 36, 20), (0x0c, off, 0)] []

/-- A file with an index-base entry `(1, base, 0)`, the string table `(0x0a, 96, 17)`
of payload `"AB\0CD"` with `used = 5`, and a table `(0x04, 113, 18)` whose payload
holds the index 3 followed by the value 9. -/
def indexBaseFile (base : Nat) : List Byte :=
  mkFile [(1, base, 0), (0x0a, 96, 17), (0x04, 113, 18)]
    (encodeLE 4 5 ++ List.replicate 8 0 ++ [65, 66, 0, 67, 68]
      ++ List.replicate 12 0 ++ [3, 0, 9, 0, 0, 0])

/-- A file (8-byte `unsigned long`, 24-byte header, 12-byte table header) with an
index-base entry `(1, base, 0)` and an instance table `(0x0b, 72, 28)` placed
after the directory, holding the pair `(1, 100)` of 8-byte integers. -/
def baseAndInstanceFile (base : Nat) : List Byte :=
  mkFile [(1, base, 0), (0x0b, 72, 28)] (List.replicate 12 0 ++ encodeLE 8 1 ++ encodeLE 8 100)

/-- A machine with 4 GiB for the largest allocation, 8 MiB of stack, and no
readable byte after the array of `read0x1d`. -/
def stdMachine : Machine := { heap := 2 ^ 32, stack := 2 ^ 23, beyond := [] }

/-- A file with two instance tables: table 0, `(0x0b, 72, v)`, has the declared
size `v`, its 12-byte header at `[72, 84)` and the 8 payload bytes `(7, 8)` at
`[84, 92)`; table 1, `(0x0b, 92, 28)`, holds the pair `(1, 100)` of 8-byte
integers at `[104, 120)`, where the file ends. -/
def recoveryFile (v : Nat) : List Byte :=
  mkFile [(0x0b, 72, v), (0x0b, 92, 28)]
    (List.replicate 12 0 ++ encodeLE 4 7 ++ encodeLE 4 8
      ++ List.replicate 12 0 ++ encodeLE 8 1 ++ encodeLE 8 100)

/-- A file with two instance tables, `(0x0b, 52, 24)` and `(0x0b, 72, v)`. The
first one is declared inside the directory: its 12 payload bytes at `[64, 76)`
are the size field of the second entry and the first 4 bytes after the
directory. -/
def sizeOverlapFile (v : Nat) : List Byte :=
  mkFile [(0x0b, 52, 24), (0x0b, 72, v)]
    (List.replicate 12 0 ++ encodeLE 8 1 ++ encodeLE 8 100)

/-- The file `orderFile` with the declared size of its table 0 as a parameter:
`(0x0c, 96, v)`, the string table `(0x0a, 120, 17)` and `(0x0d, 137, 18)`. -/
def scanFile (v : Nat) : List Byte :=
  mkFile [(0x0c, 96, v), (0x0a, 120, 17), (0x0d, 137, 18)]
    (List.replicate 12 0 ++ [3, 0, 7, 0, 0, 0, 3, 0, 8, 0, 0, 0]
      ++ encodeLE 4 5 ++ List.replicate 8 0 ++ [65, 66, 0, 67, 68]
      ++ List.replicate 12 0 ++ [3, 0, 9, 0, 0, 0])

/-- A file with an index-base entry `(1, base, 0)`, the string table `(0x0a, 96, 17)`
of payload `"AB\0CD"` with `used = 5`, and a table `(0x04, 34, 22)` declared
inside the directory: its 10 payload bytes at `[46, 56)` are the last two bytes
of the id array and the offset field of the index-base entry. -/
def baseOverlapFile (base : Nat) : List Byte :=
  mkFile [(1, base, 0), (0x0a, 96, 17), (0x04, 34, 22)]
    (encodeLE 4 5 ++ List.replicate 8 0 ++ [65, 66, 0, 67, 68])

/-- A file whose only table is the instance table `(0x0b, 48, size)`: a 12-byte
table header at `[48, 60)` and the four 4-byte integers 1, 100, 2, 100 at
`[60, 76)`, where the file ends. -/
def partialFile (size : Nat) : List Byte :=
  mkFile [(0x0b, 48, size)]
    (List.replicate 12 0 ++ encodeLE 4 1 ++ encodeLE 4 100 ++ encodeLE 4 2 ++ encodeLE 4 100)

/-- A file whose only table is the instance table `(0x0b, 48, size)`: a 12-byte
table header at `[48, 60)` and `body` from offset 60 on. -/
def shapeFile (size : Nat) (body : List Byte) : List Byte :=
  mkFile [(0x0b, 48, size)] (List.replicate 12 0 ++ body)

/-- The table of `shapeFile 20 (encodeLE 4 1 ++ encodeLE 4 100)` in a file for a
4-byte `unsigned long`: a 24-byte header with `used = 1`, the directory entry
`(0x0b, 36, 20)`, a 12-byte table header at `[36, 48)` and the pair `(1, 100)`
of 4-byte integers at `[48, 56)`. -/
def shapeFile32 : List Byte :=
  List.replicate 20 0 ++ encodeLE 4 1 ++ encodeLE 4 0x0b ++ encodeLE 4 36 ++ encodeLE 4 20
    ++ List.replicate 12 0 ++ encodeLE 4 1 ++ encodeLE 4 100

/-- A file with the undersized instance table `(0x0b, 72, 4)` followed by the
flags table `(0x04, 76, 4)`. -/
def abortFile : List Byte :=
  mkFile [(0x0b, 72, 4), (0x04, 76, 4)] (encodeLE 4 9 ++ encodeLE 4 5)

/-- A file with the database-map table `(0x07, 72, 20)`, which is `dbMapFile`
(counts `numRes = 1`, `numData = 0`), followed by the flags table
`(0x04, 92, 4)`. -/
def dbMapAbortFile : List Byte :=
  mkFile [(0x07, 72, 20), (0x04, 92, 4)] (dbMapFile ++ encodeLE 4 5)

/-- A file whose only table, `(0x07, 48, 44)`, is `dbMapFileOk`. -/
def dbMapOkTableFile : List Byte := mkFile [(0x07, 48, 44)] dbMapFileOk

/-- A file whose only table, `(0x1d, 48, 16)`, holds 8 bytes of revision fields
and the 8 characters `"ABCDEFGH"` with no terminator; the file ends there. -/
def unterminatedTableFile : List Byte :=
  mkFile [(0x1d, 48, 16)]
    (encodeLE 2 1 ++ encodeLE 2 2 ++ encodeLE 2 3 ++ encodeLE 2 4
      ++ [65, 66, 67, 68, 69, 70, 71, 72])

/-- The machine `stdMachine` with the bytes `"X\0"`, six zeros and `"K\0"` in the
memory after the array `buffer` of `read0x1d`. -/
def dirtyStackMachine : Machine :=
  { heap := 2 ^ 32, stack := 2 ^ 23, beyond := [88, 0, 0, 0, 0, 0, 0, 0, 75, 0] }

end oafp

/-! # Theorems -/

namespace oafp

/-! ## Helper lemmas: emit_instances -/

theorem dataSize_eq (size ti : Nat) : (if size > ti then size - ti else 0) = size - ti := by
  split_ifs <;> omega

theorem half_le_ulongMod (L : Layout) : 2 ^ (8 * L.ulongSize - 1) ≤ L.ulongMod := by
  unfold Layout.ulongMod
  exact Nat.pow_le_pow_right (by decide) (by omega)

theorem fseekOk_of_lt (L : Layout) (pos : Nat) (h : pos < 2 ^ (8 * L.ulongSize - 1)) :
    fseekOk L pos = true := by
  simp [fseekOk, h]

theorem fread1_of_le (file : List Byte) (pos size : Nat) (h0 : 0 < size)
    (h : pos + size ≤ file.length) : fread1 file pos size = some (slice file pos size) := by
  unfold fread1
  rw [if_neg (by omega), if_pos h]

theorem decodeTable_fixed_mod (L : Layout) (file : List Byte) (t pos size : Nat)
    (rs : List Record) (h : decodeTable L file t pos size = .fixedRecords rs) :
    (size - L.tiSize) % 8 = 0 := by
  unfold decodeTable at h
  simp only [dataSize_eq] at h
  cases hr : fread1 file pos L.tiSize with
  | none => simp [hr] at h
  | some hd =>
    simp only [hr] at h
    split_ifs at h with h1 h2 h3 h4 h5 h6
    exact h4

theorem decodeTable_pair_mod (L : Layout) (file : List Byte) (t pos size : Nat)
    (rs : List Record) (h : decodeTable L file t pos size = .pairCandidates rs) :
    (size - L.tiSize) % 8 ≠ 0 := by
  unfold decodeTable at h
  simp only [dataSize_eq] at h
  cases hr : fread1 file pos L.tiSize with
  | none => simp [hr] at h
  | some hd =>
    simp only [hr] at h
    split_ifs at h with h1 h2 h3 h4 h5 h6
    exact h4

theorem decodeTable_reached (L : Layout) (file : List Byte) (t pos size : Nat)
    (hsize : L.tiSize ≤ size) (hseek : fseekOk L pos = true)
    (hread : fread1 file pos L.tiSize ≠ none)
    (hseek2 : fseekOk L ((pos + L.tiSize) % L.ulongMod) = true)
    (hs : size - L.tiSize ≠ 0) :
    decodeTable L file t pos size =
      if (size - L.tiSize) % 8 = 0 then
        .fixedRecords (fixedLoop L file t ((pos + L.tiSize) % L.ulongMod)
          ((size - L.tiSize) / 8) 0 ((pos + L.tiSize) % L.ulongMod))
      else
        .pairCandidates (pairScan L
          (fillBuf file ((pos + L.tiSize) % L.ulongMod) (size - L.tiSize)) t
          ((pos + L.tiSize) % L.ulongMod)) := by
  unfold decodeTable
  simp only [dataSize_eq]
  have h1 : ¬ size < L.tiSize := by omega
  cases hr : fread1 file pos L.tiSize with
  | none => exact absurd hr hread
  | some hd => simp [h1, hseek, hseek2, hs]

/-- A table header that lies in a file the platform can address is read, and
the data section can be sought. -/
theorem decodeTable_in_file (L : Layout) (file : List Byte) (t pos size : Nat)
    (hti : 0 < L.tiSize) (hlen : file.length < 2 ^ (8 * L.ulongSize - 1))
    (hhdr : pos + L.tiSize ≤ file.length) (hs : L.tiSize < size) :
    decodeTable L file t pos size =
      if (size - L.tiSize) % 8 = 0 then
        .fixedRecords (fixedLoop L file t (pos + L.tiSize) ((size - L.tiSize) / 8) 0
          (pos + L.tiSize))
      else
        .pairCandidates (pairScan L (fillBuf file (pos + L.tiSize) (size - L.tiSize)) t
          (pos + L.tiSize)) := by
  have hM := half_le_ulongMod L
  have hmod : (pos + L.tiSize) % L.ulongMod = pos + L.tiSize :=
    Nat.mod_eq_of_lt (by omega)
  have h := decodeTable_reached L file t pos size (by omega)
    (fseekOk_of_lt L pos (by omega))
    (by rw [fread1_of_le file pos L.tiSize hti hhdr]; simp)
    (by rw [hmod]; exact fseekOk_of_lt L _ (by omega)) (by omega)
  rw [hmod] at h
  exact h

theorem pairLoop_eq (L : Layout) (buf : List Byte) (t ds : Nat) :
    ∀ (fuel p : Nat), (buf.length - p - 4) / 4 ≤ fuel →
      pairLoop L buf t ds fuel p =
        (List.range' p ((buf.length - p - 4) / 4) 4).filterMap (fun q =>
          if le4 buf q = 0 ∧ le4 buf (q + 4) = 0 then none
          else some { table_index := t, record_index := q / 8, instance_value := le4 buf q,
                      master_value := le4 buf (q + 4),
                      file_offset := (ds + q) % L.ulongMod }) := by
  intro fuel
  induction fuel with
  | zero =>
    intro p h
    have h0 : (buf.length - p - 4) / 4 = 0 := by omega
    simp [pairLoop, h0]
  | succ n ih =>
    intro p h
    unfold pairLoop
    by_cases hp : p + 7 < buf.length
    · have hk : (buf.length - p - 4) / 4 = (buf.length - (p + 4) - 4) / 4 + 1 := by omega
      have hn : (buf.length - (p + 4) - 4) / 4 ≤ n := by omega
      rw [if_pos hp, hk, List.range'_succ, ih (p + 4) hn]
      by_cases hz : le4 buf p = 0 ∧ le4 buf (p + 4) = 0
      · rw [if_pos hz, List.filterMap_cons_none]
        rw [if_pos hz]
      · rw [if_neg hz, List.filterMap_cons_some]
        rw [if_neg hz]
    · have h0 : (buf.length - p - 4) / 4 = 0 := by omega
      rw [if_neg hp, h0]
      simp

theorem windows_eq (n : Nat) :
    (List.range n).filter (fun p => decide (p % 4 = 0 ∧ p + 8 ≤ n)) =
      List.range' 0 ((n - 4) / 4) 4 := by
  apply List.eq_of_perm_of_sorted (r := (· < ·))
  · rw [List.perm_ext_iff_of_nodup ((List.nodup_range n).filter _)
      (List.nodup_range' 0 _ 4 (by decide))]
    intro a
    simp only [List.mem_filter, List.mem_range, decide_eq_true_eq, List.mem_range']
    constructor
    · rintro ⟨h1, h2, h3⟩
      exact ⟨a / 4, by omega, by omega⟩
    · rintro ⟨i, hi, rfl⟩
      omega
  · exact (List.pairwise_lt_range n).filter _
  · exact List.pairwise_lt_range' 0 _ 4 (by decide)

theorem pairScan_eq_spec (L : Layout) (buf : List Byte) (t ds : Nat) :
    pairScan L buf t ds = pairScanSpec buf t ds (fun x => x % L.ulongMod) := by
  unfold pairScan pairScanSpec
  rw [windows_eq, pairLoop_eq L buf t ds buf.length 0 (by omega)]
  simp

/-! ## Claims -/

/-- C3: pair scan. The candidate sequence of the heuristic branch is exactly the
sequence of the windows `p = 0, 4, 8, ...` with `p + 8 ≤ n`, in increasing `p`,
whose two 4-byte little-endian integers are not both zero, each candidate
carrying `(a, b)` and the file offset `dataStart + p` (as an `unsigned long`;
the plain sum when that sum is representable); a payload shorter than 8 bytes
yields no candidate; and the `(a, b)` sequence depends on the payload bytes
alone. -/
theorem C3_pair_scan_exact (L : Layout) (buf : List Byte) (t dataStart : Nat) :
    pairScan L buf t dataStart = pairScanSpec buf t dataStart (fun x => x % L.ulongMod)
    ∧ (dataStart + buf.length ≤ L.ulongMod →
        pairScan L buf t dataStart = pairScanSpec buf t dataStart id)
    ∧ (buf.length < 8 → pairScan L buf t dataStart = [])
    ∧ (∀ (L' : Layout) (t' dataStart' : Nat),
        (pairScan L' buf t' dataStart').map (fun r => (r.instance_value, r.master_value)) =
          (pairScan L buf t dataStart).map (fun r => (r.instance_value, r.master_value))) := by
  refine ⟨pairScan_eq_spec L buf t dataStart, ?_, ?_, ?_⟩
  · intro h
    rw [pairScan_eq_spec]
    unfold pairScanSpec
    apply List.filterMap_congr
    intro p hp
    simp only [List.mem_filter, List.mem_range, decide_eq_true_eq] at hp
    have : (dataStart + p) % L.ulongMod = dataStart + p := Nat.mod_eq_of_lt (by omega)
    simp [this]
  · intro h
    rw [pairScan_eq_spec]
    unfold pairScanSpec
    have : (List.range buf.length).filter
        (fun p => decide (p % 4 = 0 ∧ p + 8 ≤ buf.length)) = [] := by
      rw [List.filter_eq_nil_iff]
      intro a _
      simp only [decide_eq_true_eq]
      omega
    rw [this]
    rfl
  · intro L' t' ds'
    rw [pairScan_eq_spec, pairScan_eq_spec]
    unfold pairScanSpec
    simp only [List.map_filterMap]
    apply List.filterMap_congr
    intro p _
    by_cases hz : le4 buf p = 0 ∧ le4 buf (p + 4) = 0
    · simp [hz]
    · simp [hz]


/-- Witness of C3 on `samplePayload` placed at file offset 72: the candidates are
those of the windows 0 and 8, the all-zero window 4 being the one filtered. -/
theorem C3_pair_scan_exact_witness :
    72 + samplePayload.length ≤ (mkLayout 8 24 8).ulongMod
    ∧ pairScan (mkLayout 8 24 8) samplePayload 0 72 = pairScanSpec samplePayload 0 72 id
    ∧ pairScanSpec samplePayload 0 72 id =
        [{ table_index := 0, record_index := 0, instance_value := 1, master_value := 0,
           file_offset := 72 },
         { table_index := 0, record_index := 1, instance_value := 0, master_value := 2,
           file_offset := 80 }] :=
  ⟨by decide, (C3_pair_scan_exact (mkLayout 8 24 8) samplePayload 0 72).2.1 (by decide),
    by decide⟩

/-! ### The fixed-record branch -/

theorem byteAt_drop (l : List Byte) (n i : Nat) : byteAt (l.drop n) i = byteAt l (n + i) := by
  simp [byteAt, List.getD_eq_getElem?_getD, List.getElem?_drop]

theorem leNat_take4 (l : List Byte) (h : 4 ≤ l.length) : leNat (l.take 4) = le4 l 0 := by
  match l, h with
  | a :: b :: c :: d :: rest, _ =>
    simp [leNat, le4, byteAt]
    omega

theorem leNat_slice4 (file : List Byte) (cur : Nat) (h : cur + 4 ≤ file.length) :
    leNat (slice file cur 4) = le4 file cur := by
  unfold slice
  rw [leNat_take4 _ (by rw [List.length_drop]; omega)]
  simp [le4, byteAt_drop]

theorem fixedLoop_ulong4 (L : Layout) (hW : L.ulongSize = 4) (file : List Byte)
    (t ds : Nat) :
    ∀ (n r : Nat), ds + 8 * (r + n) ≤ file.length →
      fixedLoop L file t ds n r (ds + 8 * r) =
        (List.range' r n).map (fun i =>
          { table_index := t, record_index := i, instance_value := le4 file (ds + 8 * i),
            master_value := le4 file (ds + 8 * i + 4),
            file_offset := (ds + i * 8) % L.ulongMod }) := by
  intro n
  induction n with
  | zero => intro r _; simp [fixedLoop]
  | succ n ih =>
    intro r h
    unfold fixedLoop
    rw [hW, fread1_of_le file _ 4 (by decide) (by omega),
      fread1_of_le file _ 4 (by decide) (by omega)]
    simp only
    rw [leNat_slice4 file _ (by omega), leNat_slice4 file _ (by omega)]
    have hcur : ds + 8 * r + 4 + 4 = ds + 8 * (r + 1) := by omega
    rw [hcur, ih (r + 1) (by omega), List.range'_succ]
    simp

/-- On a platform whose `unsigned long` has 4 bytes, a table that lies wholly in
the file and has `s = size - payloadHeaderSize` a positive multiple of 8 is
decoded into exactly `s / 8` records, record `r` holding the two 4-byte
little-endian integers at payload offsets `8r` and `8r + 4` and the file offset
`tableOffset + payloadHeaderSize + 8r`. -/
theorem fixed_decode_ulong4 (L : Layout) (hW : L.ulongSize = 4) (file : List Byte)
    (t pos size : Nat) (hti : 0 < L.tiSize) (hlen : file.length < 2 ^ 31)
    (hin : pos + size ≤ file.length) (hs : L.tiSize < size)
    (hm : (size - L.tiSize) % 8 = 0) :
    decodeTable L file t pos size =
      .fixedRecords ((List.range ((size - L.tiSize) / 8)).map (fun r =>
        { table_index := t, record_index := r,
          instance_value := le4 file (pos + L.tiSize + 8 * r),
          master_value := le4 file (pos + L.tiSize + 8 * r + 4),
          file_offset := pos + L.tiSize + 8 * r })) := by
  have hlen2 : file.length < 2 ^ (8 * L.ulongSize - 1) := by rw [hW]; exact hlen
  have hM : (2:Nat) ^ 31 ≤ L.ulongMod := by
    have := half_le_ulongMod L
    rw [hW] at this
    exact this
  rw [decodeTable_in_file L file t pos size hti hlen2 (by omega) hs, if_pos hm]
  have h := fixedLoop_ulong4 L hW file t (pos + L.tiSize) ((size - L.tiSize) / 8) 0 (by omega)
  simp only [Nat.mul_zero, Nat.add_zero] at h
  rw [h, List.range_eq_range']
  congr 1
  apply List.map_congr_left
  intro i hi
  simp only [List.mem_range'_1] at hi
  have : (pos + L.tiSize + i * 8) % L.ulongMod = pos + L.tiSize + 8 * i := by
    rw [Nat.mod_eq_of_lt (by omega)]
    omega
  rw [this]

/-- The scenario of the specification on a platform with a 4-byte
`unsigned long`: exactly the two records `1 -> 100`, `2 -> 100` at file
offsets 72 and 80. -/
theorem scenario_ulong4 :
    (emitInstances (mkLayout 4 24 8) (scenarioFile 4)).records =
      [(0x0b, { table_index := 0, record_index := 0, instance_value := 1,
                master_value := 100, file_offset := 72 }),
       (0x0b, { table_index := 0, record_index := 1, instance_value := 2,
                master_value := 100, file_offset := 80 })] := by
  decide

/-- C2 (evaluation at the failing input): with an 8-byte `unsigned long` the
fixed-record loop reads `sizeof(unsigned long)` bytes for each of the two
fields, so on the scenario file (two 4-byte pairs `(1, 100)`, `(2, 100)` after
an 8-byte table header at offset 64) it emits one record, whose fields are the
8-byte integers at payload offsets 0 and 8, and not the two records
`1 -> 100`, `2 -> 100`. -/
theorem C2_fixed_decode_reads_ulong_fields :
    (emitInstances (mkLayout 8 24 8) (scenarioFile 8)).records =
      [(0x0b, { table_index := 0, record_index := 0,
                instance_value := 1 + 100 * 2 ^ 32, master_value := 2 + 100 * 2 ^ 32,
                file_offset := 72 })] := by
  decide

/-! ### The dispatch loop of `parse` -/

theorem find_range_none (P : Nat → Bool) (n : Nat) (h : ∀ j, j < n → P j = false) :
    (List.range n).find? P = none := by
  rw [List.find?_eq_none]
  intro x hx
  rw [List.mem_range] at hx
  simp [h x hx]

theorem find_range_first (P : Nat → Bool) (n i : Nat) (hi : i < n) (hP : P i = true)
    (hmin : ∀ j, j < i → P j = false) : (List.range n).find? P = some i := by
  have hsplit : List.range n = List.range i ++ (List.range (n - i)).map (i + ·) := by
    rw [← List.range_add]
    congr 1
    omega
  obtain ⟨m, hm⟩ : ∃ m, n - i = m + 1 := ⟨n - i - 1, by omega⟩
  rw [hsplit, List.find?_append, find_range_none P i hmin, hm, List.range_succ_eq_map]
  simp [hP]

theorem find_range_some (P : Nat → Bool) (n i : Nat)
    (h : (List.range n).find? P = some i) :
    i < n ∧ P i = true ∧ ∀ j, j < i → P j = false := by
  have hi : i < n := List.mem_range.1 (List.mem_of_find?_eq_some h)
  have hP : P i = true := List.find?_some h
  refine ⟨hi, hP, ?_⟩
  intro j hj
  by_contra hne
  have hPj : P j = true := by simpa using hne
  -- the least index satisfying `P` below `j + 1`
  have hex : ∃ k, k ≤ j ∧ P k = true := ⟨j, le_refl j, hPj⟩
  classical
  let k := Nat.find hex
  have hk : k ≤ j ∧ P k = true := Nat.find_spec hex
  have hkmin : ∀ m, m < k → P m = false := by
    intro m hm
    have := Nat.find_min hex hm
    by_contra hc
    exact this ⟨by omega, by simpa using hc⟩
  have := find_range_first P n k (by omega) hk.2 hkmin
  rw [this] at h
  have : k = i := by simpa using h
  omega

theorem toInt_small (v : Nat) (h : v < 2 ^ 31) : toInt v = (v : Int) := by
  unfold toInt
  have h1 : v % 2 ^ 32 = v := Nat.mod_eq_of_lt (by omega)
  rw [h1, if_pos h]

theorem parseCalls_getElem (L : Layout) (used : Nat) (ids offsets sizes : List Nat)
    (i : Nat) (hi : i < used) :
    (parseCalls L used ids offsets sizes)[i]? =
      some (dispatch L (startOffset used ids offsets) (ids.getD i 0) (offsets.getD i 0)
        (sizes.getD i 0)) := by
  unfold parseCalls
  rw [List.getElem?_map, List.getElem?_range hi]
  rfl

theorem dispatch_index_relative (L : Layout) (start id off size : Nat)
    (hid : id ∈ [0x04, 0x05, 0x06, 0x07, 0x19, 0x1c, 0x1d, 0x28]) :
    ∃ d, dispatch L start id off size = some ⟨d, (start + off) % L.ulongMod, size⟩ := by
  simp only [List.mem_cons, List.mem_singleton, List.not_mem_nil, or_false] at hid
  rcases hid with h | h | h | h | h | h | h | h <;> subst h
  · exact ⟨.read0x04, by simp [dispatch, toInt]⟩
  · exact ⟨.read0x05, by simp [dispatch, toInt]⟩
  · exact ⟨.read0x06, by simp [dispatch, toInt]⟩
  · exact ⟨.read0x07, by simp [dispatch, toInt]⟩
  · exact ⟨.read0x19, by simp [dispatch, toInt]⟩
  · exact ⟨.read0x1c, by simp [dispatch, toInt]⟩
  · exact ⟨.read0x1d, by simp [dispatch, toInt]⟩
  · exact ⟨.read0x28, by simp [dispatch, toInt]⟩

/-- The regime of every `case` label of the switch. -/
theorem dispatch_regime (L : Layout) (start off size : Nat) :
    dispatch L start 0x04 off size = some ⟨.read0x04, (start + off) % L.ulongMod, size⟩
    ∧ dispatch L start 0x05 off size = some ⟨.read0x05, (start + off) % L.ulongMod, size⟩
    ∧ dispatch L start 0x06 off size = some ⟨.read0x06, (start + off) % L.ulongMod, size⟩
    ∧ dispatch L start 0x07 off size = some ⟨.read0x07, (start + off) % L.ulongMod, size⟩
    ∧ dispatch L start 0x19 off size = some ⟨.read0x19, (start + off) % L.ulongMod, size⟩
    ∧ dispatch L start 0x1c off size = some ⟨.read0x1c, (start + off) % L.ulongMod, size⟩
    ∧ dispatch L start 0x1d off size = some ⟨.read0x1d, (start + off) % L.ulongMod, size⟩
    ∧ dispatch L start 0x28 off size = some ⟨.read0x28, (start + off) % L.ulongMod, size⟩
    ∧ dispatch L start 0x0a off size = some ⟨.read0x0a, off, size⟩
    ∧ dispatch L start 0x0b off size = some ⟨.read0x0b, off, size⟩
    ∧ dispatch L start 0x0101 off size = some ⟨.read0x0b, off, size⟩ := by
  refine ⟨?_, ?_, ?_, ?_, ?_, ?_, ?_, ?_, ?_, ?_, ?_⟩ <;> simp [dispatch, toInt]

/-- C8 (evaluation at the failing input): the switch of `parse` has no `case 0x1f`,
so a directory entry with id `0x1f` makes no decoder call (`read0x1f` is never
invoked), whatever its offset and size; on the file `file0x1f`, whose only
table has id `0x1f`, `parse` calls no decoder at all. -/
theorem C8_no_case_for_0x1f (L : Layout) (start off size : Nat) :
    dispatch L start 0x1f off size = none
    ∧ parseCalls L 1 [0x1f] [off] [size] = [none]
    ∧ parse (mkLayout 8 24 12) file0x1f = some [] := by
  have h : ∀ s, dispatch L s 0x1f off size = none := by
    intro s
    simp [dispatch, toInt]
  refine ⟨h start, ?_, by decide⟩
  have hc : parseCalls L 1 [0x1f] [off] [size] =
      [dispatch L (startOffset 1 [0x1f] [off]) 0x1f off size] := rfl
  rw [hc, h]

theorem slice_slice (file : List Byte) (pos n a b : Nat) (h : a + b ≤ n) :
    slice (slice file pos n) a b = slice file (pos + a) b := by
  unfold slice
  rw [List.drop_take, List.take_take, List.drop_drop]
  congr 1
  omega

theorem decodeULongs_slice (L : Layout) (file : List Byte) (pos used : Nat) :
    decodeULongs L (slice file pos (L.ulongSize * used)) used =
      (List.range used).map (fun i =>
        leNat (slice file (pos + L.ulongSize * i) L.ulongSize)) := by
  unfold decodeULongs
  apply List.map_congr_left
  intro i hi
  rw [List.mem_range] at hi
  unfold ulongAt
  rw [slice_slice]
  calc L.ulongSize * i + L.ulongSize = L.ulongSize * (i + 1) := by ring
    _ ≤ L.ulongSize * used := Nat.mul_le_mul_left _ hi

/-! ### Header and directory reads -/

theorem fread1_short (file : List Byte) (pos size : Nat) (h : file.length < pos + size) :
    fread1 file pos size = none := by
  unfold fread1
  split_ifs
  · rfl
  · omega
  · rfl

theorem emitInstances_exit (L : Layout) (file : List Byte) (s : Nat)
    (h : loadDirectory L file = .exit s) :
    emitInstances L file = { status := s, records := [] } := by
  unfold emitInstances
  rw [h]

theorem scanConnectivity_exit (L : Layout) (file : List Byte) (s : Nat)
    (h : loadDirectory L file = .exit s) (fuel : Nat) :
    scanConnectivity L file fuel = some { status := s, records := [] } := by
  unfold scanConnectivity
  rw [h]

theorem parseDirectory_of_loaded (L : Layout) (file : List Byte) (used : Nat)
    (ids offsets sizes : List Nat)
    (h : loadDirectory L file = .loaded used ids offsets sizes) :
    parseDirectory L file = some (used, ids, offsets, sizes) := by
  unfold loadDirectory at h
  unfold parseDirectory
  cases hr : fread1 file 0 L.fhSize with
  | none => simp [hr] at h
  | some fh =>
    simp only [hr] at h ⊢
    split_ifs at h with h0
    rw [if_neg h0]
    cases h1 : fread1 file L.fhSize (L.ulongSize * L.fhUsed fh) with
    | none => simp [h1] at h
    | some b1 =>
      simp only [h1] at h ⊢
      cases h2 : fread1 file (L.fhSize + L.ulongSize * L.fhUsed fh)
          (L.ulongSize * L.fhUsed fh) with
      | none => simp [h2] at h
      | some b2 =>
        simp only [h2] at h ⊢
        cases h3 : fread1 file (L.fhSize + L.ulongSize * L.fhUsed fh
            + L.ulongSize * L.fhUsed fh) (L.ulongSize * L.fhUsed fh) with
        | none => simp [h3] at h
        | some b3 =>
          simp only [h3] at h ⊢
          injection h with e1 e2 e3 e4
          subst e1 e2 e3 e4
          rfl


/-- C9: directory loading (`emit_instances.cpp` and `scan_connectivity.cpp`). A
file shorter than the header ends the run with status 4; with `used > 0`, a
file in which the `ids`, the `offsets` or the `sizes` array cannot be read in
full ends it with status 5, 6 or 7; every such exit leaves the record
collection of both tools empty. Otherwise the directory is loaded with
`used` entries, entry `i` of `ids`, `offsets`, `sizes` being the
`unsigned long` at `fhSize + W*i`, `fhSize + W*used + W*i`,
`fhSize + W*used + W*used + W*i` (the three arrays follow the header in that
order), each array has length `used`, and `parse` reads the same directory. -/
theorem C9_directory_loading (L : Layout) (file : List Byte)
    (hW : 0 < L.ulongSize) (hfh : 0 < L.fhSize) :
    (file.length < L.fhSize → loadDirectory L file = .exit 4)
    ∧ (L.fhSize ≤ file.length → 0 < L.fhUsed (slice file 0 L.fhSize) →
        (file.length < L.fhSize + L.ulongSize * L.fhUsed (slice file 0 L.fhSize) →
          loadDirectory L file = .exit 5)
        ∧ (L.fhSize + L.ulongSize * L.fhUsed (slice file 0 L.fhSize) ≤ file.length →
            file.length < L.fhSize + 2 * (L.ulongSize * L.fhUsed (slice file 0 L.fhSize)) →
            loadDirectory L file = .exit 6)
        ∧ (L.fhSize + 2 * (L.ulongSize * L.fhUsed (slice file 0 L.fhSize)) ≤ file.length →
            file.length < L.fhSize + 3 * (L.ulongSize * L.fhUsed (slice file 0 L.fhSize)) →
            loadDirectory L file = .exit 7)
        ∧ (L.fhSize + 3 * (L.ulongSize * L.fhUsed (slice file 0 L.fhSize)) ≤ file.length →
            loadDirectory L file =
              .loaded (L.fhUsed (slice file 0 L.fhSize))
                ((List.range (L.fhUsed (slice file 0 L.fhSize))).map (fun i =>
                  leNat (slice file (L.fhSize + L.ulongSize * i) L.ulongSize)))
                ((List.range (L.fhUsed (slice file 0 L.fhSize))).map (fun i =>
                  leNat (slice file (L.fhSize + L.ulongSize * L.fhUsed (slice file 0 L.fhSize)
                    + L.ulongSize * i) L.ulongSize)))
                ((List.range (L.fhUsed (slice file 0 L.fhSize))).map (fun i =>
                  leNat (slice file (L.fhSize + L.ulongSize * L.fhUsed (slice file 0 L.fhSize)
                    + L.ulongSize * L.fhUsed (slice file 0 L.fhSize)
                    + L.ulongSize * i) L.ulongSize)))))
    ∧ (∀ s, loadDirectory L file = .exit s →
        emitInstances L file = { status := s, records := [] }
        ∧ ∀ fuel, scanConnectivity L file fuel = some { status := s, records := [] })
    ∧ (∀ used ids offsets sizes, loadDirectory L file = .loaded used ids offsets sizes →
        ids.length = used ∧ offsets.length = used ∧ sizes.length = used
        ∧ used = L.fhUsed (slice file 0 L.fhSize)
        ∧ parseDirectory L file = some (used, ids, offsets, sizes)) := by
  refine ⟨?_, ?_, ?_, ?_⟩
  · intro h
    unfold loadDirectory
    rw [fread1_short file 0 L.fhSize (by omega)]
  · intro hlen hused
    generalize hu : L.fhUsed (slice file 0 L.fhSize) = used at hused ⊢
    have hhdr : fread1 file 0 L.fhSize = some (slice file 0 L.fhSize) :=
      fread1_of_le file 0 L.fhSize hfh (by omega)
    have hsz : 0 < L.ulongSize * used := Nat.mul_pos hW hused
    have hne : ¬ used = 0 := by omega
    refine ⟨?_, ?_, ?_, ?_⟩
    · intro h
      unfold loadDirectory
      simp only [hhdr, hu, hne, if_false]
      rw [fread1_short file _ _ h]
    · intro h1 h2
      unfold loadDirectory
      simp only [hhdr, hu, hne, if_false]
      rw [fread1_of_le file _ _ hsz h1, fread1_short file _ _ (by omega)]
    · intro h1 h2
      unfold loadDirectory
      simp only [hhdr, hu, hne, if_false]
      rw [fread1_of_le file _ _ hsz (by omega), fread1_of_le file _ _ hsz (by omega),
        fread1_short file _ _ (by omega)]
    · intro h1
      unfold loadDirectory
      simp only [hhdr, hu, hne, if_false]
      rw [fread1_of_le file _ _ hsz (by omega), fread1_of_le file _ _ hsz (by omega),
        fread1_of_le file _ _ hsz (by omega)]
      simp only [decodeULongs_slice]
  · intro s h
    exact ⟨emitInstances_exit L file s h, scanConnectivity_exit L file s h⟩
  · intro used ids offsets sizes h
    have hparse := parseDirectory_of_loaded L file used ids offsets sizes h
    unfold loadDirectory at h
    cases hr : fread1 file 0 L.fhSize with
    | none => simp [hr] at h
    | some fh =>
      have hfhv : fh = slice file 0 L.fhSize := by
        unfold fread1 at hr
        split_ifs at hr
        exact (Option.some.inj hr).symm
      subst hfhv
      simp only [hr] at h
      split_ifs at h with h0
      cases h1 : fread1 file L.fhSize (L.ulongSize * L.fhUsed (slice file 0 L.fhSize)) with
      | none => simp [h1] at h
      | some b1 =>
        simp only [h1] at h
        cases h2 : fread1 file (L.fhSize + L.ulongSize * L.fhUsed (slice file 0 L.fhSize))
            (L.ulongSize * L.fhUsed (slice file 0 L.fhSize)) with
        | none => simp [h2] at h
        | some b2 =>
          simp only [h2] at h
          cases h3 : fread1 file (L.fhSize + L.ulongSize * L.fhUsed (slice file 0 L.fhSize)
              + L.ulongSize * L.fhUsed (slice file 0 L.fhSize))
              (L.ulongSize * L.fhUsed (slice file 0 L.fhSize)) with
          | none => simp [h3] at h
          | some b3 =>
            simp only [h3] at h
            injection h with e1 e2 e3 e4
            subst e1 e2 e3 e4
            refine ⟨?_, ?_, ?_, rfl, hparse⟩ <;> simp [decodeULongs]

/-- Witness of C9: the scenario file loads as the one-entry directory
`(0x0b, 64, 24)`; cut after 30 bytes, its `ids` array is short and the load
ends with status 5. -/
theorem C9_directory_loading_witness :
    0 < (mkLayout 8 24 8).ulongSize ∧ 0 < (mkLayout 8 24 8).fhSize
    ∧ loadDirectory (mkLayout 8 24 8) (scenarioFile 8) = .loaded 1 [11] [64] [24]
    ∧ loadDirectory (mkLayout 8 24 8) ((scenarioFile 8).take 30) = .exit 5 :=
  ⟨by decide, by decide,
    ((C9_directory_loading (mkLayout 8 24 8) (scenarioFile 8) (by decide) (by decide)).2.1
      (by decide) (by decide)).2.2.2 (by decide) |>.trans (by decide),
    ((C9_directory_loading (mkLayout 8 24 8) ((scenarioFile 8).take 30) (by decide)
      (by decide)).2.1 (by decide) (by decide)).1 (by decide)⟩


/-- C10: for every file whose header is complete and has `used == 0`, both
`emit_instances` and `scan_connectivity` return status 0 with an empty record
collection, whatever bytes follow the header. -/
theorem C10_empty_directory (L : Layout) (file : List Byte) (hfh : 0 < L.fhSize)
    (hlen : L.fhSize ≤ file.length) (hused : L.fhUsed (slice file 0 L.fhSize) = 0) :
    emitInstances L file = { status := 0, records := [] }
    ∧ ∀ fuel, scanConnectivity L file fuel = some { status := 0, records := [] } := by
  have hload : loadDirectory L file = .exit 0 := by
    unfold loadDirectory
    rw [fread1_of_le file 0 L.fhSize hfh (by omega)]
    simp [hused]
  exact ⟨emitInstances_exit L file 0 hload, scanConnectivity_exit L file 0 hload⟩

/-- Witness of C10 on `emptyDirFile`. -/
theorem C10_empty_directory_witness :
    0 < (mkLayout 8 24 12).fhSize ∧ (mkLayout 8 24 12).fhSize ≤ emptyDirFile.length
    ∧ (mkLayout 8 24 12).fhUsed (slice emptyDirFile 0 (mkLayout 8 24 12).fhSize) = 0
    ∧ emitInstances (mkLayout 8 24 12) emptyDirFile = { status := 0, records := [] }
    ∧ ∀ fuel, scanConnectivity (mkLayout 8 24 12) emptyDirFile fuel =
        some { status := 0, records := [] } :=
  ⟨by decide, by decide, by decide,
    C10_empty_directory (mkLayout 8 24 12) emptyDirFile (by decide) (by decide) (by decide)⟩

/-! ### The string pool loop -/

theorem runAt_eq_nil (buf : List Byte) (r p : Nat) (hp : p < r)
    (h : 127 ≤ byteAt buf p) : runAt buf r p = [] := by
  unfold runAt
  cases hl : (buf.take r).drop p with
  | nil => rfl
  | cons b rest =>
    have hb : ((buf.take r).drop p)[0]? = some b := by rw [hl]; simp
    rw [List.getElem?_drop, List.getElem?_take_of_lt (by omega)] at hb
    have hv : byteAt buf p = b.val := by
      unfold byteAt
      rw [List.getD_eq_getElem?_getD]
      simp only [Nat.add_zero] at hb
      rw [hb]
      rfl
    have hnp : printable b = false := by
      unfold printable
      have : ¬ b.val < 127 := by omega
      simp [this]
    simp [List.takeWhile_cons, hnp]

theorem poolLoop_stuck (buf : List Byte) (r p : Nat) (hp : p < r)
    (h : 127 ≤ byteAt buf p) : ∀ (fuel : Nat) (pool : Pool),
      poolLoop buf r fuel p pool = none := by
  intro fuel
  induction fuel with
  | zero => intro pool; rfl
  | succ n ih =>
    intro pool
    unfold poolLoop
    rw [if_pos hp, if_neg (by omega), runAt_eq_nil buf r p hp h]
    simp only [List.length_nil, Nat.add_zero, ne_eq, not_true_eq_false, if_false]
    exact ih pool


/-- C6 (evaluation at the failing input): on the one-byte payload `0x7f` the pool
loop never ends: the byte is not below 32, so it is not stepped over, and it is
not below 127, so the run loop reads nothing; the position stays 0 however
many times the loop condition is evaluated. With it `scan_connectivity` never
gets past the string table of `highByteFile`. -/
theorem C6_pool_loop_does_not_end (fuel : Nat) :
    poolLoop [127] 1 fuel 0 [] = none
    ∧ scanConnectivity (mkLayout 8 24 12) highByteFile fuel = none := by
  have hp := poolLoop_stuck [127] 1 0 (by decide) (by decide) fuel []
  refine ⟨hp, ?_⟩
  have hl : loadDirectory (mkLayout 8 24 12) highByteFile = .loaded 1 [10] [48] [13] := by
    decide
  unfold scanConnectivity
  rw [hl]
  have hs : loadStringTable (mkLayout 8 24 12) highByteFile 1 [10] [48] [13] fuel =
      match poolLoop [127] 1 fuel 0 [] with
      | none => none
      | some pool => some (pool, 1) := rfl
  rw [hp] at hs
  simp only [hs]

/-- C5 (evaluation at the failing input): the payload `"AB\0CD"` gives the pool
`{0: "AB", 3: "CD"}`, but on the payload `"AB\x7fCD"` no pool is ever built:
after the run `"AB"` the loop stays at the byte `0x7f` for ever. -/
theorem C5_pool_not_built_on_high_byte (fuel : Nat) :
    poolLoop payloadABCD 5 6 0 [] = some [[65, 66], [], [], [67, 68]]
    ∧ poolLoop payloadAB7fCD 5 fuel 0 [] = none := by
  refine ⟨by decide, ?_⟩
  cases fuel with
  | zero => rfl
  | succ n =>
    exact poolLoop_stuck payloadAB7fCD 5 2 (by decide) (by decide) n (storeAt [] 0 [65, 66])

/-! ### The connectivity scan -/

theorem oidLoop_mem (buf : List Byte) (got : Nat) :
    ∀ (n q v : Nat), v ∈ oidLoop buf got n q → 0 < v ∧ v ≤ 1000000 := by
  intro n
  induction n with
  | zero => intro q v hv; simp [oidLoop] at hv
  | succ n ih =>
    intro q v hv
    unfold oidLoop at hv
    split_ifs at hv with h1 h2
    · simp at hv
    · rcases List.mem_cons.1 hv with h | h
      · subst h
        omega
      · exact ih _ _ h
    · simp at hv

theorem scanLoop_mem (L : Layout) (pool : Pool) (stUsed : Nat) (buf : List Byte) (got : Nat)
    (t tid ds : Nat) (c : Candidate) :
    ∀ (fuel p0 : Nat), c ∈ scanLoop L pool stUsed buf got t tid ds fuel p0 →
      ∃ p, p0 ≤ p ∧ p + 1 < got ∧ idxAt buf p < stUsed
        ∧ lookup_string pool (idxAt buf p) ≠ []
        ∧ oidLoop buf got 16 (p + 2) ≠ []
        ∧ c = { tableId := tid, tableIndex := t, fileOffset := (ds + p) % L.ulongMod,
                name := lookup_string pool (idxAt buf p),
                oids := oidLoop buf got 16 (p + 2) } := by
  intro fuel
  induction fuel with
  | zero => intro p0 hc; simp [scanLoop] at hc
  | succ n ih =>
    intro p0 hc
    have step : ∀ (hc' : c ∈ scanLoop L pool stUsed buf got t tid ds n (p0 + 1)),
        ∃ p, p0 ≤ p ∧ p + 1 < got ∧ idxAt buf p < stUsed
          ∧ lookup_string pool (idxAt buf p) ≠ []
          ∧ oidLoop buf got 16 (p + 2) ≠ []
          ∧ c = { tableId := tid, tableIndex := t, fileOffset := (ds + p) % L.ulongMod,
                  name := lookup_string pool (idxAt buf p),
                  oids := oidLoop buf got 16 (p + 2) } := by
      intro hc'
      obtain ⟨p, hp, rest⟩ := ih (p0 + 1) hc'
      exact ⟨p, by omega, rest⟩
    unfold scanLoop at hc
    split_ifs at hc with h1 h2 h3 h4 h5
    · simp at hc
    · exact step hc
    · exact step hc
    · rcases List.mem_cons.1 hc with h | h
      · exact ⟨p0, le_refl _, h1, by omega, h4, h5, h⟩
      · exact step h
    · exact step hc
    · simp at hc

theorem lookup_string_ne_nil (pool : Pool) (off : Nat) (h : lookup_string pool off ≠ []) :
    lookup_string pool off = pool.getD off [] ∧ off < pool.length := by
  unfold lookup_string at h ⊢
  split_ifs at h ⊢ with hc
  · exact ⟨rfl, hc.1⟩
  · exact absurd rfl h

theorem length_fillBuf (file : List Byte) (ds n : Nat) : (fillBuf file ds n).length = n := by
  unfold fillBuf slice
  simp only [List.length_append, List.length_replicate, List.length_take, List.length_drop]
  omega

theorem length_slice_le (file : List Byte) (ds n : Nat) : (slice file ds n).length ≤ n := by
  unfold slice
  simp only [List.length_take, List.length_drop]
  omega

theorem scanTable_mem (L : Layout) (file : List Byte) (pool : Pool) (stUsed : Nat)
    (t tid pos size : Nat) (c : Candidate)
    (hc : c ∈ scanTable L file pool stUsed t tid pos size) :
    L.tiSize ≤ size ∧
    ∃ p, p + 1 < (slice file ((pos + L.tiSize) % L.ulongMod) (size - L.tiSize)).length
      ∧ idxAt (fillBuf file ((pos + L.tiSize) % L.ulongMod) (size - L.tiSize)) p < stUsed
      ∧ lookup_string pool
          (idxAt (fillBuf file ((pos + L.tiSize) % L.ulongMod) (size - L.tiSize)) p) ≠ []
      ∧ oidLoop (fillBuf file ((pos + L.tiSize) % L.ulongMod) (size - L.tiSize))
          (slice file ((pos + L.tiSize) % L.ulongMod) (size - L.tiSize)).length 16 (p + 2) ≠ []
      ∧ c = { tableId := tid, tableIndex := t,
              fileOffset := ((pos + L.tiSize) % L.ulongMod + p) % L.ulongMod,
              name := lookup_string pool
                (idxAt (fillBuf file ((pos + L.tiSize) % L.ulongMod) (size - L.tiSize)) p),
              oids := oidLoop (fillBuf file ((pos + L.tiSize) % L.ulongMod) (size - L.tiSize))
                (slice file ((pos + L.tiSize) % L.ulongMod) (size - L.tiSize)).length 16
                (p + 2) } := by
  unfold scanTable at hc
  simp only [dataSize_eq] at hc
  cases hr : fread1 file pos L.tiSize with
  | none =>
    simp only [hr] at hc
    split_ifs at hc <;> exact absurd hc (List.not_mem_nil _)
  | some hd =>
    simp only [hr] at hc
    split_ifs at hc with h1 h2 h3 h4 h5
    · exact absurd hc (List.not_mem_nil _)
    · exact absurd hc (List.not_mem_nil _)
    · exact absurd hc (List.not_mem_nil _)
    · exact absurd hc (List.not_mem_nil _)
    · exact absurd hc (List.not_mem_nil _)
    · obtain ⟨p, -, rest⟩ := scanLoop_mem L pool stUsed _ _ t tid _ c _ 0 hc
      exact ⟨by omega, p, rest⟩

theorem scanTables_mem (L : Layout) (file : List Byte) (pool : Pool) (stUsed used : Nat)
    (ids offsets sizes : List Nat) (c : Candidate)
    (hc : c ∈ scanTables L file pool stUsed used ids offsets sizes) :
    ∃ t, t < used ∧ toInt t ≠ stringTableIndex used ids
      ∧ c ∈ scanTable L file pool stUsed t (ids.getD t 0) (offsets.getD t 0)
          (sizes.getD t 0) := by
  unfold scanTables at hc
  rw [List.mem_flatMap] at hc
  obtain ⟨t, ht, hct⟩ := hc
  rw [List.mem_range] at ht
  split_ifs at hct with h
  · simp at hct
  · exact ⟨t, ht, h, hct⟩

/-- C4: connectivity scanner precision. Every candidate of a run of
`scan_connectivity` comes from a payload position `p` of the table it names:
its name is the string-pool entry stored at offset
`idx = buf[p] | (buf[p+1] << 8)`, that entry is not empty, its value list is
not empty and every value `v` in it satisfies `0 < v ≤ 1000000`. -/
theorem C4_connectivity_precision (L : Layout) (file : List Byte) (fuel : Nat)
    (out : Outcome Candidate) (h : scanConnectivity L file fuel = some out)
    (c : Candidate) (hc : c ∈ out.records) :
    ∃ (used : Nat) (ids offsets sizes : List Nat) (pool : Pool) (stUsed p : Nat),
      loadDirectory L file = .loaded used ids offsets sizes
      ∧ loadStringTable L file used ids offsets sizes fuel = some (pool, stUsed)
      ∧ c.tableIndex < used
      ∧ p + 1 < (fillBuf file ((offsets.getD c.tableIndex 0 + L.tiSize) % L.ulongMod)
                  (sizes.getD c.tableIndex 0 - L.tiSize)).length
      ∧ c.fileOffset =
          ((offsets.getD c.tableIndex 0 + L.tiSize) % L.ulongMod + p) % L.ulongMod
      ∧ c.name = pool.getD
          (idxAt (fillBuf file ((offsets.getD c.tableIndex 0 + L.tiSize) % L.ulongMod)
            (sizes.getD c.tableIndex 0 - L.tiSize)) p) []
      ∧ c.name ≠ []
      ∧ c.oids ≠ []
      ∧ ∀ v, v ∈ c.oids → 0 < v ∧ v ≤ 1000000 := by
  unfold scanConnectivity at h
  cases hl : loadDirectory L file with
  | exit s =>
    simp only [hl] at h
    have := Option.some.inj h
    subst this
    exact absurd hc (List.not_mem_nil _)
  | loaded used ids offsets sizes =>
    simp only [hl] at h
    cases hs : loadStringTable L file used ids offsets sizes fuel with
    | none => simp [hs] at h
    | some ps =>
      obtain ⟨pool, stUsed⟩ := ps
      simp only [hs] at h
      have := Option.some.inj h
      subst this
      obtain ⟨t, ht, -, hct⟩ := scanTables_mem L file pool stUsed used ids offsets sizes c hc
      obtain ⟨-, p, hp, -, hname, hoids, hceq⟩ :=
        scanTable_mem L file pool stUsed t _ _ _ c hct
      have hlen := length_slice_le file ((offsets.getD t 0 + L.tiSize) % L.ulongMod)
        (sizes.getD t 0 - L.tiSize)
      have hfl := length_fillBuf file ((offsets.getD t 0 + L.tiSize) % L.ulongMod)
        (sizes.getD t 0 - L.tiSize)
      subst hceq
      refine ⟨used, ids, offsets, sizes, pool, stUsed, p, rfl, hs, ht, ?_, rfl, ?_, hname,
        hoids, ?_⟩
      · rw [hfl]
        omega
      · exact (lookup_string_ne_nil pool _ hname).1
      · intro v hv
        exact oidLoop_mem _ _ _ _ v hv

/-- Witness of C4 on `connectivityFile`: the one candidate, at file offset 109,
has the name `"CD"` (pool offset 3) and the value list `[7]`. -/
theorem C4_connectivity_precision_witness :
    scanConnectivity (mkLayout 8 24 12) connectivityFile 8 =
      some { status := 0,
             records := [{ tableId := 12, tableIndex := 1, fileOffset := 109,
                           name := [67, 68], oids := [7] }] }
    ∧ ∃ (used : Nat) (ids offsets sizes : List Nat) (pool : Pool) (stUsed p : Nat),
        loadDirectory (mkLayout 8 24 12) connectivityFile = .loaded used ids offsets sizes
        ∧ loadStringTable (mkLayout 8 24 12) connectivityFile used ids offsets sizes 8
            = some (pool, stUsed)
        ∧ 1 < used
        ∧ p + 1 < (fillBuf connectivityFile ((offsets.getD 1 0 + 12) % 2 ^ 64)
                    (sizes.getD 1 0 - 12)).length
        ∧ 109 = ((offsets.getD 1 0 + 12) % 2 ^ 64 + p) % 2 ^ 64
        ∧ [67, 68] = pool.getD
            (idxAt (fillBuf connectivityFile ((offsets.getD 1 0 + 12) % 2 ^ 64)
              (sizes.getD 1 0 - 12)) p) []
        ∧ ([67, 68] : List Byte) ≠ []
        ∧ ([7] : List Nat) ≠ []
        ∧ ∀ v, v ∈ [7] → 0 < v ∧ v ≤ 1000000 :=
  ⟨by decide,
    C4_connectivity_precision (mkLayout 8 24 12) connectivityFile 8
      { status := 0,
        records := [{ tableId := 12, tableIndex := 1, fileOffset := 109,
                      name := [67, 68], oids := [7] }] } (by decide)
      { tableId := 12, tableIndex := 1, fileOffset := 109, name := [67, 68], oids := [7] }
      (List.mem_singleton.2 rfl)⟩

/-! ### The string pool on payloads without bytes above 126 -/

theorem lookup_string_eq_getD (pool : Pool) (off : Nat) :
    lookup_string pool off = pool.getD off [] := by
  unfold lookup_string
  split_ifs with h
  · rfl
  · by_cases hlt : off < pool.length
    · have : pool.getD off [] = [] := by
        by_contra hne
        exact h ⟨hlt, hne⟩
      rw [this]
    · simp only [List.getD_eq_getElem?_getD]
      rw [List.getElem?_eq_none (by omega)]
      rfl

theorem storeAt_getD (pool : Pool) (p : Nat) (s : List Byte) (k : Nat) :
    (storeAt pool p s).getD k [] = if k = p then s else pool.getD k [] := by
  unfold storeAt
  simp only [List.getD_eq_getElem?_getD]
  by_cases hlen : pool.length ≤ p
  · rw [if_pos hlen]
    by_cases hk : k = p
    · subst hk
      rw [if_pos rfl, List.getElem?_set_self (by simp; omega)]
      rfl
    · rw [if_neg hk, List.getElem?_set_ne (Ne.symm hk), List.getElem?_append]
      split_ifs with h1
      · rfl
      · rw [List.getElem?_eq_none (l := pool) (by omega), List.getElem?_replicate]
        split_ifs <;> rfl
  · rw [if_neg hlen]
    by_cases hk : k = p
    · subst hk
      rw [if_pos rfl, List.getElem?_set_self (by omega)]
      rfl
    · rw [if_neg hk, List.getElem?_set_ne (Ne.symm hk)]

theorem byteAt_of_getElem? (buf : List Byte) (k : Nat) (b : Byte) (h : buf[k]? = some b) :
    byteAt buf k = b.val := by
  unfold byteAt
  rw [List.getD_eq_getElem?_getD, h]
  rfl

theorem printable_iff (b : Byte) : printable b = true ↔ 32 ≤ b.val ∧ b.val < 127 := by
  unfold printable
  simp

/-- One step of the run loop. -/
theorem runAt_unfold (buf : List Byte) (r k : Nat) (hr : r ≤ buf.length) :
    runAt buf r k =
      if k < r ∧ 32 ≤ byteAt buf k ∧ byteAt buf k < 127 then
        buf.getD k 0 :: runAt buf r (k + 1)
      else [] := by
  unfold runAt
  by_cases hk : k < r
  · have hlt : k < (buf.take r).length := by rw [List.length_take]; omega
    rw [List.drop_eq_getElem_cons hlt]
    have hget : (buf.take r)[k] = buf.getD k 0 := by
      have h1 : (buf.take r)[k]? = buf[k]? := List.getElem?_take_of_lt hk
      rw [List.getElem?_eq_getElem hlt] at h1
      rw [List.getD_eq_getElem?_getD, ← h1]
      rfl
    rw [hget, List.takeWhile_cons]
    have hp : printable (buf.getD k 0) = true ↔ 32 ≤ byteAt buf k ∧ byteAt buf k < 127 :=
      printable_iff _
    by_cases hpr : printable (buf.getD k 0) = true
    · rw [if_pos hpr, if_pos ⟨hk, hp.1 hpr⟩]
    · rw [if_neg hpr, if_neg (fun h => hpr (hp.2 h.2))]
  · rw [if_neg (fun h => hk h.1)]
    have : (buf.take r).drop k = [] := by
      rw [List.drop_eq_nil_iff, List.length_take]
      omega
    rw [this]
    rfl

/-- The run read at `k`: it stays within the `r` bytes read, all its bytes are
printable, they are the bytes of `buf` from `k` on, and the run is maximal: it
ends at `r` or at a byte that is not printable. -/
theorem runAt_facts (buf : List Byte) (r : Nat) (hr : r ≤ buf.length) :
    ∀ (n k : Nat), r - k ≤ n → k ≤ r →
      k + (runAt buf r k).length ≤ r
      ∧ (∀ j, j < (runAt buf r k).length →
          32 ≤ byteAt buf (k + j) ∧ byteAt buf (k + j) < 127
          ∧ (runAt buf r k).getD j 0 = buf.getD (k + j) 0)
      ∧ (k + (runAt buf r k).length < r →
          ¬ (32 ≤ byteAt buf (k + (runAt buf r k).length)
              ∧ byteAt buf (k + (runAt buf r k).length) < 127)) := by
  intro n
  induction n with
  | zero =>
    intro k hk hkr
    have h0 : runAt buf r k = [] := by
      rw [runAt_unfold buf r k hr, if_neg (by omega)]
    rw [h0]
    simp
    omega
  | succ n ih =>
    intro k hk hkr
    rw [runAt_unfold buf r k hr]
    by_cases hc : k < r ∧ 32 ≤ byteAt buf k ∧ byteAt buf k < 127
    · rw [if_pos hc]
      obtain ⟨h1, h2, h3⟩ := ih (k + 1) (by omega) (by omega)
      simp only [List.length_cons]
      refine ⟨by omega, ?_, ?_⟩
      · intro j hj
        cases j with
        | zero => exact ⟨hc.2.1, hc.2.2, rfl⟩
        | succ j =>
          have := h2 j (by omega)
          have e : k + (j + 1) = k + 1 + j := by omega
          rw [e]
          exact ⟨this.1, this.2.1, by simpa using this.2.2⟩
      · intro hlt
        have e : k + ((runAt buf r (k + 1)).length + 1) =
            k + 1 + (runAt buf r (k + 1)).length := by omega
        rw [e]
        exact h3 (by omega)
    · rw [if_neg hc]
      simp only [List.length_nil, Nat.add_zero]
      refine ⟨hkr, ?_, ?_⟩
      · intro j hj
        exact absurd hj (Nat.not_lt_zero _)
      · intro hlt h
        exact hc ⟨hlt, h⟩

theorem poolLoop_low (buf : List Byte) (r : Nat) (hr : r ≤ buf.length)
    (hlow : ∀ i, i < r → byteAt buf i < 127) :
    ∀ (fuel p : Nat) (pool : Pool), p ≤ r → r - p < fuel →
      (p = 0 ∨ byteAt buf (p - 1) < 32 ∨ p = r ∨ byteAt buf p < 32) →
      (∀ k, pool.getD k [] =
        if k < p ∧ 32 ≤ byteAt buf k ∧ (k = 0 ∨ byteAt buf (k - 1) < 32) then runAt buf r k
        else []) →
      ∃ pool', poolLoop buf r fuel p pool = some pool'
        ∧ ∀ k, pool'.getD k [] =
            if k < r ∧ 32 ≤ byteAt buf k ∧ (k = 0 ∨ byteAt buf (k - 1) < 32) then
              runAt buf r k
            else [] := by
  intro fuel
  induction fuel with
  | zero => intro p pool _ h; omega
  | succ n ih =>
    intro p pool hpr hfuel hB hI
    unfold poolLoop
    by_cases hp : p < r
    · rw [if_pos hp]
      by_cases hlt : byteAt buf p < 32
      · rw [if_pos hlt]
        apply ih (p + 1) pool (by omega) (by omega)
        · right; left
          simpa using hlt
        · intro k
          rw [hI k]
          by_cases hk : k = p
          · subst hk
            rw [if_neg (by omega), if_neg (by omega)]
          · by_cases hkp : k < p
            · by_cases hc : 32 ≤ byteAt buf k ∧ (k = 0 ∨ byteAt buf (k - 1) < 32)
              · rw [if_pos ⟨hkp, hc⟩, if_pos ⟨by omega, hc⟩]
              · rw [if_neg (fun h => hc h.2), if_neg (fun h => hc h.2)]
            · rw [if_neg (fun h => hkp h.1), if_neg (fun h => hkp (by omega))]
      · rw [if_neg hlt]
        have hpp : 32 ≤ byteAt buf p ∧ byteAt buf p < 127 := ⟨by omega, hlow p hp⟩
        obtain ⟨f1, f2, f3⟩ := runAt_facts buf r hr (r - p) p (le_refl _) hpr
        have hne : runAt buf r p ≠ [] := by
          rw [runAt_unfold buf r p hr, if_pos ⟨hp, hpp⟩]
          exact List.cons_ne_nil _ _
        have hlen : 0 < (runAt buf r p).length := List.length_pos.2 hne
        rw [if_pos hne]
        apply ih (p + (runAt buf r p).length) _ f1 (by omega)
        · by_cases he : p + (runAt buf r p).length = r
          · right; right; left
            exact he
          · right; right; right
            have := f3 (by omega)
            have := hlow (p + (runAt buf r p).length) (by omega)
            omega
        · intro k
          rw [storeAt_getD]
          by_cases hk : k = p
          · subst hk
            rw [if_pos rfl, if_pos]
            refine ⟨by omega, hpp.1, ?_⟩
            rcases hB with h | h | h | h
            · exact Or.inl h
            · exact Or.inr h
            · omega
            · omega
          · rw [if_neg hk, hI k]
            by_cases hkp : k < p
            · by_cases hc : 32 ≤ byteAt buf k ∧ (k = 0 ∨ byteAt buf (k - 1) < 32)
              · rw [if_pos ⟨hkp, hc⟩, if_pos ⟨by omega, hc⟩]
              · rw [if_neg (fun h => hc h.2), if_neg (fun h => hc h.2)]
            · rw [if_neg (fun h => hkp h.1), if_neg]
              rintro ⟨h1, h2, h3⟩
              have hin := f2 (k - 1 - p) (by omega)
              have e : p + (k - 1 - p) = k - 1 := by omega
              rw [e] at hin
              rcases h3 with h3 | h3
              · omega
              · omega
    · rw [if_neg hp]
      have hpe : p = r := by omega
      subst hpe
      exact ⟨pool, rfl, hI⟩

/-- For a payload whose bytes are all below 127 the pool loop ends
within `r + 1` evaluations of its condition, and `lookup_string` returns at
offset `k` the maximal printable run starting at `k` when `k` starts a run (it
is the payload start or follows a byte below 32), and the empty string at every
other offset. -/
theorem pool_offset_law (buf : List Byte) (r : Nat) (hr : r ≤ buf.length)
    (hlow : ∀ i, i < r → byteAt buf i < 127) :
    ∃ pool, poolLoop buf r (r + 1) 0 [] = some pool
      ∧ ∀ k, lookup_string pool k =
          if k < r ∧ 32 ≤ byteAt buf k ∧ (k = 0 ∨ byteAt buf (k - 1) < 32) then
            runAt buf r k
          else [] := by
  obtain ⟨pool, h1, h2⟩ := poolLoop_low buf r hr hlow (r + 1) 0 [] (Nat.zero_le _) (by omega)
    (Or.inl rfl) (by
      intro k
      rw [if_neg (by omega)]
      simp)
  refine ⟨pool, h1, ?_⟩
  intro k
  rw [lookup_string_eq_getD]
  exact h2 k

/-- The offset law on the payload `"AB\0CD"`: offset 3 starts a run and holds
`"CD"`. -/
theorem pool_offset_law_example :
    32 ≤ byteAt payloadABCD 3 ∧
    ∃ pool, poolLoop payloadABCD 5 6 0 [] = some pool ∧ lookup_string pool 3 = [67, 68] := by
  obtain ⟨pool, h1, h2⟩ := pool_offset_law payloadABCD 5 (by decide) (by decide)
  refine ⟨by decide, pool, h1, ?_⟩
  rw [h2 3]
  decide

/-! ### The connectivity scan, position by position -/

theorem scanTables_eq_flatMap (L : Layout) (file : List Byte) (pool : Pool) (stUsed used : Nat)
    (ids offsets sizes : List Nat) :
    scanTables L file pool stUsed used ids offsets sizes =
      (List.range used).flatMap (scanEntry L file pool stUsed used ids offsets sizes) := rfl

theorem oidLoop_eq (buf : List Byte) (got : Nat) :
    ∀ (n q : Nat), oidLoop buf got n q =
      (((List.range' q ((got - q) / 4) 4).map (le4 buf)).takeWhile
        (fun v => decide (v ≠ 0 ∧ v ≤ 1000000))).take n := by
  intro n
  induction n with
  | zero => intro q; simp [oidLoop]
  | succ n ih =>
    intro q
    unfold oidLoop
    by_cases hq : q + 3 < got
    · have hk : (got - q) / 4 = (got - (q + 4)) / 4 + 1 := by omega
      rw [if_pos hq, hk, List.range'_succ, List.map_cons, List.takeWhile_cons]
      by_cases hv : le4 buf q = 0 ∨ le4 buf q > 1000000
      · rw [if_pos hv]
        have : decide (le4 buf q ≠ 0 ∧ le4 buf q ≤ 1000000) = false := by
          rw [decide_eq_false_iff_not]
          omega
        rw [this]
        rfl
      · rw [if_neg hv]
        have : decide (le4 buf q ≠ 0 ∧ le4 buf q ≤ 1000000) = true := by
          rw [decide_eq_true_iff]
          omega
        rw [this, ih (q + 4)]
        rfl
    · have hk : (got - q) / 4 = 0 := by omega
      rw [if_neg hq, hk]
      rfl

theorem rangeStep_four (k : Nat) : ∀ s, List.range' s k 4 = (List.range k).map (fun i => s + 4 * i) := by
  induction k with
  | zero => intro s; rfl
  | succ k ih =>
    intro s
    rw [List.range'_succ, ih, List.range_succ_eq_map, List.map_cons, List.map_map]
    congr 1
    apply List.map_congr_left
    intro i _
    simp only [Function.comp]
    omega

theorem oidLoop_eq_spec (buf : List Byte) (got p : Nat) :
    oidLoop buf got 16 (p + 2) = lookAheadSpec buf got p := by
  rw [oidLoop_eq, rangeStep_four, List.map_map]
  rfl

theorem oidLoop_ne_nil_iff (buf : List Byte) (got p : Nat) :
    oidLoop buf got 16 (p + 2) ≠ [] ↔
      p + 5 < got ∧ 0 < le4 buf (p + 2) ∧ le4 buf (p + 2) ≤ 1000000 := by
  have h : oidLoop buf got 16 (p + 2) =
      if p + 2 + 3 < got then
        if le4 buf (p + 2) = 0 ∨ le4 buf (p + 2) > 1000000 then []
        else le4 buf (p + 2) :: oidLoop buf got 15 (p + 2 + 4)
      else [] := by
    rw [oidLoop]
  rw [h]
  constructor
  · intro hne
    split_ifs at hne with h1 h2
    · exact absurd rfl hne
    · omega
    · exact absurd rfl hne
  · rintro ⟨h1, h2, h3⟩
    rw [if_pos (by omega), if_neg (by omega)]
    exact List.cons_ne_nil _ _
theorem scanLoop_eq (L : Layout) (pool : Pool) (stUsed : Nat) (buf : List Byte) (got : Nat)
    (t tid ds : Nat) :
    ∀ (fuel p0 : Nat), got - 1 - p0 ≤ fuel →
      scanLoop L pool stUsed buf got t tid ds fuel p0 =
        (List.range' p0 (got - 1 - p0)).filterMap (fun p =>
          if idxAt buf p < stUsed ∧ lookup_string pool (idxAt buf p) ≠ [] ∧ p + 5 < got
              ∧ 0 < le4 buf (p + 2) ∧ le4 buf (p + 2) ≤ 1000000 then
            some { tableId := tid, tableIndex := t, fileOffset := (ds + p) % L.ulongMod,
                   name := lookup_string pool (idxAt buf p),
                   oids := lookAheadSpec buf got p }
          else none) := by
  intro fuel
  induction fuel with
  | zero =>
    intro p0 h
    have h0 : got - 1 - p0 = 0 := by omega
    rw [h0]
    rfl
  | succ n ih =>
    intro p0 h
    unfold scanLoop
    by_cases hp : p0 + 1 < got
    · have hk : got - 1 - p0 = (got - 1 - (p0 + 1)) + 1 := by omega
      have hrec := ih (p0 + 1) (by omega)
      rw [if_pos hp, hk, List.range'_succ]
      by_cases hu : stUsed = 0
      · rw [if_pos hu]
        symm
        rw [List.filterMap_eq_nil_iff]
        intro p _
        rw [if_neg]
        omega
      · rw [if_neg hu]
        by_cases h1 : idxAt buf p0 ≥ stUsed
        · rw [if_pos h1, hrec, List.filterMap_cons_none]
          rw [if_neg]
          omega
        · rw [if_neg h1]
          by_cases h2 : lookup_string pool (idxAt buf p0) = []
          · rw [if_pos h2, hrec, List.filterMap_cons_none]
            rw [if_neg]
            exact fun hc => hc.2.1 h2
          · rw [if_neg h2]
            by_cases h3 : oidLoop buf got 16 (p0 + 2) ≠ []
            · have h3' := (oidLoop_ne_nil_iff buf got p0).1 h3
              rw [if_pos h3, hrec, oidLoop_eq_spec]
              rw [List.filterMap_cons_some]
              rw [if_pos ⟨by omega, h2, h3'⟩]
            · rw [if_neg h3, hrec, List.filterMap_cons_none]
              rw [if_neg]
              exact fun hc => h3 ((oidLoop_ne_nil_iff buf got p0).2 hc.2.2)
    · have h0 : got - 1 - p0 = 0 := by omega
      rw [if_neg hp, h0]
      rfl

theorem scanLoop_eq_spec (L : Layout) (pool : Pool) (stUsed : Nat) (buf : List Byte)
    (got t tid ds : Nat) :
    scanLoop L pool stUsed buf got t tid ds got 0 = scanSpec L pool stUsed buf got t tid ds := by
  rw [scanLoop_eq L pool stUsed buf got t tid ds got 0 (by omega)]
  unfold scanSpec
  rw [List.range_eq_range']
  rfl

theorem scanSpec_got_le_one (L : Layout) (pool : Pool) (stUsed : Nat) (buf : List Byte)
    (got t tid ds : Nat) (h : got ≤ 1) : scanSpec L pool stUsed buf got t tid ds = [] := by
  unfold scanSpec
  have : got - 1 = 0 := by omega
  rw [this]
  rfl

/-- The table body of the connectivity scan is the specification-side scan of
the bytes read, whenever the table header is read and the seeks succeed. -/
theorem scanTable_eq_spec (L : Layout) (file : List Byte) (pool : Pool) (stUsed : Nat)
    (t tid pos size : Nat) :
    scanTable L file pool stUsed t tid pos size =
      if size < L.tiSize ∨ fseekOk L pos = false ∨ fread1 file pos L.tiSize = none
          ∨ fseekOk L (tableDataStart L pos) = false then []
      else scanSpec L pool stUsed (tableBuf L file pos size) (tableGot L file pos size) t tid
        (tableDataStart L pos) := by
  unfold scanTable
  simp only [dataSize_eq, tableDataStart, tableBuf, tableGot]
  by_cases h1 : size < L.tiSize
  · rw [if_pos h1, if_pos (Or.inl h1)]
  · rw [if_neg h1]
    by_cases h2 : fseekOk L pos = false
    · rw [if_pos h2, if_pos (Or.inr (Or.inl h2))]
    · rw [if_neg h2]
      cases hr : fread1 file pos L.tiSize with
      | none =>
        rw [if_pos (Or.inr (Or.inr (Or.inl rfl)))]
      | some hd =>
        simp only []
        by_cases h4 : fseekOk L ((pos + L.tiSize) % L.ulongMod) = false
        · rw [if_pos (Or.inr (Or.inr (Or.inr h4)))]
          split_ifs <;> rfl
        · have hne : ¬ (size < L.tiSize ∨ fseekOk L pos = false ∨ some hd = none
              ∨ fseekOk L ((pos + L.tiSize) % L.ulongMod) = false) := by
            rintro (h | h | h | h)
            · exact h1 h
            · exact h2 h
            · cases h
            · exact h4 h
          rw [if_neg hne, if_neg h4]
          by_cases h3 : size - L.tiSize = 0
          · rw [if_pos h3]
            symm
            apply scanSpec_got_le_one
            have := length_slice_le file ((pos + L.tiSize) % L.ulongMod) (size - L.tiSize)
            omega
          · rw [if_neg h3]
            by_cases h5 : (slice file ((pos + L.tiSize) % L.ulongMod) (size - L.tiSize)).length = 0
            · rw [if_pos h5]
              symm
              apply scanSpec_got_le_one
              omega
            · rw [if_neg h5, scanLoop_eq_spec]

/-! ### C15, C16 -/

/-- C15: connectivity look-ahead. Every candidate of a run of `scan_connectivity`
comes from a position `p` of the payload read for its table, and its value
list is the look-ahead of the specification: the 4-byte little-endian integers
at `p + 2, p + 6, ...` lying wholly in the payload, up to the first one that is
zero or above 1000000, at most 16 of them. -/
theorem C15_look_ahead (L : Layout) (file : List Byte) (fuel : Nat)
    (out : Outcome Candidate) (h : scanConnectivity L file fuel = some out)
    (c : Candidate) (hc : c ∈ out.records) :
    ∃ (used : Nat) (ids offsets sizes : List Nat) (p : Nat),
      loadDirectory L file = .loaded used ids offsets sizes
      ∧ c.tableIndex < used
      ∧ p + 1 < tableGot L file (offsets.getD c.tableIndex 0) (sizes.getD c.tableIndex 0)
      ∧ c.fileOffset = (tableDataStart L (offsets.getD c.tableIndex 0) + p) % L.ulongMod
      ∧ c.oids = lookAheadSpec
          (tableBuf L file (offsets.getD c.tableIndex 0) (sizes.getD c.tableIndex 0))
          (tableGot L file (offsets.getD c.tableIndex 0) (sizes.getD c.tableIndex 0)) p := by
  unfold scanConnectivity at h
  cases hl : loadDirectory L file with
  | exit s =>
    simp only [hl] at h
    have := Option.some.inj h
    subst this
    exact absurd hc (List.not_mem_nil _)
  | loaded used ids offsets sizes =>
    simp only [hl] at h
    cases hs : loadStringTable L file used ids offsets sizes fuel with
    | none => simp [hs] at h
    | some ps =>
      obtain ⟨pool, stUsed⟩ := ps
      simp only [hs] at h
      have := Option.some.inj h
      subst this
      obtain ⟨t, ht, -, hct⟩ := scanTables_mem L file pool stUsed used ids offsets sizes c hc
      obtain ⟨-, p, hp, -, -, -, hceq⟩ := scanTable_mem L file pool stUsed t _ _ _ c hct
      subst hceq
      exact ⟨used, ids, offsets, sizes, p, rfl, ht, hp, rfl, oidLoop_eq_spec _ _ _⟩

/-- Witness of C15 on `connectivityFile`: the candidate at file offset 109 has the
value list `[7]`. -/
theorem C15_look_ahead_witness :
    scanConnectivity (mkLayout 8 24 12) connectivityFile 8 =
      some { status := 0,
             records := [{ tableId := 12, tableIndex := 1, fileOffset := 109,
                           name := [67, 68], oids := [7] }] }
    ∧ ∃ (used : Nat) (ids offsets sizes : List Nat) (p : Nat),
        loadDirectory (mkLayout 8 24 12) connectivityFile = .loaded used ids offsets sizes
        ∧ 1 < used
        ∧ p + 1 < tableGot (mkLayout 8 24 12) connectivityFile (offsets.getD 1 0)
            (sizes.getD 1 0)
        ∧ 109 = (tableDataStart (mkLayout 8 24 12) (offsets.getD 1 0) + p) % 2 ^ 64
        ∧ [7] = lookAheadSpec
            (tableBuf (mkLayout 8 24 12) connectivityFile (offsets.getD 1 0) (sizes.getD 1 0))
            (tableGot (mkLayout 8 24 12) connectivityFile (offsets.getD 1 0)
              (sizes.getD 1 0)) p :=
  ⟨by decide,
    C15_look_ahead (mkLayout 8 24 12) connectivityFile 8
      { status := 0,
        records := [{ tableId := 12, tableIndex := 1, fileOffset := 109,
                      name := [67, 68], oids := [7] }] } (by decide)
      { tableId := 12, tableIndex := 1, fileOffset := 109, name := [67, 68], oids := [7] }
      (List.mem_singleton.2 rfl)⟩

/-- C16 (counterexample): in `connFile 17 2 22` the string table header has
`used = 2`. At position 1 of the payload of table 1 the 2-byte index is 3, the
pool holds the non-empty string `"CD"` at offset 3 and the integer at position
3 is 7, wholly in the payload and in `(0, 1000000]`; yet no candidate is
emitted, because `3 >= string_table_used`. -/
theorem C16_used_count_suppresses :
    loadStringTable (mkLayout 8 24 12) (connFile 17 2 22) 2 [10, 12] [72, 96] [17, 22] 8
      = some ([[65, 66], [], [], [67, 68]], 2)
    ∧ 1 + 1 < tableGot (mkLayout 8 24 12) (connFile 17 2 22) 96 22
    ∧ idxAt (tableBuf (mkLayout 8 24 12) (connFile 17 2 22) 96 22) 1 = 3
    ∧ lookup_string [[65, 66], [], [], [67, 68]] 3 = [67, 68]
    ∧ 1 + 5 < tableGot (mkLayout 8 24 12) (connFile 17 2 22) 96 22
    ∧ le4 (tableBuf (mkLayout 8 24 12) (connFile 17 2 22) 96 22) 3 = 7
    ∧ scanConnectivity (mkLayout 8 24 12) (connFile 17 2 22) 8
        = some { status := 0, records := [] } := by
  decide

/-- C16 (amended): for every scanned table whose header is read, the candidates
are exactly those of the positions `p` with `p + 1 < got` at which the 2-byte
index is below `string_table_used`, the pool holds a non-empty string at that
index, and the 4-byte integer at `p + 2` lies wholly in the payload and in
`(0, 1000000]`; the candidate of `p` carries that string and the look-ahead
values. A table whose header is not read gives no candidate. -/
theorem C16_filter_with_used_count (L : Layout) (file : List Byte) (pool : Pool)
    (stUsed : Nat) (t tid pos size : Nat) :
    (scanTable L file pool stUsed t tid pos size =
      if size < L.tiSize ∨ fseekOk L pos = false ∨ fread1 file pos L.tiSize = none
          ∨ fseekOk L (tableDataStart L pos) = false then []
      else scanSpec L pool stUsed (tableBuf L file pos size) (tableGot L file pos size) t tid
        (tableDataStart L pos))
    ∧ (¬ (size < L.tiSize ∨ fseekOk L pos = false ∨ fread1 file pos L.tiSize = none
          ∨ fseekOk L (tableDataStart L pos) = false) →
        ∀ c, c ∈ scanTable L file pool stUsed t tid pos size ↔
          ∃ p, p + 1 < tableGot L file pos size
            ∧ idxAt (tableBuf L file pos size) p < stUsed
            ∧ lookup_string pool (idxAt (tableBuf L file pos size) p) ≠ []
            ∧ p + 5 < tableGot L file pos size
            ∧ 0 < le4 (tableBuf L file pos size) (p + 2)
            ∧ le4 (tableBuf L file pos size) (p + 2) ≤ 1000000
            ∧ c = { tableId := tid, tableIndex := t,
                    fileOffset := (tableDataStart L pos + p) % L.ulongMod,
                    name := lookup_string pool (idxAt (tableBuf L file pos size) p),
                    oids := lookAheadSpec (tableBuf L file pos size)
                      (tableGot L file pos size) p }) := by
  refine ⟨scanTable_eq_spec L file pool stUsed t tid pos size, ?_⟩
  intro hreach c
  rw [scanTable_eq_spec, if_neg hreach]
  unfold scanSpec
  rw [List.mem_filterMap]
  constructor
  · rintro ⟨p, hp, hc⟩
    rw [List.mem_range] at hp
    split_ifs at hc with hcond
    obtain ⟨h1, h2, h3, h4, h5⟩ := hcond
    exact ⟨p, by omega, h1, h2, h3, h4, h5, (Option.some.inj hc).symm⟩
  · rintro ⟨p, hp, h1, h2, h3, h4, h5, hc⟩
    refine ⟨p, List.mem_range.2 (by omega), ?_⟩
    rw [if_pos ⟨h1, h2, h3, h4, h5⟩, hc]

set_option maxRecDepth 8192 in
/-- Witness of C16 (amended) on `connectivityFile`, where `used = 5`: position 1
of table 1 passes the three tests and gives the candidate at file offset 109. -/
theorem C16_filter_with_used_count_witness :
    ¬ (22 < (mkLayout 8 24 12).tiSize ∨ fseekOk (mkLayout 8 24 12) 96 = false
        ∨ fread1 connectivityFile 96 (mkLayout 8 24 12).tiSize = none
        ∨ fseekOk (mkLayout 8 24 12) (tableDataStart (mkLayout 8 24 12) 96) = false)
    ∧ ({ tableId := 12, tableIndex := 1, fileOffset := 109, name := [67, 68], oids := [7] }
        : Candidate) ∈
        scanTable (mkLayout 8 24 12) connectivityFile [[65, 66], [], [], [67, 68]] 5 1 12 96
          22 :=
  ⟨by decide,
    ((C16_filter_with_used_count (mkLayout 8 24 12) connectivityFile
        [[65, 66], [], [], [67, 68]] 5 1 12 96 22).2 (by decide) _).2
      ⟨1, by decide, by decide, by decide, by decide, by decide, by decide, by decide⟩⟩

/-! ### Where the records of a table come from -/

theorem fread1_some (file : List Byte) (pos size : Nat) (bs : List Byte)
    (h : fread1 file pos size = some bs) : 0 < size ∧ pos + size ≤ file.length := by
  unfold fread1 at h
  split_ifs at h with h1 h2
  exact ⟨by omega, h2⟩

theorem fread1_ne_none (file : List Byte) (pos size : Nat)
    (h : fread1 file pos size ≠ none) : 0 < size ∧ pos + size ≤ file.length := by
  cases hr : fread1 file pos size with
  | none => exact absurd hr h
  | some bs => exact fread1_some file pos size bs hr

theorem fixedLoop_mem (L : Layout) (file : List Byte) (t ds : Nat) (rec : Record) :
    ∀ (n r0 cur : Nat), rec ∈ fixedLoop L file t ds n r0 cur →
      ∃ r, r0 ≤ r ∧ r < r0 + n ∧ rec.table_index = t
        ∧ rec.file_offset = (ds + r * 8) % L.ulongMod
        ∧ cur + 2 * L.ulongSize * (r - r0) + 2 * L.ulongSize ≤ file.length := by
  intro n
  induction n with
  | zero => intro r0 cur h; simp [fixedLoop] at h
  | succ n ih =>
    intro r0 cur h
    unfold fixedLoop at h
    cases h1 : fread1 file cur L.ulongSize with
    | none => simp [h1] at h
    | some iv =>
      simp only [h1] at h
      cases h2 : fread1 file (cur + L.ulongSize) L.ulongSize with
      | none => simp [h2] at h
      | some mv =>
        simp only [h2] at h
        have b2 := fread1_some _ _ _ _ h2
        rcases List.mem_cons.1 h with h | h
        · subst h
          refine ⟨r0, le_refl _, by omega, rfl, rfl, ?_⟩
          simp only [Nat.sub_self, Nat.mul_zero, Nat.add_zero]
          omega
        · obtain ⟨r, hr1, hr2, hr3, hr4, hr5⟩ := ih (r0 + 1) _ h
          refine ⟨r, by omega, by omega, hr3, hr4, ?_⟩
          have e : r - r0 = (r - (r0 + 1)) + 1 := by omega
          rw [e, Nat.mul_add]
          omega

theorem byteAt_fillBuf_zero (file : List Byte) (ds n i : Nat)
    (h : (slice file ds n).length ≤ i) : byteAt (fillBuf file ds n) i = 0 := by
  unfold byteAt fillBuf
  rw [List.getD_eq_getElem?_getD, List.getElem?_append_right h, List.getElem?_replicate]
  split_ifs <;> rfl

theorem le4_fillBuf_zero (file : List Byte) (ds n p : Nat)
    (h : (slice file ds n).length ≤ p) : le4 (fillBuf file ds n) p = 0 := by
  unfold le4
  rw [byteAt_fillBuf_zero file ds n p h, byteAt_fillBuf_zero file ds n (p + 1) (by omega),
    byteAt_fillBuf_zero file ds n (p + 2) (by omega),
    byteAt_fillBuf_zero file ds n (p + 3) (by omega)]

theorem length_slice (file : List Byte) (ds n : Nat) :
    (slice file ds n).length = min n (file.length - ds) := by
  unfold slice
  simp [List.length_take, List.length_drop]

theorem pairScan_mem (L : Layout) (file : List Byte) (t ds n : Nat) (rec : Record)
    (h : rec ∈ pairScan L (fillBuf file ds n) t ds) :
    ∃ p, p + 8 ≤ n ∧ p < (slice file ds n).length ∧ rec.table_index = t
      ∧ rec.file_offset = (ds + p) % L.ulongMod := by
  rw [pairScan_eq_spec] at h
  unfold pairScanSpec at h
  rw [List.mem_filterMap] at h
  obtain ⟨p, hp, hrec⟩ := h
  simp only [List.mem_filter, List.mem_range, decide_eq_true_eq, length_fillBuf] at hp
  split_ifs at hrec with hz
  have hrec' := Option.some.inj hrec
  subst hrec'
  refine ⟨p, hp.2.2, ?_, rfl, rfl⟩
  by_contra hge
  apply hz
  exact ⟨le4_fillBuf_zero file ds n p (by omega), le4_fillBuf_zero file ds n (p + 4) (by omega)⟩

/-- Every record of a table decode lies in the data section of the table. -/
theorem decodeTable_mem (L : Layout) (file : List Byte) (t pos size : Nat) (rec : Record)
    (hW : 4 ≤ L.ulongSize) (hlen : file.length < 2 ^ (8 * L.ulongSize - 1))
    (h : rec ∈ (decodeTable L file t pos size).records) :
    rec.table_index = t ∧ pos + L.tiSize ≤ rec.file_offset ∧ rec.file_offset < pos + size
      ∧ rec.file_offset < file.length := by
  have hM := half_le_ulongMod L
  unfold decodeTable at h
  simp only [dataSize_eq] at h
  cases hr : fread1 file pos L.tiSize with
  | none =>
    simp only [hr] at h
    split_ifs at h <;> exact absurd h (List.not_mem_nil _)
  | some hd =>
    have hb := fread1_some _ _ _ _ hr
    have hmod : (pos + L.tiSize) % L.ulongMod = pos + L.tiSize :=
      Nat.mod_eq_of_lt (by omega)
    simp only [hr, hmod] at h
    split_ifs at h with h1 h2 h3 h4 h5 h6
    · exact absurd h (List.not_mem_nil _)
    · exact absurd h (List.not_mem_nil _)
    · exact absurd h (List.not_mem_nil _)
    · exact absurd h (List.not_mem_nil _)
    · obtain ⟨r, -, hr2, hr3, hr4, hr5⟩ :=
        fixedLoop_mem L file t (pos + L.tiSize) rec _ 0 _ h
      simp only [Nat.sub_zero, Nat.zero_add] at hr2 hr5
      have hlt : pos + L.tiSize + r * 8 < file.length := by
        have : 8 * r ≤ 2 * L.ulongSize * r := Nat.mul_le_mul_right r (by omega)
        omega
      rw [Nat.mod_eq_of_lt (by omega)] at hr4
      have hk : r * 8 + 8 ≤ size - L.tiSize := by
        have := Nat.div_mul_le_self (size - L.tiSize) 8
        have : (r + 1) * 8 ≤ (size - L.tiSize) / 8 * 8 := Nat.mul_le_mul_right 8 hr2
        omega
      exact ⟨hr3, by omega, by omega, by omega⟩
    · exact absurd h (List.not_mem_nil _)
    · obtain ⟨p, hp1, hp2, hp3, hp4⟩ := pairScan_mem L file t (pos + L.tiSize) _ rec h
      have hs := length_slice file (pos + L.tiSize) (size - L.tiSize)
      have hlt : pos + L.tiSize + p < file.length := by omega
      rw [Nat.mod_eq_of_lt (by omega)] at hp4
      exact ⟨hp3, by omega, by omega, by omega⟩

/-- Every candidate of a table scan lies in the data section of the table. -/
theorem scanTable_mem_bounds (L : Layout) (file : List Byte) (pool : Pool) (stUsed : Nat)
    (t tid pos size : Nat) (c : Candidate)
    (hlen : file.length < 2 ^ (8 * L.ulongSize - 1))
    (h : c ∈ scanTable L file pool stUsed t tid pos size) :
    c.tableIndex = t ∧ c.tableId = tid ∧ pos + L.tiSize ≤ c.fileOffset
      ∧ c.fileOffset < pos + size ∧ c.fileOffset < file.length := by
  have hM := half_le_ulongMod L
  rw [scanTable_eq_spec] at h
  split_ifs at h with hu
  · exact absurd h (List.not_mem_nil _)
  · have hread : fread1 file pos L.tiSize ≠ none := fun hn => hu (Or.inr (Or.inr (Or.inl hn)))
    have hb := fread1_ne_none _ _ _ hread
    have hds : tableDataStart L pos = pos + L.tiSize := Nat.mod_eq_of_lt (by omega)
    unfold scanSpec at h
    rw [List.mem_filterMap] at h
    obtain ⟨p, hp, hc⟩ := h
    rw [List.mem_range] at hp
    split_ifs at hc with hcond
    have hc' := Option.some.inj hc
    subst hc'
    have hg : tableGot L file pos size = min (size - L.tiSize) (file.length - (pos + L.tiSize)) := by
      unfold tableGot
      rw [hds, length_slice]
    have hlt : pos + L.tiSize + p < file.length := by omega
    have hfo : (tableDataStart L pos + p) % L.ulongMod = pos + L.tiSize + p := by
      rw [hds, Nat.mod_eq_of_lt (by omega)]
    refine ⟨rfl, rfl, ?_, ?_, ?_⟩
    · dsimp only
      rw [hfo]
      omega
    · dsimp only
      rw [hfo]
      omega
    · dsimp only
      rw [hfo]
      omega

/-- The provenance bounds for the two table loops, over any directory. -/
theorem provenance_tables (L : Layout) (file : List Byte) (used : Nat)
    (ids offsets sizes : List Nat)
    (hW : 4 ≤ L.ulongSize) (hlen : file.length < 2 ^ (8 * L.ulongSize - 1)) :
    (∀ e, e ∈ emitTables L file used ids offsets sizes →
        e.2.table_index < used ∧ e.1 = ids.getD e.2.table_index 0
        ∧ offsets.getD e.2.table_index 0 + L.tiSize ≤ e.2.file_offset
        ∧ e.2.file_offset < offsets.getD e.2.table_index 0 + sizes.getD e.2.table_index 0)
    ∧ (∀ (pool : Pool) (stUsed : Nat) (c : Candidate),
        c ∈ scanTables L file pool stUsed used ids offsets sizes →
        c.tableIndex < used ∧ c.tableId = ids.getD c.tableIndex 0
        ∧ offsets.getD c.tableIndex 0 + L.tiSize ≤ c.fileOffset
        ∧ c.fileOffset < offsets.getD c.tableIndex 0 + sizes.getD c.tableIndex 0) := by
  constructor
  · intro e he
    unfold emitTables at he
    rw [List.mem_flatMap] at he
    obtain ⟨t, ht, het⟩ := he
    rw [List.mem_range] at ht
    simp only [emitTable] at het
    split_ifs at het with hint
    · rw [List.mem_map] at het
      obtain ⟨r, hr, hre⟩ := het
      subst hre
      obtain ⟨h1, h2, h3, -⟩ := decodeTable_mem L file t _ _ r hW hlen hr
      simp only
      rw [h1]
      exact ⟨ht, rfl, h2, h3⟩
    · exact absurd het (List.not_mem_nil _)
  · intro pool stUsed c hc
    obtain ⟨t, ht, -, hct⟩ := scanTables_mem L file pool stUsed used ids offsets sizes c hc
    obtain ⟨h1, h2, h3, h4, -⟩ := scanTable_mem_bounds L file pool stUsed t _ _ _ c hlen hct
    rw [h1]
    exact ⟨ht, h2, h3, h4⟩

/-- C12: provenance invariant. On a platform whose `unsigned long` has at least 4
bytes and for a file the stream functions can address, every record of
`emit_instances` and every candidate of `scan_connectivity` carries a table
index `t < used`, the table id `ids[t]`, and a file offset with
`offsets[t] + payloadHeaderSize ≤ fileOffset < offsets[t] + sizes[t]`, where
`used`, `ids`, `offsets`, `sizes` are the directory read from the file. -/
theorem C12_provenance (L : Layout) (file : List Byte) (used : Nat)
    (ids offsets sizes : List Nat)
    (hW : 4 ≤ L.ulongSize) (hlen : file.length < 2 ^ (8 * L.ulongSize - 1))
    (hdir : loadDirectory L file = .loaded used ids offsets sizes) :
    (∀ e, e ∈ (emitInstances L file).records →
        e.2.table_index < used ∧ e.1 = ids.getD e.2.table_index 0
        ∧ offsets.getD e.2.table_index 0 + L.tiSize ≤ e.2.file_offset
        ∧ e.2.file_offset < offsets.getD e.2.table_index 0 + sizes.getD e.2.table_index 0)
    ∧ (∀ (fuel : Nat) (out : Outcome Candidate), scanConnectivity L file fuel = some out →
        ∀ c, c ∈ out.records →
        c.tableIndex < used ∧ c.tableId = ids.getD c.tableIndex 0
        ∧ offsets.getD c.tableIndex 0 + L.tiSize ≤ c.fileOffset
        ∧ c.fileOffset < offsets.getD c.tableIndex 0 + sizes.getD c.tableIndex 0) := by
  have key := provenance_tables L file used ids offsets sizes hW hlen
  constructor
  · intro e he
    unfold emitInstances at he
    rw [hdir] at he
    exact key.1 e he
  · intro fuel out hout c hc
    unfold scanConnectivity at hout
    rw [hdir] at hout
    cases hs : loadStringTable L file used ids offsets sizes fuel with
    | none => simp [hs] at hout
    | some ps =>
      obtain ⟨pool, stUsed⟩ := ps
      simp only [hs] at hout
      have := Option.some.inj hout
      subst this
      exact key.2 pool stUsed c hc

/-- Witness of C12 on the scenario file (4-byte `unsigned long`): its two records
lie in the region of table 0, `[64 + 8, 64 + 24)`. -/
theorem C12_provenance_witness :
    4 ≤ (mkLayout 4 24 8).ulongSize
    ∧ (scenarioFile 4).length < 2 ^ (8 * (mkLayout 4 24 8).ulongSize - 1)
    ∧ loadDirectory (mkLayout 4 24 8) (scenarioFile 4) = .loaded 1 [11] [64] [24]
    ∧ ∀ e, e ∈ (emitInstances (mkLayout 4 24 8) (scenarioFile 4)).records →
        e.2.table_index < 1 ∧ e.1 = [11].getD e.2.table_index 0
        ∧ [64].getD e.2.table_index 0 + (mkLayout 4 24 8).tiSize ≤ e.2.file_offset
        ∧ e.2.file_offset < [64].getD e.2.table_index 0 + [24].getD e.2.table_index 0 :=
  ⟨by decide, by decide, by decide,
    (C12_provenance (mkLayout 4 24 8) (scenarioFile 4) 1 [11] [64] [24] (by decide)
      (by decide) (by decide)).1⟩

/-! ### A scan with `string_table_used = 0` -/

theorem getD_set_ne (l : List Nat) (t t' v : Nat) (h : t' ≠ t) :
    (l.set t v).getD t' 0 = l.getD t' 0 := by
  simp only [List.getD_eq_getElem?_getD]
  rw [List.getElem?_set_ne (Ne.symm h)]

theorem scanSpec_used_zero (L : Layout) (pool : Pool) (buf : List Byte) (got t tid ds : Nat) :
    scanSpec L pool 0 buf got t tid ds = [] := by
  unfold scanSpec
  rw [List.filterMap_eq_nil_iff]
  intro p _
  rw [if_neg]
  omega

theorem scanTable_used_zero (L : Layout) (file : List Byte) (pool : Pool)
    (t tid pos size : Nat) : scanTable L file pool 0 t tid pos size = [] := by
  rw [scanTable_eq_spec, scanSpec_used_zero]
  split_ifs <;> rfl

theorem scanTables_used_zero (L : Layout) (file : List Byte) (pool : Pool) (used : Nat)
    (ids offsets sizes : List Nat) : scanTables L file pool 0 used ids offsets sizes = [] := by
  unfold scanTables
  rw [List.flatMap_eq_nil_iff]
  intro t _
  split_ifs
  · rfl
  · exact scanTable_used_zero L file pool t _ _ _

theorem loadStringTable_small (L : Layout) (file : List Byte) (used : Nat)
    (ids offsets sizes : List Nat) (fuel : Nat)
    (h : sizes.getD (stringTableIndex used ids).toNat 0 < L.tiSize) :
    loadStringTable L file used ids offsets sizes fuel = some ([], 0) := by
  unfold loadStringTable
  simp only [h, if_true]
  split_ifs <;> rfl

/-! ### Typed decoders -/

theorem subUL_of_le (L : Layout) (a b : Nat) (ha : a < L.ulongMod) (hb : b ≤ a) :
    subUL L a b = a - b := by
  unfold subUL
  have hbm : b % L.ulongMod = b := Nat.mod_eq_of_lt (by omega)
  rw [hbm]
  have e : a + (L.ulongMod - b) = (a - b) + L.ulongMod := by omega
  rw [e, Nat.add_mod_right, Nat.mod_eq_of_lt (by omega)]

theorem ulongMod_ge (L : Layout) (hW : 4 ≤ L.ulongSize) : 2 ^ 32 ≤ L.ulongMod := by
  unfold Layout.ulongMod
  exact Nat.pow_le_pow_right (by decide) (by omega)

/-- The value of `roundAlign8Bit` is the least multiple of 8 strictly above
`len`, whenever `len + 8` is representable. -/
theorem roundAlign8Bit_spec (L : Layout) (len : Nat) (h : len + 8 < L.ulongMod) :
    roundAlign8Bit L len % 8 = 0 ∧ len < roundAlign8Bit L len
      ∧ roundAlign8Bit L len ≤ len + 8
      ∧ ∀ m, m % 8 = 0 → len < m → roundAlign8Bit L len ≤ m := by
  unfold roundAlign8Bit
  have e : (len + (8 - len % 8)) % L.ulongMod = len + (8 - len % 8) :=
    Nat.mod_eq_of_lt (by omega)
  rw [e]
  refine ⟨by omega, by omega, by omega, ?_⟩
  intro m hm hlt
  omega

theorem strlen_some (buffer : List Byte) (b n : Nat) (h : strlen buffer b = some n) :
    b + n < buffer.length := by
  unfold strlen at h
  split_ifs at h with hlt
  have hn := Option.some.inj h
  rw [List.length_drop] at hlt
  omega

theorem freadArr_length (file : List Byte) (pos size : Nat) (bs : List Byte)
    (h : freadArr file pos size = some bs) : bs.length = size := by
  unfold freadArr at h
  split_ifs at h with h0
  · have := Option.some.inj h
    subst this
    simp [h0]
  · have hb := fread1_some _ _ _ _ h
    unfold fread1 at h
    rw [if_neg h0, if_pos hb.2] at h
    have := Option.some.inj h
    subst this
    rw [length_slice]
    omega

/-- What `read0x1d` reports, in terms of the two string lengths. -/
theorem read0x1d_some (L : Layout) (aiSize : Nat) (file : List Byte) (pos tblSize : Nat)
    (info : BuildInformation) (h : read0x1d L aiSize file pos tblSize = some info) :
    info.buffer.length = read0x1d_bufferSize L tblSize
    ∧ ∃ la lk, strlen info.buffer 0 = some la
        ∧ strlen info.buffer ((0 + roundAlign8Bit L la) % 2 ^ 32) = some lk
        ∧ info.appBuildName = 0
        ∧ info.kitBuildName = (0 + roundAlign8Bit L la) % 2 ^ 32
        ∧ info.platforName =
            ((0 + roundAlign8Bit L la) % 2 ^ 32 + roundAlign8Bit L lk) % 2 ^ 32 := by
  unfold read0x1d at h
  split_ifs at h with hseek
  cases h1 : fread1 file pos aiSize with
  | none =>
    simp only [h1] at h
    try cases h
  | some ai =>
    cases h2 : freadArr file (pos + aiSize) (read0x1d_bufferSize L tblSize) with
    | none =>
      simp only [h1, h2] at h
      try cases h
    | some buffer =>
      simp only [h1, h2] at h
      cases h3 : strlen buffer 0 with
      | none =>
        simp only [h3] at h
        try cases h
      | some la =>
        simp only [h3] at h
        cases h4 : strlen buffer ((0 + roundAlign8Bit L la) % 2 ^ 32) with
        | none =>
          simp only [h4] at h
          try cases h
        | some lk =>
          simp only [h4] at h
          have := Option.some.inj h
          subst this
          exact ⟨freadArr_length _ _ _ _ h2, la, lk, h3, h4, rfl, rfl, rfl⟩

/-! ### C18 -/

/-- C18 (counterexample): `parse` hands the only table of `buildInfoTableFile`
to `read0x1d`. Its app build name `"ABCDEFGH"` has length 8, already a multiple
of 8; the kit build name is nevertheless located at payload offset 16, not 8,
and the platform name at `16 + 8 = 24`. -/
theorem C18_length_multiple_of_8 :
    parse (mkLayout 8 24 12) buildInfoTableFile = some [⟨.read0x1d, 48, 40⟩]
    ∧ strlen (buildInfoFile.drop 8) 0 = some 8
    ∧ strlen (buildInfoFile.drop 8) 16 = some 3
    ∧ roundAlign8Bit (mkLayout 8 24 12) 8 = 16
    ∧ (read0x1d (mkLayout 8 24 12) 8 buildInfoTableFile 48 40).map
          (fun i => (i.buffer, i.appBuildName, i.kitBuildName, i.platforName))
        = some (buildInfoFile.drop 8, 0, 16, 24) := by
  decide

/-- C18 (amended): whenever `read0x1d` reports the build information of a table of
8 to `2^32 - 1` bytes (on a platform whose `unsigned long` has at least 4
bytes), the app build name starts at payload offset 0, the kit build name at
`R(len(app))` and the platform name at `R(len(app)) + R(len(kit))`, where
`R = roundAlign8Bit` and `R(len)` is the least multiple of 8 strictly greater
than `len`. -/
theorem C18_build_info_layout (L : Layout) (aiSize : Nat) (file : List Byte)
    (pos tblSize : Nat) (info : BuildInformation)
    (hW : 4 ≤ L.ulongSize) (h8 : 8 ≤ tblSize) (h32 : tblSize < 2 ^ 32)
    (h : read0x1d L aiSize file pos tblSize = some info) :
    info.appBuildName = 0
    ∧ ∃ la lk, strlen info.buffer 0 = some la
        ∧ strlen info.buffer (roundAlign8Bit L la) = some lk
        ∧ info.kitBuildName = roundAlign8Bit L la
        ∧ info.platforName = roundAlign8Bit L la + roundAlign8Bit L lk
        ∧ roundAlign8Bit L la % 8 = 0 ∧ la < roundAlign8Bit L la
        ∧ (∀ m, m % 8 = 0 → la < m → roundAlign8Bit L la ≤ m)
        ∧ roundAlign8Bit L lk % 8 = 0 ∧ lk < roundAlign8Bit L lk
        ∧ (∀ m, m % 8 = 0 → lk < m → roundAlign8Bit L lk ≤ m) := by
  have hM := ulongMod_ge L hW
  obtain ⟨hlenb, la, lk, h1, h2, h3, h4, h5⟩ := read0x1d_some L aiSize file pos tblSize info h
  have hbs : read0x1d_bufferSize L tblSize = tblSize - 8 :=
    subUL_of_le L tblSize 8 (by omega) h8
  rw [hbs] at hlenb
  have hla := strlen_some _ _ _ h1
  obtain ⟨a1, a2, a3, a4⟩ := roundAlign8Bit_spec L la (by omega)
  have e1 : (0 + roundAlign8Bit L la) % 2 ^ 32 = roundAlign8Bit L la := by
    rw [Nat.zero_add, Nat.mod_eq_of_lt (by omega)]
  rw [e1] at h2 h4 h5
  have hlk := strlen_some _ _ _ h2
  obtain ⟨b1, b2, b3, b4⟩ := roundAlign8Bit_spec L lk (by omega)
  have e2 : (roundAlign8Bit L la + roundAlign8Bit L lk) % 2 ^ 32 =
      roundAlign8Bit L la + roundAlign8Bit L lk := Nat.mod_eq_of_lt (by omega)
  rw [e2] at h5
  exact ⟨h3, la, lk, h1, h2, h4, h5, a1, a2, a4, b1, b2, b4⟩

/-- Witness of C18 (amended) on `buildInfoFile`. -/
theorem C18_build_info_layout_witness :
    4 ≤ (mkLayout 8 24 12).ulongSize ∧ 8 ≤ 40 ∧ 40 < 2 ^ 32
    ∧ read0x1d (mkLayout 8 24 12) 8 buildInfoFile 0 40 =
        some { ai := buildInfoFile.take 8, buffer := buildInfoFile.drop 8,
               appBuildName := 0, kitBuildName := 16, platforName := 24 }
    ∧ ∃ la lk, strlen (buildInfoFile.drop 8) 0 = some la
        ∧ strlen (buildInfoFile.drop 8) (roundAlign8Bit (mkLayout 8 24 12) la) = some lk
        ∧ 16 = roundAlign8Bit (mkLayout 8 24 12) la
        ∧ 24 = roundAlign8Bit (mkLayout 8 24 12) la + roundAlign8Bit (mkLayout 8 24 12) lk
        ∧ roundAlign8Bit (mkLayout 8 24 12) la % 8 = 0
        ∧ la < roundAlign8Bit (mkLayout 8 24 12) la
        ∧ (∀ m, m % 8 = 0 → la < m → roundAlign8Bit (mkLayout 8 24 12) la ≤ m)
        ∧ roundAlign8Bit (mkLayout 8 24 12) lk % 8 = 0
        ∧ lk < roundAlign8Bit (mkLayout 8 24 12) lk
        ∧ (∀ m, m % 8 = 0 → lk < m → roundAlign8Bit (mkLayout 8 24 12) lk ≤ m) :=
  ⟨by decide, by decide, by decide, by decide,
    (C18_build_info_layout (mkLayout 8 24 12) 8 buildInfoFile 0 40
      { ai := buildInfoFile.take 8, buffer := buildInfoFile.drop 8,
        appBuildName := 0, kitBuildName := 16, platforName := 24 }
      (by decide) (by decide) (by decide) (by decide)).2⟩

/-! ### Arrays of 4-byte integers; C13 -/

theorem byteAt_lt (buf : List Byte) (i : Nat) : byteAt buf i < 256 := by
  unfold byteAt
  exact (buf.getD i 0).isLt

theorem le4_lt (buf : List Byte) (p : Nat) : le4 buf p < 2 ^ 32 := by
  unfold le4
  have h0 := byteAt_lt buf p
  have h1 := byteAt_lt buf (p + 1)
  have h2 := byteAt_lt buf (p + 2)
  have h3 := byteAt_lt buf (p + 3)
  omega

theorem byteAt_slice (file : List Byte) (pos n j : Nat) (h : j < n) :
    byteAt (slice file pos n) j = byteAt file (pos + j) := by
  unfold byteAt slice
  simp only [List.getD_eq_getElem?_getD]
  rw [List.getElem?_take_of_lt h, List.getElem?_drop]

theorem le4_slice (file : List Byte) (pos n j : Nat) (h : j + 4 ≤ n) :
    le4 (slice file pos n) j = le4 file (pos + j) := by
  unfold le4
  rw [byteAt_slice file pos n j (by omega), byteAt_slice file pos n (j + 1) (by omega),
    byteAt_slice file pos n (j + 2) (by omega), byteAt_slice file pos n (j + 3) (by omega)]
  rfl

theorem decodeUInts_slice (file : List Byte) (pos n : Nat) :
    decodeUInts (slice file pos (4 * n)) n = (List.range n).map (fun i => le4 file (pos + 4 * i)) := by
  unfold decodeUInts
  apply List.map_congr_left
  intro i hi
  rw [List.mem_range] at hi
  exact le4_slice file pos (4 * n) (4 * i) (by omega)

theorem freadArr_of_le (file : List Byte) (pos size : Nat) (h : pos + size ≤ file.length) :
    freadArr file pos size = some (slice file pos size) := by
  unfold freadArr
  split_ifs with h0
  · subst h0
    simp [slice]
  · exact fread1_of_le file pos size (by omega) h

/-- C13 (evaluation at the failing input): the switch of `parse` tests
`(int)ids[i]`, the low 32 bits of the id. A directory entry with the id
`2^32 + 0x0b`, which is not a known table id, is handed to `read0x0b`, and one
with the id `2^32 + 0x04` to `read0x04` at the index-relative offset; so
`parse` calls `read0x0b` on the only table of `highIdFile`. -/
theorem C13_high_bits_are_dropped (L : Layout) (start off size : Nat) :
    dispatch L start (2 ^ 32 + 0x0b) off size = some ⟨.read0x0b, off, size⟩
    ∧ dispatch L start (2 ^ 32 + 0x04) off size
        = some ⟨.read0x04, (start + off) % L.ulongMod, size⟩
    ∧ parse (mkLayout 8 24 12) highIdFile = some [⟨.read0x0b, 48, 12⟩]
    ∧ parseCalls L 1 [2 ^ 32 + 0x0b] [off] [size] = [some ⟨.read0x0b, off, size⟩] := by
  have h : ∀ s, dispatch L s (2 ^ 32 + 0x0b) off size = some ⟨.read0x0b, off, size⟩ := by
    intro s
    simp [dispatch, toInt]
  refine ⟨h start, by simp [dispatch, toInt], by decide, ?_⟩
  have hc : parseCalls L 1 [2 ^ 32 + 0x0b] [off] [size] =
      [dispatch L (startOffset 1 [2 ^ 32 + 0x0b] [off]) (2 ^ 32 + 0x0b) off size] := rfl
  rw [hc, h]

/-- An entry whose id, reduced to `int`, is none of the `case` labels makes no
decoder call; this covers every id below `2^31` that is not a label. An entry
whose id is not 1 leaves the index base, and so the call of every other entry,
as it is without it. -/
theorem unknown_id_skipped (L : Layout) (start id off size : Nat)
    (h : ∀ k, k ∈ [0x04, 0x05, 0x06, 0x07, 0x19, 0x1c, 0x1d, 0x28, 0x0a, 0x0b, 0x0101] →
      toInt id ≠ (k : Int)) :
    dispatch L start id off size = none := by
  unfold dispatch
  have c := fun k hk => h k hk
  simp only [List.mem_cons, List.mem_singleton, List.not_mem_nil, or_false, forall_eq_or_imp,
    forall_eq] at c
  obtain ⟨c1, c2, c3, c4, c5, c6, c7, c8, c9, c10, c11⟩ := c
  rw [if_neg (by simpa using c1), if_neg (by simpa using c2), if_neg (by simpa using c3),
    if_neg (by simpa using c4), if_neg (by simpa using c5), if_neg (by simpa using c6),
    if_neg (by simpa using c7), if_neg (by simpa using c8), if_neg (by simpa using c9),
    if_neg (by simpa using c10), if_neg (by simpa using c11)]

theorem startOffset_set_unknown (used : Nat) (ids offsets : List Nat) (j id' : Nat)
    (h1 : ids.getD j 0 ≠ 1) (h2 : id' ≠ 1) :
    startOffset used (ids.set j id') offsets = startOffset used ids offsets := by
  unfold startOffset
  have hf : (fun i => decide ((ids.set j id').getD i 0 = 1)) =
      (fun i => decide (ids.getD i 0 = 1)) := by
    funext i
    by_cases hij : i = j
    · subst hij
      have hne : (ids.set i id').getD i 0 ≠ 1 := by
        simp only [List.getD_eq_getElem?_getD]
        by_cases hlt : i < ids.length
        · rw [List.getElem?_set_self hlt]
          exact h2
        · rw [List.getElem?_eq_none (by simp; omega)]
          decide
      rw [decide_eq_false hne, decide_eq_false h1]
    · rw [getD_set_ne ids j i id' hij]
  rw [hf]

/-! ### C21: overlapping windows of the pair scan -/

/-- The pair scan pushes the record of every window `0, 4, 8, ...` that lies in
the buffer, in that order. -/
theorem pairScan_eq_windows (L : Layout) (buf : List Byte) (t ds : Nat) :
    pairScan L buf t ds =
      (List.range' 0 ((buf.length - 4) / 4) 4).filterMap (pairBody L buf t ds) := by
  unfold pairScan
  rw [pairLoop_eq L buf t ds buf.length 0 (by omega)]
  rfl

theorem windows_split (n p : Nat) (h4 : p % 4 = 0) (hp : p + 12 ≤ n) :
    List.range' 0 ((n - 4) / 4) 4 =
      List.range' 0 (p / 4) 4 ++ p :: (p + 4) :: List.range' (p + 8) ((n - 4) / 4 - p / 4 - 2) 4 := by
  have hk : (n - 4) / 4 = ((n - 4) / 4 - p / 4 - 2) + 2 + p / 4 := by omega
  have h1 : 0 + 4 * (p / 4) = p := by omega
  conv_lhs => rw [hk, ← List.range'_append, h1]
  rw [List.range'_succ, List.range'_succ]

/-- C21: pair-scan overlap. For a payload of `n` bytes and `p` divisible by 4 with
`p + 12 ≤ n`: when the loop body pushes a record `r1` for the window `p` and a
record `r2` for the window `p + 4`, the master value of `r1` is the instance
value of `r2` (both are the integer at `p + 4`), and the scan output holds `r1`
immediately followed by `r2`. The output is the sequence of the records of all
windows, none removed. -/
theorem C21_pair_scan_overlap (L : Layout) (buf : List Byte) (t dataStart p : Nat)
    (r1 r2 : Record) (h4 : p % 4 = 0) (hp : p + 12 ≤ buf.length)
    (h1 : pairBody L buf t dataStart p = some r1)
    (h2 : pairBody L buf t dataStart (p + 4) = some r2) :
    r1.master_value = r2.instance_value
    ∧ r1.master_value = le4 buf (p + 4)
    ∧ r1.file_offset = (dataStart + p) % L.ulongMod
    ∧ r2.file_offset = (dataStart + (p + 4)) % L.ulongMod
    ∧ (∃ pre post, pairScan L buf t dataStart = pre ++ r1 :: r2 :: post)
    ∧ pairScan L buf t dataStart =
        (List.range' 0 ((buf.length - 4) / 4) 4).filterMap (pairBody L buf t dataStart) := by
  have e1 := h1
  have e2 := h2
  unfold pairBody at e1 e2
  split_ifs at e1 e2 with c1 c2
  have e1 := Option.some.inj e1
  have e2 := Option.some.inj e2
  subst e1 e2
  refine ⟨rfl, rfl, rfl, rfl, ?_, pairScan_eq_windows L buf t dataStart⟩
  rw [pairScan_eq_windows, windows_split buf.length p h4 hp, List.filterMap_append,
    List.filterMap_cons_some h1, List.filterMap_cons_some h2]
  exact ⟨_, _, rfl⟩

/-- Witness of C21 on `overlapPayload`: the windows 0 and 4 give `(1, 5)` and
`(5, 9)`, and both records are in the output. -/
theorem C21_pair_scan_overlap_witness :
    0 % 4 = 0 ∧ 0 + 12 ≤ overlapPayload.length
    ∧ pairScan (mkLayout 8 24 8) overlapPayload 0 72 =
        [{ table_index := 0, record_index := 0, instance_value := 1, master_value := 5,
           file_offset := 72 },
         { table_index := 0, record_index := 0, instance_value := 5, master_value := 9,
           file_offset := 76 }]
    ∧ ∃ pre post, pairScan (mkLayout 8 24 8) overlapPayload 0 72 =
        pre ++ ({ table_index := 0, record_index := 0, instance_value := 1, master_value := 5,
                  file_offset := 72 } : Record) ::
          { table_index := 0, record_index := 0, instance_value := 5, master_value := 9,
            file_offset := 76 } :: post :=
  ⟨by decide, by decide, by decide,
    (C21_pair_scan_overlap (mkLayout 8 24 8) overlapPayload 0 72 0
      { table_index := 0, record_index := 0, instance_value := 1, master_value := 5,
        file_offset := 72 }
      { table_index := 0, record_index := 0, instance_value := 5, master_value := 9,
        file_offset := 76 } (by decide) (by decide) (by decide) (by decide)).2.2.2.2.1⟩

theorem takeWhile_stop (l : List Byte) :
    (l.takeWhile (fun c => decide (c ≠ 0))).length < l.length →
      l.getD (l.takeWhile (fun c => decide (c ≠ 0))).length 0 = 0 := by
  induction l with
  | nil => intro h; exact absurd h (by simp)
  | cons a l ih =>
    intro h
    by_cases ha : a = 0
    · subst ha
      simp [List.takeWhile]
    · have e : (a :: l).takeWhile (fun c => decide (c ≠ 0)) =
          a :: l.takeWhile (fun c => decide (c ≠ 0)) := by
        simp [List.takeWhile, ha]
      rw [e] at h ⊢
      rw [List.length_cons, List.getD_cons_succ]
      apply ih
      simpa using h

/-- The byte `strlen` stops at is the terminator. -/
theorem strlen_terminator (buffer : List Byte) (b n : Nat) (h : strlen buffer b = some n) :
    byteAt buffer (b + n) = 0 := by
  unfold strlen at h
  split_ifs at h with hlt
  have hn := Option.some.inj h
  subst hn
  have := takeWhile_stop (buffer.drop b) hlt
  unfold byteAt
  rw [List.getD_eq_getElem?_getD, ← List.getElem?_drop, ← List.getD_eq_getElem?_getD, this]
  rfl

/-! ### C22: `roundAlign8Bit` -/

/-- C22: for every `len` with `len + 8` representable in `unsigned long`,
`roundAlign8Bit(len)` is a multiple of 8 with
`len < roundAlign8Bit(len) ≤ len + 8`, the least multiple of 8 strictly greater
than `len`; a length that is a multiple of 8 advances by 8. In `read0x1d`, for
a table of 8 to `2^32 - 1` bytes on a platform whose `unsigned long` has at
least 4 bytes, the kit build name starts beyond the terminator of the app
build name and the platform name beyond the terminator of the kit build
name. -/
theorem C22_round_align (L : Layout) (len : Nat) (h : len + 8 < L.ulongMod) :
    roundAlign8Bit L len % 8 = 0
    ∧ len < roundAlign8Bit L len
    ∧ roundAlign8Bit L len ≤ len + 8
    ∧ (∀ m, m % 8 = 0 → len < m → roundAlign8Bit L len ≤ m)
    ∧ (len % 8 = 0 → roundAlign8Bit L len = len + 8)
    ∧ (∀ (aiSize : Nat) (file : List Byte) (pos tblSize : Nat) (info : BuildInformation),
        4 ≤ L.ulongSize → 8 ≤ tblSize → tblSize < 2 ^ 32 →
        read0x1d L aiSize file pos tblSize = some info →
        ∃ la lk, strlen info.buffer info.appBuildName = some la
          ∧ strlen info.buffer info.kitBuildName = some lk
          ∧ byteAt info.buffer (info.appBuildName + la) = 0
          ∧ info.appBuildName + la < info.kitBuildName
          ∧ byteAt info.buffer (info.kitBuildName + lk) = 0
          ∧ info.kitBuildName + lk < info.platforName) := by
  obtain ⟨a1, a2, a3, a4⟩ := roundAlign8Bit_spec L len h
  refine ⟨a1, a2, a3, a4, ?_, ?_⟩
  · intro h8
    have := a4 (len + 8) (by omega) (by omega)
    omega
  · intro aiSize file pos tblSize info hW h8 h32 hr
    have hM := ulongMod_ge L hW
    obtain ⟨hlenb, la, lk, h1, h2, h3, h4, h5⟩ := read0x1d_some L aiSize file pos tblSize info hr
    have hbs : read0x1d_bufferSize L tblSize = tblSize - 8 :=
      subUL_of_le L tblSize 8 (by omega) h8
    rw [hbs] at hlenb
    have hla := strlen_some _ _ _ h1
    obtain ⟨b1, b2, b3, _⟩ := roundAlign8Bit_spec L la (by omega)
    have e1 : (0 + roundAlign8Bit L la) % 2 ^ 32 = roundAlign8Bit L la := by
      rw [Nat.zero_add, Nat.mod_eq_of_lt (by omega)]
    rw [e1] at h2 h4 h5
    have hlk := strlen_some _ _ _ h2
    obtain ⟨c1, c2, c3, _⟩ := roundAlign8Bit_spec L lk (by omega)
    have e2 : (roundAlign8Bit L la + roundAlign8Bit L lk) % 2 ^ 32 =
        roundAlign8Bit L la + roundAlign8Bit L lk := Nat.mod_eq_of_lt (by omega)
    rw [e2] at h5
    rw [h3, h4, h5]
    refine ⟨la, lk, h1, h2, ?_, by omega, ?_, by omega⟩
    · exact strlen_terminator _ _ _ h1
    · exact strlen_terminator _ _ _ h2

/-- Witness of C22 at `len = 8` on a platform with an 8-byte `unsigned long`: the
result is 16. -/
theorem C22_round_align_witness :
    8 + 8 < (mkLayout 8 24 12).ulongMod
    ∧ roundAlign8Bit (mkLayout 8 24 12) 8 = 16
    ∧ roundAlign8Bit (mkLayout 8 24 12) 8 % 8 = 0
    ∧ 8 < roundAlign8Bit (mkLayout 8 24 12) 8
    ∧ roundAlign8Bit (mkLayout 8 24 12) 8 ≤ 8 + 8 :=
  ⟨by decide, by decide,
    (C22_round_align (mkLayout 8 24 12) 8 (by decide)).1,
    (C22_round_align (mkLayout 8 24 12) 8 (by decide)).2.1,
    (C22_round_align (mkLayout 8 24 12) 8 (by decide)).2.2.1⟩

/-! ### C23: the scan without a usable string table -/

theorem stringTableIndex_none (used : Nat) (ids : List Nat)
    (h : ∀ i, i < used → ids.getD i 0 ≠ 0x0a) : stringTableIndex used ids = -1 := by
  unfold stringTableIndex
  rw [find_range_none _ used (fun j hj => decide_eq_false (h j hj))]

theorem stringTableIndex_first (used : Nat) (ids : List Nat) (i : Nat) (hi : i < used)
    (hid : ids.getD i 0 = 0x0a) (hmin : ∀ j, j < i → ids.getD j 0 ≠ 0x0a) :
    stringTableIndex used ids = toInt i := by
  unfold stringTableIndex
  rw [find_range_first _ used i hi (decide_eq_true hid) (fun j hj => decide_eq_false (hmin j hj))]

theorem scanConnectivity_of_loaded (L : Layout) (file : List Byte) (fuel used : Nat)
    (ids offsets sizes : List Nat)
    (hdir : loadDirectory L file = .loaded used ids offsets sizes) :
    scanConnectivity L file fuel =
      (loadStringTable L file used ids offsets sizes fuel).map (fun ps =>
        { status := 0, records := scanTables L file ps.1 ps.2 used ids offsets sizes }) := by
  simp only [scanConnectivity, hdir]
  cases loadStringTable L file used ids offsets sizes fuel with
  | none => rfl
  | some ps =>
    obtain ⟨pool, st⟩ := ps
    rfl

theorem scanConnectivity_used_zero (L : Layout) (file : List Byte) (fuel used : Nat)
    (ids offsets sizes : List Nat) (pool : Pool)
    (hdir : loadDirectory L file = .loaded used ids offsets sizes)
    (hst : loadStringTable L file used ids offsets sizes fuel = some (pool, 0)) :
    scanConnectivity L file fuel = some { status := 0, records := [] } := by
  rw [scanConnectivity_of_loaded L file fuel used ids offsets sizes hdir, hst]
  simp only [Option.map_some']
  rw [scanTables_used_zero]

/-- The string table load when the header of the string table is read: the pool
loop runs on the payload read, and `string_table_used` is the field `used` of
the header. -/
theorem loadStringTable_header (L : Layout) (file : List Byte) (used : Nat)
    (ids offsets sizes : List Nat) (fuel i : Nat) (th : List Byte)
    (hidx : stringTableIndex used ids = (i : Int))
    (hsize : L.tiSize ≤ sizes.getD i 0) (hseek : fseekOk L (offsets.getD i 0) = true)
    (hread : fread1 file (offsets.getD i 0) L.tiSize = some th) :
    loadStringTable L file used ids offsets sizes fuel =
      if sizes.getD i 0 - L.tiSize = 0
          ∨ fseekOk L (tableDataStart L (offsets.getD i 0)) = false then
        some ([], L.tiUsed th)
      else
        (poolLoop (tableBuf L file (offsets.getD i 0) (sizes.getD i 0))
          (tableGot L file (offsets.getD i 0) (sizes.getD i 0)) fuel 0 []).map
          (fun pool => (pool, L.tiUsed th)) := by
  unfold loadStringTable
  simp only [hidx, Int.toNat_ofNat, dataSize_eq, tableDataStart, tableBuf, tableGot]
  have h0 : ¬ ((i : Int) < 0) := by omega
  have h1 : ¬ sizes.getD i 0 < L.tiSize := by omega
  simp only [h0, h1, if_false, hseek, if_true, hread]
  by_cases hz : sizes.getD i 0 - L.tiSize = 0
  · rw [if_pos hz, if_pos (Or.inl hz)]
  · by_cases hs : fseekOk L ((offsets.getD i 0 + L.tiSize) % L.ulongMod) = false
    · rw [if_neg hz, if_pos hs, if_pos (Or.inr hs)]
    · rw [if_neg hz, if_neg hs, if_neg (by rintro (h | h); exact hz h; exact hs h)]
      cases poolLoop (fillBuf file ((offsets.getD i 0 + L.tiSize) % L.ulongMod)
          (sizes.getD i 0 - L.tiSize))
          (slice file ((offsets.getD i 0 + L.tiSize) % L.ulongMod)
            (sizes.getD i 0 - L.tiSize)).length fuel 0 [] with
      | none => rfl
      | some pool => rfl

/-- C23: the connectivity scan without a usable string table. For the directory
read from the file: when no entry has the id `0x0a`, or when the first entry
with that id (at an index below `2^31`) declares a size below the
payload-header size, the scan ends with an empty candidate list; when the
header of that table is read and its `used` field is 0, every result of the
scan has an empty candidate list, and the scan does end with one when the
payload read for the string table has no byte above 126. Nothing is assumed
about any other table. -/
theorem C23_no_usable_string_table (L : Layout) (file : List Byte) (used : Nat)
    (ids offsets sizes : List Nat)
    (hdir : loadDirectory L file = .loaded used ids offsets sizes) :
    ((∀ i, i < used → ids.getD i 0 ≠ 0x0a) →
        ∀ fuel, scanConnectivity L file fuel = some { status := 0, records := [] })
    ∧ (∀ i, i < used → i < 2 ^ 31 → ids.getD i 0 = 0x0a →
        (∀ j, j < i → ids.getD j 0 ≠ 0x0a) →
        (sizes.getD i 0 < L.tiSize →
          ∀ fuel, scanConnectivity L file fuel = some { status := 0, records := [] })
        ∧ (∀ th, fseekOk L (offsets.getD i 0) = true →
            fread1 file (offsets.getD i 0) L.tiSize = some th → L.tiUsed th = 0 →
            (∀ fuel out, scanConnectivity L file fuel = some out →
                out = { status := 0, records := [] })
            ∧ ((∀ k, k < tableGot L file (offsets.getD i 0) (sizes.getD i 0) →
                  byteAt (tableBuf L file (offsets.getD i 0) (sizes.getD i 0)) k < 127) →
                ∀ fuel, tableGot L file (offsets.getD i 0) (sizes.getD i 0) < fuel →
                  scanConnectivity L file fuel = some { status := 0, records := [] }))) := by
  refine ⟨?_, ?_⟩
  · intro hno fuel
    apply scanConnectivity_used_zero L file fuel used ids offsets sizes [] hdir
    unfold loadStringTable
    simp [stringTableIndex_none used ids hno]
  · intro i hi h31 hid hmin
    have hidx : stringTableIndex used ids = (i : Int) := by
      rw [stringTableIndex_first used ids i hi hid hmin, toInt_small i h31]
    refine ⟨?_, ?_⟩
    · intro hsmall fuel
      apply scanConnectivity_used_zero L file fuel used ids offsets sizes [] hdir
      apply loadStringTable_small
      rw [hidx, Int.toNat_ofNat]
      exact hsmall
    · intro th hseek hread hused
      by_cases hsmall : sizes.getD i 0 < L.tiSize
      · have hst : ∀ fuel, loadStringTable L file used ids offsets sizes fuel = some ([], 0) := by
          intro fuel
          apply loadStringTable_small
          rw [hidx, Int.toNat_ofNat]
          exact hsmall
        refine ⟨?_, ?_⟩
        · intro fuel out hout
          rw [scanConnectivity_used_zero L file fuel used ids offsets sizes [] hdir (hst fuel)]
            at hout
          exact (Option.some.inj hout).symm
        · intro _ fuel _
          exact scanConnectivity_used_zero L file fuel used ids offsets sizes [] hdir (hst fuel)
      · have hl := fun fuel => loadStringTable_header L file used ids offsets sizes fuel i th hidx
          (by omega) hseek hread
        rw [hused] at hl
        refine ⟨?_, ?_⟩
        · intro fuel out hout
          have hlf := hl fuel
          cases hst : loadStringTable L file used ids offsets sizes fuel with
          | none =>
            rw [scanConnectivity_of_loaded L file fuel used ids offsets sizes hdir, hst] at hout
            cases hout
          | some ps =>
            have hps : ps.2 = 0 := by
              rw [hst] at hlf
              split_ifs at hlf with hc
              · rw [Option.some.inj hlf]
              · cases hp : poolLoop (tableBuf L file (offsets.getD i 0) (sizes.getD i 0))
                    (tableGot L file (offsets.getD i 0) (sizes.getD i 0)) fuel 0 [] with
                | none => rw [hp] at hlf; cases hlf
                | some pool =>
                  rw [hp] at hlf
                  rw [Option.some.inj hlf]
            have hst2 : loadStringTable L file used ids offsets sizes fuel = some (ps.1, 0) := by
              rw [hst, ← hps]
            rw [scanConnectivity_used_zero L file fuel used ids offsets sizes ps.1 hdir hst2]
              at hout
            exact (Option.some.inj hout).symm
        · intro hlow fuel hfuel
          have hlf := hl fuel
          split_ifs at hlf with hc
          · exact scanConnectivity_used_zero L file fuel used ids offsets sizes [] hdir hlf
          · have hle : tableGot L file (offsets.getD i 0) (sizes.getD i 0) ≤
                (tableBuf L file (offsets.getD i 0) (sizes.getD i 0)).length := by
              unfold tableGot tableBuf
              rw [length_fillBuf]
              exact length_slice_le _ _ _
            obtain ⟨pool, hpool, _⟩ := poolLoop_low _ _ hle hlow fuel 0 [] (by omega)
              (by omega) (Or.inl rfl) (by intro k; simp)
            rw [hpool] at hlf
            exact scanConnectivity_used_zero L file fuel used ids offsets sizes pool hdir hlf

/-- Witness of C23 on `connFile 17 0 22`, the file `connectivityFile` with the field
`used` of its string table header set to 0: the scan ends without a candidate
(with `used = 5` it emits one). -/
theorem C23_no_usable_string_table_witness :
    loadDirectory (mkLayout 8 24 12) (connFile 17 0 22) = .loaded 2 [10, 12] [72, 96] [17, 22]
    ∧ (∀ fuel out, scanConnectivity (mkLayout 8 24 12) (connFile 17 0 22) fuel = some out →
        out = { status := 0, records := [] })
    ∧ scanConnectivity (mkLayout 8 24 12) (connFile 17 0 22) 8
        = some { status := 0, records := [] }
    ∧ scanConnectivity (mkLayout 8 24 12) (connFile 17 5 22) 8
        = some { status := 0,
                 records := [{ tableId := 12, tableIndex := 1, fileOffset := 109,
                               name := [67, 68], oids := [7] }] } :=
  ⟨by decide,
    (((C23_no_usable_string_table (mkLayout 8 24 12) (connFile 17 0 22) 2 [10, 12] [72, 96]
      [17, 22] (by decide)).2 0 (by decide) (by decide) (by decide)
      (fun j hj => absurd hj (by omega))).2
      (slice (connFile 17 0 22) 72 12) (by decide) (by decide) (by decide)).1,
    by decide, by decide⟩

/-! ### C24: the order of the candidate list -/

/-- The candidates of one table come in strictly increasing file offset. -/
theorem scanTable_sorted (L : Layout) (file : List Byte) (pool : Pool) (stUsed : Nat)
    (t tid pos size : Nat) (hlen : file.length < 2 ^ (8 * L.ulongSize - 1)) :
    (scanTable L file pool stUsed t tid pos size).Pairwise
      (fun a b => a.fileOffset < b.fileOffset) := by
  rw [scanTable_eq_spec]
  split_ifs with hc
  · exact List.Pairwise.nil
  · unfold scanSpec
    apply List.Pairwise.filterMap _ _ (List.pairwise_lt_range _)
    intro p q hpq b hb b' hb'
    have hM := half_le_ulongMod L
    split_ifs at hb with c1
    swap
    · exact absurd hb (by simp)
    split_ifs at hb' with c2
    swap
    · exact absurd hb' (by simp)
    have hgot : tableGot L file pos size ≤ file.length - tableDataStart L pos := by
      unfold tableGot
      rw [length_slice]
      exact Nat.min_le_right _ _
    have e1 : (tableDataStart L pos + p) % L.ulongMod = tableDataStart L pos + p :=
      Nat.mod_eq_of_lt (by omega)
    have e2 : (tableDataStart L pos + q) % L.ulongMod = tableDataStart L pos + q :=
      Nat.mod_eq_of_lt (by omega)
    have hb := Option.some.inj (Option.mem_def.1 hb)
    have hb' := Option.some.inj (Option.mem_def.1 hb')
    subst hb hb'
    show (tableDataStart L pos + p) % L.ulongMod < (tableDataStart L pos + q) % L.ulongMod
    rw [e1, e2]
    omega

theorem scanEntry_tableIndex (L : Layout) (file : List Byte) (pool : Pool) (stUsed used : Nat)
    (ids offsets sizes : List Nat) (t : Nat) (c : Candidate)
    (hc : c ∈ scanEntry L file pool stUsed used ids offsets sizes t) :
    c.tableIndex = t ∧ toInt t ≠ stringTableIndex used ids := by
  unfold scanEntry at hc
  split_ifs at hc with h
  · cases hc
  · obtain ⟨_, p, _, _, _, _, rfl⟩ := scanTable_mem L file pool stUsed t _ _ _ c hc
    exact ⟨rfl, h⟩

/-- The candidate list is sorted by table index and, within a table, by strictly
increasing file offset. -/
theorem scanTables_sorted (L : Layout) (file : List Byte) (pool : Pool) (stUsed used : Nat)
    (ids offsets sizes : List Nat) (hlen : file.length < 2 ^ (8 * L.ulongSize - 1)) :
    (scanTables L file pool stUsed used ids offsets sizes).Pairwise
      (fun a b => a.tableIndex < b.tableIndex
        ∨ (a.tableIndex = b.tableIndex ∧ a.fileOffset < b.fileOffset)) := by
  rw [scanTables_eq_flatMap, List.pairwise_flatMap]
  refine ⟨?_, ?_⟩
  · intro t _
    have hs : (scanEntry L file pool stUsed used ids offsets sizes t).Pairwise
        (fun a b => a.fileOffset < b.fileOffset) := by
      unfold scanEntry
      split_ifs
      · exact List.Pairwise.nil
      · exact scanTable_sorted L file pool stUsed t _ _ _ hlen
    refine List.Pairwise.imp_of_mem ?_ hs
    intro a b ha hb hab
    exact Or.inr ⟨by rw [(scanEntry_tableIndex _ _ _ _ _ _ _ _ _ a ha).1,
      (scanEntry_tableIndex _ _ _ _ _ _ _ _ _ b hb).1], hab⟩
  · refine List.Pairwise.imp ?_ (List.pairwise_lt_range used)
    intro t1 t2 h12 x hx y hy
    left
    rw [(scanEntry_tableIndex _ _ _ _ _ _ _ _ _ x hx).1,
      (scanEntry_tableIndex _ _ _ _ _ _ _ _ _ y hy).1]
    exact h12

/-- C24: order of the connectivity candidate list. For a file the stream functions
can address and the directory read from it, the candidate list of a run is
sorted by table index and, within one table, by strictly increasing file
offset; so no two candidates share a table index and a file offset; and no
candidate carries the index of the first entry with id `0x0a`. The candidate
list is the one the table loop builds from the string pool of the run. -/
theorem C24_candidate_order (L : Layout) (file : List Byte) (used : Nat)
    (ids offsets sizes : List Nat) (fuel : Nat) (out : Outcome Candidate)
    (hlen : file.length < 2 ^ (8 * L.ulongSize - 1))
    (hdir : loadDirectory L file = .loaded used ids offsets sizes)
    (hrun : scanConnectivity L file fuel = some out) :
    out.records.Pairwise
        (fun a b => a.tableIndex < b.tableIndex
          ∨ (a.tableIndex = b.tableIndex ∧ a.fileOffset < b.fileOffset))
    ∧ (out.records.map (fun c => (c.tableIndex, c.fileOffset))).Nodup
    ∧ (∀ i, i < used → ids.getD i 0 = 0x0a → (∀ j, j < i → ids.getD j 0 ≠ 0x0a) →
        ∀ c, c ∈ out.records → c.tableIndex ≠ i)
    ∧ ∃ pool stUsed, loadStringTable L file used ids offsets sizes fuel = some (pool, stUsed)
        ∧ out.records = scanTables L file pool stUsed used ids offsets sizes := by
  rw [scanConnectivity_of_loaded L file fuel used ids offsets sizes hdir] at hrun
  cases hst : loadStringTable L file used ids offsets sizes fuel with
  | none =>
    rw [hst] at hrun
    cases hrun
  | some ps =>
    obtain ⟨pool, stUsed⟩ := ps
    rw [hst] at hrun
    have hout := (Option.some.inj hrun).symm
    subst hout
    have hs := scanTables_sorted L file pool stUsed used ids offsets sizes hlen
    refine ⟨hs, ?_, ?_, pool, stUsed, rfl, rfl⟩
    · unfold List.Nodup
      rw [List.pairwise_map]
      refine List.Pairwise.imp ?_ hs
      intro a b hab heq
      have h1 : a.tableIndex = b.tableIndex := congrArg Prod.fst heq
      have h2 : a.fileOffset = b.fileOffset := congrArg Prod.snd heq
      omega
    · intro i hi hid hmin c hc heq
      change c ∈ scanTables L file pool stUsed used ids offsets sizes at hc
      rw [scanTables_eq_flatMap, List.mem_flatMap] at hc
      obtain ⟨t, _, hct⟩ := hc
      obtain ⟨h1, h2⟩ := scanEntry_tableIndex _ _ _ _ _ _ _ _ _ c hct
      apply h2
      rw [← h1, heq, stringTableIndex_first used ids i hi hid hmin]

set_option maxRecDepth 8192 in
/-- Witness of C24 on `orderFile`: three candidates for table 0 at the file offsets
108, 112, 114, then one for table 2; none for table 1, the string table. -/
theorem C24_candidate_order_witness :
    orderFile.length < 2 ^ (8 * (mkLayout 8 24 12).ulongSize - 1)
    ∧ loadDirectory (mkLayout 8 24 12) orderFile =
        .loaded 3 [0x0c, 0x0a, 0x0d] [96, 120, 137] [24, 17, 18]
    ∧ scanConnectivity (mkLayout 8 24 12) orderFile 8 =
        some { status := 0,
               records :=
                [{ tableId := 12, tableIndex := 0, fileOffset := 108, name := [67, 68],
                   oids := [7, 524291] },
                 { tableId := 12, tableIndex := 0, fileOffset := 112, name := [65, 66],
                   oids := [524291] },
                 { tableId := 12, tableIndex := 0, fileOffset := 114, name := [67, 68],
                   oids := [8] },
                 { tableId := 13, tableIndex := 2, fileOffset := 149, name := [67, 68],
                   oids := [9] }] }
    ∧ ∀ c, c ∈
        [({ tableId := 12, tableIndex := 0, fileOffset := 108, name := [67, 68],
            oids := [7, 524291] } : Candidate),
         { tableId := 12, tableIndex := 0, fileOffset := 112, name := [65, 66],
           oids := [524291] },
         { tableId := 12, tableIndex := 0, fileOffset := 114, name := [67, 68],
           oids := [8] },
         { tableId := 13, tableIndex := 2, fileOffset := 149, name := [67, 68],
           oids := [9] }] → c.tableIndex ≠ 1 :=
  ⟨by decide, by decide, by decide,
    (C24_candidate_order (mkLayout 8 24 12) orderFile 3 [0x0c, 0x0a, 0x0d] [96, 120, 137]
      [24, 17, 18] 8
      { status := 0,
        records :=
          [{ tableId := 12, tableIndex := 0, fileOffset := 108, name := [67, 68],
             oids := [7, 524291] },
           { tableId := 12, tableIndex := 0, fileOffset := 112, name := [65, 66],
             oids := [524291] },
           { tableId := 12, tableIndex := 0, fileOffset := 114, name := [67, 68],
             oids := [8] },
           { tableId := 13, tableIndex := 2, fileOffset := 149, name := [67, 68],
             oids := [9] }] }
      (by decide) (by decide) (by decide)).2.2.1 1 (by decide) (by decide) (by decide)⟩

/-! ### The candidates of one directory entry -/

theorem stringTableIndex_cases (used : Nat) (ids : List Nat) :
    stringTableIndex used ids = -1
    ∨ ∃ i, i < used ∧ ids.getD i 0 = 0x0a ∧ stringTableIndex used ids = toInt i := by
  unfold stringTableIndex
  cases hf : (List.range used).find? (fun i => decide (ids.getD i 0 = 0x0a)) with
  | none => exact Or.inl rfl
  | some i =>
    obtain ⟨h1, h2, _⟩ := find_range_some _ used i hf
    exact Or.inr ⟨i, h1, of_decide_eq_true h2, rfl⟩

theorem flatMap_range_single {α : Type} (g : Nat → List α) (t : Nat)
    (h : ∀ s, s ≠ t → g s = []) :
    ∀ n, (List.range n).flatMap g = if t < n then g t else [] := by
  intro n
  induction n with
  | zero => simp
  | succ n ih =>
    rw [List.range_succ, List.flatMap_append, ih]
    by_cases h1 : t < n
    · have hn : n ≠ t := by omega
      rw [if_pos h1, if_pos (by omega)]
      simp [h n hn]
    · rw [if_neg h1]
      by_cases h2 : t = n
      · subst h2
        simp
      · have hn : n ≠ t := fun e => h2 e.symm
        rw [if_neg (by omega)]
        simp [h n hn]

/-- The candidates of a run that carry the table index `t` are those pushed in
iteration `t` of the table loop. -/
theorem scanTables_filter (L : Layout) (file : List Byte) (pool : Pool) (stUsed used : Nat)
    (ids offsets sizes : List Nat) (t : Nat) (ht : t < used) :
    (scanTables L file pool stUsed used ids offsets sizes).filter
        (fun c => decide (c.tableIndex = t)) =
      scanEntry L file pool stUsed used ids offsets sizes t := by
  rw [scanTables_eq_flatMap, List.filter_flatMap,
    flatMap_range_single _ t ?_ used, if_pos ht]
  · rw [List.filter_eq_self]
    intro c hc
    exact decide_eq_true (scanEntry_tableIndex _ _ _ _ _ _ _ _ _ c hc).1
  · intro s hs
    rw [List.filter_eq_nil_iff]
    intro c hc
    have := (scanEntry_tableIndex _ _ _ _ _ _ _ _ _ c hc).1
    simp only [decide_eq_true_eq]
    omega

/-- In a file the stream functions can address, the file offset of the candidate
of payload position `p` is the plain sum `tablePos + sizeof(tableIndex) + p`. -/
theorem scanTable_offset_plain (L : Layout) (file : List Byte) (pool : Pool) (stUsed : Nat)
    (t tid pos size : Nat) (c : Candidate) (p : Nat)
    (hlen : file.length < 2 ^ (8 * L.ulongSize - 1))
    (hmem : c ∈ scanTable L file pool stUsed t tid pos size)
    (hp : p + 1 < (slice file ((pos + L.tiSize) % L.ulongMod) (size - L.tiSize)).length) :
    ((pos + L.tiSize) % L.ulongMod + p) % L.ulongMod = pos + L.tiSize + p := by
  have hM := half_le_ulongMod L
  rw [scanTable_eq_spec] at hmem
  split_ifs at hmem with hc
  · cases hmem
  · have hr : fread1 file pos L.tiSize ≠ none := fun h => hc (Or.inr (Or.inr (Or.inl h)))
    have hb := fread1_ne_none file pos L.tiSize hr
    have e : (pos + L.tiSize) % L.ulongMod = pos + L.tiSize := Nat.mod_eq_of_lt (by omega)
    rw [e] at hp ⊢
    rw [length_slice] at hp
    have : min (size - L.tiSize) (file.length - (pos + L.tiSize)) ≤
        file.length - (pos + L.tiSize) := Nat.min_le_right _ _
    exact Nat.mod_eq_of_lt (by omega)

/-! ### C25: `emit_instances` and the entries it has no interest in -/

theorem slice_agree (file1 file2 : List Byte) (m pos n : Nat)
    (hagree : file1.drop m = file2.drop m) (hpos : m ≤ pos) :
    slice file1 pos n = slice file2 pos n := by
  unfold slice
  have e : pos = m + (pos - m) := by omega
  rw [e, ← List.drop_drop, ← List.drop_drop, hagree]

theorem fread1_agree (file1 file2 : List Byte) (m pos n : Nat)
    (hl : file1.length = file2.length) (hagree : file1.drop m = file2.drop m)
    (hpos : m ≤ pos) : fread1 file1 pos n = fread1 file2 pos n := by
  unfold fread1
  rw [hl, slice_agree file1 file2 m pos n hagree hpos]

theorem fillBuf_agree (file1 file2 : List Byte) (m pos n : Nat)
    (hagree : file1.drop m = file2.drop m) (hpos : m ≤ pos) :
    fillBuf file1 pos n = fillBuf file2 pos n := by
  unfold fillBuf
  rw [slice_agree file1 file2 m pos n hagree hpos]

theorem fixedLoop_agree (L : Layout) (file1 file2 : List Byte) (m t ds : Nat)
    (hl : file1.length = file2.length) (hagree : file1.drop m = file2.drop m) :
    ∀ (n r cur : Nat), m ≤ cur →
      fixedLoop L file1 t ds n r cur = fixedLoop L file2 t ds n r cur := by
  intro n
  induction n with
  | zero => intro r cur _; rfl
  | succ n ih =>
    intro r cur hcur
    unfold fixedLoop
    rw [fread1_agree file1 file2 m cur _ hl hagree hcur,
      fread1_agree file1 file2 m (cur + L.ulongSize) _ hl hagree (by omega),
      ih (r + 1) (cur + L.ulongSize + L.ulongSize) (by omega)]

/-- The decode of a table declared at or after `m` is the same in two files of
the same length that agree from byte `m` on. -/
theorem decodeTable_agree (L : Layout) (file1 file2 : List Byte) (m t pos size : Nat)
    (hlen : file1.length < 2 ^ (8 * L.ulongSize - 1))
    (hl : file1.length = file2.length) (hagree : file1.drop m = file2.drop m)
    (hpos : m ≤ pos) :
    decodeTable L file1 t pos size = decodeTable L file2 t pos size := by
  have hM := half_le_ulongMod L
  unfold decodeTable
  rw [← fread1_agree file1 file2 m pos _ hl hagree hpos]
  cases hr : fread1 file1 pos L.tiSize with
  | none => rfl
  | some th =>
    have hb := fread1_some file1 pos L.tiSize th hr
    have e : (pos + L.tiSize) % L.ulongMod = pos + L.tiSize := Nat.mod_eq_of_lt (by omega)
    simp only [e]
    rw [fixedLoop_agree L file1 file2 m t (pos + L.tiSize) hl hagree _ 0 (pos + L.tiSize)
        (by omega),
      fillBuf_agree file1 file2 m (pos + L.tiSize) _ hagree (by omega)]

theorem mem_targetIds (x : Nat) :
    x ∈ targetIds ↔ x = 0x0b ∨ x = 0x0101 ∨ x = 0x105 ∨ x = 0x107 := by
  unfold targetIds
  simp only [List.mem_cons, List.mem_singleton, List.not_mem_nil, or_false]
  omega

theorem emitTables_congr (L : Layout) (file1 file2 : List Byte) (used : Nat)
    (ids offsets1 sizes1 offsets2 sizes2 : List Nat)
    (h : ∀ t, t < used → ids.getD t 0 ∈ targetIds →
      decodeTable L file1 t (offsets1.getD t 0) (sizes1.getD t 0) =
        decodeTable L file2 t (offsets2.getD t 0) (sizes2.getD t 0)) :
    emitTables L file1 used ids offsets1 sizes1 = emitTables L file2 used ids offsets2 sizes2 := by
  unfold emitTables
  apply List.flatMap_congr
  intro t ht
  rw [List.mem_range] at ht
  unfold emitTable
  by_cases hi : ids.getD t 0 ∈ targetIds
  · simp only [hi, if_true]
    rw [h t ht hi]
  · simp only [hi, if_false]

/-- C25 (counterexample): `overlapFile 100` and `overlapFile 200` differ in one
byte only, byte 48, which lies in the offset field of the entry with id `0x0c`
(not a target id). The table of the entry with id `0x0b` is declared at offset
36, so its payload is that offset field, and the record emitted for it differs:
instance value 100 against 200. -/
theorem C25_overlapping_table_reads_directory :
    loadDirectory (mkLayout 8 24 12) (overlapFile 100) = .loaded 2 [0x0b, 0x0c] [36, 100] [20, 0]
    ∧ loadDirectory (mkLayout 8 24 12) (overlapFile 200)
        = .loaded 2 [0x0b, 0x0c] [36, 200] [20, 0]
    ∧ (0x0c : Nat) ∉ targetIds
    ∧ (overlapFile 100).take 48 = (overlapFile 200).take 48
    ∧ (overlapFile 100).drop 49 = (overlapFile 200).drop 49
    ∧ emitInstances (mkLayout 8 24 12) (overlapFile 100) =
        { status := 0,
          records := [(0x0b, { table_index := 0, record_index := 0, instance_value := 100,
                               master_value := 20, file_offset := 48 })] }
    ∧ emitInstances (mkLayout 8 24 12) (overlapFile 200) =
        { status := 0,
          records := [(0x0b, { table_index := 0, record_index := 0, instance_value := 200,
                               master_value := 20, file_offset := 48 })] } := by
  decide

/-- C25 (amended): records are emitted only for directory entries whose id is
`0x0b`, `0x0101`, `0x105` or `0x107`, each table being read at its directory
offset as it stands. For one file contents the record collection depends on
the directory only through the entries with these ids; and two files of the
same length (which the stream functions can address) with the same ids, the
same offsets and sizes for the entries with these ids, and the same bytes from
`m` on, where every such entry is declared at or after `m`, produce the same
record collection. -/
theorem C25_independent_of_other_entries (L : Layout) (file1 file2 : List Byte)
    (used : Nat) (ids offsets1 sizes1 offsets2 sizes2 : List Nat) (m : Nat)
    (hW : 4 ≤ L.ulongSize) (hlen : file1.length < 2 ^ (8 * L.ulongSize - 1))
    (hd1 : loadDirectory L file1 = .loaded used ids offsets1 sizes1)
    (hd2 : loadDirectory L file2 = .loaded used ids offsets2 sizes2)
    (htarget : ∀ t, t < used → ids.getD t 0 ∈ targetIds →
      offsets1.getD t 0 = offsets2.getD t 0 ∧ sizes1.getD t 0 = sizes2.getD t 0) :
    (∀ e, e ∈ (emitInstances L file1).records →
        (e.1 = 0x0b ∨ e.1 = 0x0101 ∨ e.1 = 0x105 ∨ e.1 = 0x107)
        ∧ e.2.table_index < used ∧ e.1 = ids.getD e.2.table_index 0
        ∧ offsets1.getD e.2.table_index 0 + L.tiSize ≤ e.2.file_offset
        ∧ e.2.file_offset < offsets1.getD e.2.table_index 0 + sizes1.getD e.2.table_index 0)
    ∧ emitTables L file1 used ids offsets2 sizes2 = emitTables L file1 used ids offsets1 sizes1
    ∧ (file1.length = file2.length → file1.drop m = file2.drop m →
        (∀ t, t < used → ids.getD t 0 ∈ targetIds → m ≤ offsets1.getD t 0) →
        emitInstances L file1 = emitInstances L file2) := by
  have hrec : (emitInstances L file1).records = emitTables L file1 used ids offsets1 sizes1 := by
    simp only [emitInstances, hd1]
  refine ⟨?_, ?_, ?_⟩
  · intro e he
    rw [hrec] at he
    obtain ⟨h1, h2, h3, h4⟩ :=
      (provenance_tables L file1 used ids offsets1 sizes1 hW hlen).1 e he
    refine ⟨?_, h1, h2, h3, h4⟩
    rw [← mem_targetIds]
    unfold emitTables at he
    rw [List.mem_flatMap] at he
    obtain ⟨t, _, het⟩ := he
    simp only [emitTable] at het
    split_ifs at het with hi
    · rw [List.mem_map] at het
      obtain ⟨r, _, rfl⟩ := het
      exact hi
    · cases het
  · apply emitTables_congr
    intro t ht hi
    rw [(htarget t ht hi).1, (htarget t ht hi).2]
  · intro hl hagree hm
    have h1 : emitInstances L file1 =
        { status := 0, records := emitTables L file1 used ids offsets1 sizes1 } := by
      simp only [emitInstances, hd1]
    have h2 : emitInstances L file2 =
        { status := 0, records := emitTables L file2 used ids offsets2 sizes2 } := by
      simp only [emitInstances, hd2]
    have h3 : emitTables L file1 used ids offsets1 sizes1 =
        emitTables L file2 used ids offsets2 sizes2 := by
      apply emitTables_congr
      intro t ht hi
      rw [← (htarget t ht hi).1, ← (htarget t ht hi).2]
      exact decodeTable_agree L file1 file2 m t _ _ hlen hl hagree (hm t ht hi)
    rw [h1, h2, h3]

/-- Witness of C25 (amended): `baseAndInstanceFile 0` and `baseAndInstanceFile 1000`
differ in the offset of the index-base entry only, the instance table lies
after the directory, and both give the same record. -/
theorem C25_independent_of_other_entries_witness :
    4 ≤ (mkLayout 8 24 12).ulongSize
    ∧ (baseAndInstanceFile 0).length < 2 ^ (8 * (mkLayout 8 24 12).ulongSize - 1)
    ∧ loadDirectory (mkLayout 8 24 12) (baseAndInstanceFile 0)
        = .loaded 2 [1, 0x0b] [0, 72] [0, 28]
    ∧ loadDirectory (mkLayout 8 24 12) (baseAndInstanceFile 1000)
        = .loaded 2 [1, 0x0b] [1000, 72] [0, 28]
    ∧ emitInstances (mkLayout 8 24 12) (baseAndInstanceFile 0) =
        { status := 0,
          records := [(0x0b, { table_index := 1, record_index := 0, instance_value := 1,
                               master_value := 100, file_offset := 84 })] }
    ∧ emitInstances (mkLayout 8 24 12) (baseAndInstanceFile 0) =
        emitInstances (mkLayout 8 24 12) (baseAndInstanceFile 1000) :=
  ⟨by decide, by decide, by decide, by decide, by decide,
    (C25_independent_of_other_entries (mkLayout 8 24 12) (baseAndInstanceFile 0)
      (baseAndInstanceFile 1000) 2 [1, 0x0b] [0, 72] [0, 28] [1000, 72] [0, 28] 72
      (by decide) (by decide) (by decide) (by decide) (by decide)).2.2
      (by decide) (by decide) (by decide)⟩

/-! ## The two tools on a machine -/

/-- The table body of `emit_instances` on a machine: the construction of `buf`
throws exactly when the header of the table was read, the data size is not a
multiple of 8 and a buffer of that size is refused; otherwise the body does
what `decodeTable` does. -/
theorem decodeTableRun_eq (L : Layout) (m : Machine) (file : List Byte) (t pos size : Nat) :
    decodeTableRun L m file t pos size =
      if L.tiSize ≤ size ∧ fseekOk L pos = true ∧ fread1 file pos L.tiSize ≠ none
          ∧ (size - L.tiSize) % 8 ≠ 0 ∧ heapOk L m (size - L.tiSize) = false then none
      else some (decodeTable L file t pos size) := by
  unfold decodeTableRun decodeTable
  simp only [dataSize_eq]
  cases hr : fread1 file pos L.tiSize with
  | none =>
    simp only []
    split_ifs <;> simp_all
  | some th =>
    simp only []
    split_ifs <;> simp_all
    omega

theorem decodeTableRun_some (L : Layout) (m : Machine) (file : List Byte)
    (t pos size : Nat) (r : TableResult)
    (h : decodeTableRun L m file t pos size = some r) : r = decodeTable L file t pos size := by
  rw [decodeTableRun_eq] at h
  split_ifs at h
  exact (Option.some.inj h).symm

theorem decodeTableRun_none (L : Layout) (m : Machine) (file : List Byte)
    (t pos size : Nat) :
    decodeTableRun L m file t pos size = none ↔
      (L.tiSize ≤ size ∧ fseekOk L pos = true ∧ fread1 file pos L.tiSize ≠ none
        ∧ (size - L.tiSize) % 8 ≠ 0 ∧ heapOk L m (size - L.tiSize) = false) := by
  rw [decodeTableRun_eq]
  split_ifs with h
  · simp [h]
  · simp [h]

theorem decodeTableRun_of_ok (L : Layout) (m : Machine) (file : List Byte)
    (t pos size : Nat) (h : decodeTableRun L m file t pos size ≠ none) :
    decodeTableRun L m file t pos size = some (decodeTable L file t pos size) := by
  cases hr : decodeTableRun L m file t pos size with
  | none => exact absurd hr h
  | some r => rw [decodeTableRun_some L m file t pos size r hr]

theorem decodeTableRun_small (L : Layout) (m : Machine) (file : List Byte)
    (t pos size : Nat) (h : size < L.tiSize) :
    decodeTableRun L m file t pos size = some .skipped := by
  unfold decodeTableRun
  rw [if_pos h]

/-- An iteration of the table loop of `emit_instances` that pushes nothing and
throws nothing can be left out of the loop. -/
theorem emitLoopRun_skip (L : Layout) (m : Machine) (file : List Byte)
    (ids offsets sizes : List Nat) (t : Nat)
    (h : ids.getD t 0 ∈ targetIds →
      ∃ r, decodeTableRun L m file t (offsets.getD t 0) (sizes.getD t 0) = some r
        ∧ r.records = []) :
    ∀ (pre post : List Nat),
      emitLoopRun L m file ids offsets sizes (pre ++ t :: post) =
        emitLoopRun L m file ids offsets sizes (pre ++ post) := by
  intro pre post
  induction pre with
  | nil =>
    simp only [List.nil_append]
    rw [emitLoopRun]
    split_ifs with hi
    · obtain ⟨r, hr, hrec⟩ := h hi
      rw [hr]
      simp only [hrec, List.map_nil, List.nil_append]
      cases emitLoopRun L m file ids offsets sizes post with
      | none => rfl
      | some rest => rfl
    · rfl
  | cons a pre ih =>
    simp only [List.cons_append]
    rw [emitLoopRun, emitLoopRun, ih]

/-- The table loop of `emit_instances` on a machine: it is terminated exactly
when the buffer of one of the tables of interest is refused, and otherwise
builds the collection of `emitTable` over the indices. -/
theorem emitLoopRun_some (L : Layout) (m : Machine) (file : List Byte)
    (ids offsets sizes : List Nat) :
    ∀ (l : List Nat) (recs : List (Nat × Record)),
      emitLoopRun L m file ids offsets sizes l = some recs →
        recs = l.flatMap (emitTable L file ids offsets sizes) := by
  intro l
  induction l with
  | nil =>
    intro recs h
    rw [emitLoopRun] at h
    rw [← Option.some.inj h]
    rfl
  | cons t ts ih =>
    intro recs h
    rw [emitLoopRun] at h
    rw [List.flatMap_cons]
    split_ifs at h with hi
    · cases hd : decodeTableRun L m file t (offsets.getD t 0) (sizes.getD t 0) with
      | none => rw [hd] at h; cases h
      | some r =>
        rw [hd] at h
        cases hl : emitLoopRun L m file ids offsets sizes ts with
        | none => rw [hl] at h; cases h
        | some rest =>
          rw [hl] at h
          simp only at h
          rw [← Option.some.inj h, ← ih rest hl,
            decodeTableRun_some L m file t _ _ r hd]
          simp only [emitTable, hi, if_true]
    · have he : emitTable L file ids offsets sizes t = [] := by
        simp only [emitTable, hi, if_false]
      rw [he, List.nil_append]
      exact ih recs h

theorem emitLoopRun_none (L : Layout) (m : Machine) (file : List Byte)
    (ids offsets sizes : List Nat) :
    ∀ (l : List Nat), emitLoopRun L m file ids offsets sizes l = none ↔
      ∃ t, t ∈ l ∧ ids.getD t 0 ∈ targetIds
        ∧ decodeTableRun L m file t (offsets.getD t 0) (sizes.getD t 0) = none := by
  intro l
  induction l with
  | nil => simp [emitLoopRun]
  | cons t ts ih =>
    rw [emitLoopRun]
    by_cases hi : ids.getD t 0 ∈ targetIds
    · rw [if_pos hi]
      cases hd : decodeTableRun L m file t (offsets.getD t 0) (sizes.getD t 0) with
      | none =>
        simp only [true_iff]
        exact ⟨t, List.mem_cons_self _ _, hi, hd⟩
      | some r =>
        simp only
        cases hl : emitLoopRun L m file ids offsets sizes ts with
        | none =>
          simp only [true_iff]
          obtain ⟨t', ht', h1, h2⟩ := ih.1 hl
          exact ⟨t', List.mem_cons_of_mem _ ht', h1, h2⟩
        | some rest =>
          simp only [false_iff, reduceCtorEq]
          rintro ⟨t', ht', h1, h2⟩
          rcases List.mem_cons.1 ht' with e | e
          · rw [e, hd] at h2; cases h2
          · have := ih.2 ⟨t', e, h1, h2⟩
            rw [hl] at this; cases this
    · rw [if_neg hi, ih]
      constructor
      · rintro ⟨t', ht', h1, h2⟩
        exact ⟨t', List.mem_cons_of_mem _ ht', h1, h2⟩
      · rintro ⟨t', ht', h1, h2⟩
        rcases List.mem_cons.1 ht' with e | e
        · rw [e] at h1; exact absurd h1 hi
        · exact ⟨t', e, h1, h2⟩

/-- The table body of `scan_connectivity` on a machine: the construction of `buf`
throws exactly when the header of the table was read, the table has data and a
buffer of the data size is refused; otherwise the body does what `scanTable`
does. -/
theorem scanTableRun_eq (L : Layout) (m : Machine) (file : List Byte) (pool : Pool)
    (stUsed t tid pos size : Nat) :
    scanTableRun L m file pool stUsed t tid pos size =
      if L.tiSize ≤ size ∧ fseekOk L pos = true ∧ fread1 file pos L.tiSize ≠ none
          ∧ size - L.tiSize ≠ 0 ∧ heapOk L m (size - L.tiSize) = false then none
      else some (scanTable L file pool stUsed t tid pos size) := by
  unfold scanTableRun scanTable
  simp only [dataSize_eq]
  cases hr : fread1 file pos L.tiSize with
  | none =>
    simp only []
    split_ifs <;> simp_all
  | some th =>
    simp only []
    split_ifs <;> simp_all
    omega

theorem scanTableRun_some (L : Layout) (m : Machine) (file : List Byte) (pool : Pool)
    (stUsed t tid pos size : Nat) (cs : List Candidate)
    (h : scanTableRun L m file pool stUsed t tid pos size = some cs) :
    cs = scanTable L file pool stUsed t tid pos size := by
  rw [scanTableRun_eq] at h
  split_ifs at h
  exact (Option.some.inj h).symm

theorem scanTableRun_none (L : Layout) (m : Machine) (file : List Byte) (pool : Pool)
    (stUsed t tid pos size : Nat) :
    scanTableRun L m file pool stUsed t tid pos size = none ↔
      (L.tiSize ≤ size ∧ fseekOk L pos = true ∧ fread1 file pos L.tiSize ≠ none
        ∧ size - L.tiSize ≠ 0 ∧ heapOk L m (size - L.tiSize) = false) := by
  rw [scanTableRun_eq]
  split_ifs with h
  · simp [h]
  · simp [h]

theorem scanTableRun_small (L : Layout) (m : Machine) (file : List Byte) (pool : Pool)
    (stUsed t tid pos size : Nat) (h : size < L.tiSize) :
    scanTableRun L m file pool stUsed t tid pos size = some [] := by
  unfold scanTableRun
  rw [if_pos h]

/-- An iteration of the table loop of `scan_connectivity` that pushes nothing and
throws nothing can be left out of the loop. -/
theorem scanTablesRun_skip (L : Layout) (m : Machine) (file : List Byte) (pool : Pool)
    (stUsed used : Nat) (ids offsets sizes : List Nat) (t : Nat)
    (h : toInt t ≠ stringTableIndex used ids →
      scanTableRun L m file pool stUsed t (ids.getD t 0) (offsets.getD t 0) (sizes.getD t 0)
        = some []) :
    ∀ (pre post : List Nat),
      scanTablesRun L m file pool stUsed used ids offsets sizes (pre ++ t :: post) =
        scanTablesRun L m file pool stUsed used ids offsets sizes (pre ++ post) := by
  intro pre post
  induction pre with
  | nil =>
    simp only [List.nil_append]
    rw [scanTablesRun]
    split_ifs with hi
    · rfl
    · rw [h hi]
      simp only [List.nil_append]
      cases scanTablesRun L m file pool stUsed used ids offsets sizes post with
      | none => rfl
      | some rest => rfl
  | cons a pre ih =>
    simp only [List.cons_append]
    rw [scanTablesRun, scanTablesRun, ih]

theorem scanTablesRun_some (L : Layout) (m : Machine) (file : List Byte) (pool : Pool)
    (stUsed used : Nat) (ids offsets sizes : List Nat) :
    ∀ (l : List Nat) (cs : List Candidate),
      scanTablesRun L m file pool stUsed used ids offsets sizes l = some cs →
        cs = l.flatMap (scanEntry L file pool stUsed used ids offsets sizes) := by
  intro l
  induction l with
  | nil =>
    intro cs h
    rw [scanTablesRun] at h
    rw [← Option.some.inj h]
    rfl
  | cons t ts ih =>
    intro cs h
    rw [scanTablesRun] at h
    rw [List.flatMap_cons]
    split_ifs at h with hi
    · have he : scanEntry L file pool stUsed used ids offsets sizes t = [] := by
        simp only [scanEntry, hi, if_true]
      rw [he, List.nil_append]
      exact ih cs h
    · cases hd : scanTableRun L m file pool stUsed t (ids.getD t 0) (offsets.getD t 0)
          (sizes.getD t 0) with
      | none => rw [hd] at h; cases h
      | some r =>
        rw [hd] at h
        cases hl : scanTablesRun L m file pool stUsed used ids offsets sizes ts with
        | none => rw [hl] at h; cases h
        | some rest =>
          rw [hl] at h
          simp only at h
          rw [← Option.some.inj h, ← ih rest hl, scanTableRun_some L m file pool stUsed t _ _ _ r hd]
          simp only [scanEntry, hi, if_false]

theorem scanTablesRun_none (L : Layout) (m : Machine) (file : List Byte) (pool : Pool)
    (stUsed used : Nat) (ids offsets sizes : List Nat) :
    ∀ (l : List Nat), scanTablesRun L m file pool stUsed used ids offsets sizes l = none ↔
      ∃ t, t ∈ l ∧ toInt t ≠ stringTableIndex used ids
        ∧ scanTableRun L m file pool stUsed t (ids.getD t 0) (offsets.getD t 0)
            (sizes.getD t 0) = none := by
  intro l
  induction l with
  | nil => simp [scanTablesRun]
  | cons t ts ih =>
    rw [scanTablesRun]
    by_cases hi : toInt t = stringTableIndex used ids
    · rw [if_pos hi, ih]
      constructor
      · rintro ⟨t', ht', h1, h2⟩
        exact ⟨t', List.mem_cons_of_mem _ ht', h1, h2⟩
      · rintro ⟨t', ht', h1, h2⟩
        rcases List.mem_cons.1 ht' with e | e
        · rw [e] at h1; exact absurd hi h1
        · exact ⟨t', e, h1, h2⟩
    · rw [if_neg hi]
      cases hd : scanTableRun L m file pool stUsed t (ids.getD t 0) (offsets.getD t 0)
          (sizes.getD t 0) with
      | none =>
        simp only [true_iff]
        exact ⟨t, List.mem_cons_self _ _, hi, hd⟩
      | some r =>
        simp only
        cases hl : scanTablesRun L m file pool stUsed used ids offsets sizes ts with
        | none =>
          simp only [true_iff]
          obtain ⟨t', ht', h1, h2⟩ := ih.1 hl
          exact ⟨t', List.mem_cons_of_mem _ ht', h1, h2⟩
        | some rest =>
          simp only [false_iff, reduceCtorEq]
          rintro ⟨t', ht', h1, h2⟩
          rcases List.mem_cons.1 ht' with e | e
          · rw [e, hd] at h2; cases h2
          · have := ih.2 ⟨t', e, h1, h2⟩
            rw [hl] at this; cases this

theorem loadDirectory_loaded_header (L : Layout) (file : List Byte) (used : Nat)
    (ids offsets sizes : List Nat)
    (h : loadDirectory L file = .loaded used ids offsets sizes) :
    ∃ fh, fread1 file 0 L.fhSize = some fh ∧ L.fhUsed fh = used ∧ used ≠ 0 := by
  unfold loadDirectory at h
  cases hf : fread1 file 0 L.fhSize with
  | none => simp only [hf] at h; cases h
  | some fh =>
    simp only [hf] at h
    split_ifs at h with h0
    refine ⟨fh, rfl, ?_, ?_⟩
    · cases h1 : fread1 file L.fhSize (L.ulongSize * L.fhUsed fh) with
      | none => simp only [h1] at h; cases h
      | some a =>
        simp only [h1] at h
        cases h2 : fread1 file (L.fhSize + L.ulongSize * L.fhUsed fh)
            (L.ulongSize * L.fhUsed fh) with
        | none => simp only [h2] at h; cases h
        | some b =>
          simp only [h2] at h
          cases h3 : fread1 file (L.fhSize + L.ulongSize * L.fhUsed fh
              + L.ulongSize * L.fhUsed fh) (L.ulongSize * L.fhUsed fh) with
          | none => simp only [h3] at h; cases h
          | some c =>
            simp only [h3] at h
            injection h
    · intro hu
      cases h1 : fread1 file L.fhSize (L.ulongSize * L.fhUsed fh) with
      | none => simp only [h1] at h; cases h
      | some a =>
        simp only [h1] at h
        cases h2 : fread1 file (L.fhSize + L.ulongSize * L.fhUsed fh)
            (L.ulongSize * L.fhUsed fh) with
        | none => simp only [h2] at h; cases h
        | some b =>
          simp only [h2] at h
          cases h3 : fread1 file (L.fhSize + L.ulongSize * L.fhUsed fh
              + L.ulongSize * L.fhUsed fh) (L.ulongSize * L.fhUsed fh) with
          | none => simp only [h3] at h; cases h
          | some c =>
            simp only [h3] at h
            injection h with e1
            exact h0 (by rw [e1]; exact hu)

/-- The run of `emit_instances` on a file whose directory is read. -/
theorem emitInstancesRun_of_loaded (L : Layout) (m : Machine) (file : List Byte) (used : Nat)
    (ids offsets sizes : List Nat)
    (h : loadDirectory L file = .loaded used ids offsets sizes) :
    emitInstancesRun L m file =
      if heapOk L m (L.ulongSize * used) = false then .terminated
      else
        match emitLoopRun L m file ids offsets sizes (List.range used) with
        | none => .terminated
        | some recs => .finished { status := 0, records := recs } := by
  obtain ⟨fh, hf, hu, h0⟩ := loadDirectory_loaded_header L file used ids offsets sizes h
  simp only [emitInstancesRun, hf, hu, h0, if_false, h]

/-- The run of `scan_connectivity` on a file whose directory is read. -/
theorem scanConnectivityRun_of_loaded (L : Layout) (m : Machine) (file : List Byte)
    (used : Nat) (ids offsets sizes : List Nat) (fuel : Nat)
    (h : loadDirectory L file = .loaded used ids offsets sizes) :
    scanConnectivityRun L m file fuel =
      if heapOk L m (L.ulongSize * used) = false then .terminated
      else
        match loadStringTableRun L m file used ids offsets sizes fuel with
        | .terminated => .terminated
        | .running => .running
        | .finished (pool, stUsed) =>
          match scanTablesRun L m file pool stUsed used ids offsets sizes (List.range used) with
          | none => .terminated
          | some cs => .finished { status := 0, records := cs } := by
  obtain ⟨fh, hf, hu, h0⟩ := loadDirectory_loaded_header L file used ids offsets sizes h
  simp only [scanConnectivityRun, hf, hu, h0, if_false, h]

/-- A run of `emit_instances` that finishes gives what `emitInstances` gives. -/
theorem emitInstancesRun_finished (L : Layout) (m : Machine) (file : List Byte)
    (out : Outcome (Nat × Record)) (h : emitInstancesRun L m file = .finished out) :
    out = emitInstances L file := by
  unfold emitInstancesRun at h
  unfold emitInstances
  cases hd : loadDirectory L file with
  | exit s =>
    have hd' := hd
    unfold loadDirectory at hd'
    cases hf : fread1 file 0 L.fhSize with
    | none =>
      simp only [hf] at h hd'
      injection hd' with e
      injection h with e2
      rw [← e2, ← e]
    | some fh =>
      simp only [hf] at h hd'
      by_cases h0 : L.fhUsed fh = 0
      · simp only [h0, if_true] at h hd'
        injection hd' with e
        injection h with e2
        rw [← e2, ← e]
      · simp only [h0, if_false, hd] at h
        split_ifs at h
        injection h with e2
        rw [← e2]
  | loaded used ids offsets sizes =>
    rw [← emitInstancesRun] at h
    rw [emitInstancesRun_of_loaded L m file used ids offsets sizes hd] at h
    split_ifs at h
    cases hl : emitLoopRun L m file ids offsets sizes (List.range used) with
    | none => simp only [hl] at h; cases h
    | some recs =>
      simp only [hl] at h
      injection h with e
      rw [← e, emitLoopRun_some L m file ids offsets sizes _ recs hl]
      rfl

/-! ### What the two branches of `emit_instances` build -/

theorem fixedLoop_eq (L : Layout) (file : List Byte) (t ds : Nat) :
    ∀ (n r : Nat),
      fixedLoop L file t ds n r (ds + (L.ulongSize + L.ulongSize) * r) =
        (List.range' r (min n ((file.length - (ds + (L.ulongSize + L.ulongSize) * r))
            / (L.ulongSize + L.ulongSize)))).map (fun i =>
          { table_index := t, record_index := i,
            instance_value := leNat (slice file (ds + (L.ulongSize + L.ulongSize) * i)
              L.ulongSize),
            master_value := leNat (slice file
              (ds + (L.ulongSize + L.ulongSize) * i + L.ulongSize) L.ulongSize),
            file_offset := (ds + i * 8) % L.ulongMod }) := by
  intro n
  induction n with
  | zero =>
    intro r
    simp [fixedLoop]
  | succ n ih =>
    intro r
    unfold fixedLoop
    by_cases hW : L.ulongSize = 0
    · simp [fread1, hW]
    have hq : 0 < L.ulongSize + L.ulongSize := by omega
    by_cases h2 : ds + (L.ulongSize + L.ulongSize) * r + (L.ulongSize + L.ulongSize)
        ≤ file.length
    · rw [fread1_of_le file _ L.ulongSize (by omega) (by omega),
        fread1_of_le file _ L.ulongSize (by omega) (by omega)]
      simp only
      have hcur : ds + (L.ulongSize + L.ulongSize) * r + L.ulongSize + L.ulongSize =
          ds + (L.ulongSize + L.ulongSize) * (r + 1) := by
        rw [Nat.mul_add, Nat.mul_one]
        omega
      rw [hcur, ih (r + 1)]
      have hdiv : (file.length - (ds + (L.ulongSize + L.ulongSize) * r))
            / (L.ulongSize + L.ulongSize) =
          (file.length - (ds + (L.ulongSize + L.ulongSize) * (r + 1)))
            / (L.ulongSize + L.ulongSize) + 1 := by
        rw [Nat.div_eq (file.length - (ds + (L.ulongSize + L.ulongSize) * r)),
          if_pos ⟨hq, by omega⟩]
        congr 2
        rw [← hcur]
        omega
      rw [hdiv, Nat.add_min_add_right, List.range'_succ, List.map_cons]
    · have hlt : file.length - (ds + (L.ulongSize + L.ulongSize) * r)
          < L.ulongSize + L.ulongSize := by omega
      rw [Nat.div_eq_of_lt hlt, Nat.min_zero]
      simp only [List.range'_zero, List.map_nil]
      cases h1 : fread1 file (ds + (L.ulongSize + L.ulongSize) * r) L.ulongSize with
      | none => rfl
      | some iv =>
        have hb := fread1_some _ _ _ _ h1
        rw [fread1_short file _ L.ulongSize (by omega)]

/-- The fixed-record loop builds the records of the specification side. -/
theorem fixedLoop_eq_spec (L : Layout) (file : List Byte) (t ds n : Nat) :
    fixedLoop L file t ds n 0 ds = fixedSpec L file t ds n := by
  have h := fixedLoop_eq L file t ds n 0
  simp only [Nat.mul_zero, Nat.add_zero] at h
  rw [h, fixedSpec, List.range_eq_range']

/-- The buffer of a payload that the file holds in part: the bytes of the file
from `dataStart` on, then zeros. -/
theorem fillBuf_past_end (file : List Byte) (ds n : Nat) (h1 : ds ≤ file.length)
    (h2 : file.length ≤ ds + n) :
    fillBuf file ds n = file.drop ds ++ List.replicate (ds + n - file.length) 0 := by
  unfold fillBuf
  have hs : slice file ds n = file.drop ds := by
    unfold slice
    rw [List.take_of_length_le (by rw [List.length_drop]; omega)]
  rw [hs, List.length_drop]
  congr 2
  omega

/-- The decode of a table whose header lies in a file the platform can address,
with the records written out: those of the fixed-record branch when the data
size is a multiple of 8, those of the pair scan over the buffer otherwise. -/
theorem decodeTable_exact (L : Layout) (file : List Byte) (t pos size : Nat)
    (hti : 0 < L.tiSize) (hlen : file.length < 2 ^ (8 * L.ulongSize - 1))
    (hhdr : pos + L.tiSize ≤ file.length) (hs : L.tiSize < size) :
    decodeTable L file t pos size =
      if (size - L.tiSize) % 8 = 0 then
        .fixedRecords (fixedSpec L file t (pos + L.tiSize) ((size - L.tiSize) / 8))
      else
        .pairCandidates (pairScanSpec (fillBuf file (pos + L.tiSize) (size - L.tiSize)) t
          (pos + L.tiSize) (fun x => x % L.ulongMod)) := by
  rw [decodeTable_in_file L file t pos size hti hlen hhdr hs, fixedLoop_eq_spec,
    pairScan_eq_spec]

theorem decodeTable_index (L : Layout) (file : List Byte) (t pos size : Nat) (rec : Record)
    (h : rec ∈ (decodeTable L file t pos size).records) : rec.table_index = t := by
  unfold decodeTable at h
  simp only [dataSize_eq] at h
  cases hr : fread1 file pos L.tiSize with
  | none =>
    simp only [hr] at h
    split_ifs at h <;> exact absurd h (List.not_mem_nil _)
  | some th =>
    simp only [hr] at h
    split_ifs at h with c1 c2 c3 c4 c5 c6
    all_goals first
      | exact absurd h (List.not_mem_nil _)
      | exact (fixedLoop_mem L file t _ rec _ _ _ h).choose_spec.2.2.1
      | exact (pairScan_mem L file t _ _ rec h).choose_spec.2.2.1

/-! ### Two files that agree after the directory -/

theorem decodeTableRun_agree (L : Layout) (mch : Machine) (file1 file2 : List Byte)
    (k t pos size : Nat) (hlen : file1.length < 2 ^ (8 * L.ulongSize - 1))
    (hl : file1.length = file2.length) (hagree : file1.drop k = file2.drop k)
    (hpos : k ≤ pos) :
    decodeTableRun L mch file1 t pos size = decodeTableRun L mch file2 t pos size := by
  rw [decodeTableRun_eq, decodeTableRun_eq, fread1_agree file1 file2 k pos _ hl hagree hpos,
    decodeTable_agree L file1 file2 k t pos size hlen hl hagree hpos]

theorem scanTable_agree (L : Layout) (file1 file2 : List Byte) (pool : Pool)
    (stUsed k t tid pos size : Nat) (hlen : file1.length < 2 ^ (8 * L.ulongSize - 1))
    (hl : file1.length = file2.length) (hagree : file1.drop k = file2.drop k)
    (hpos : k ≤ pos) :
    scanTable L file1 pool stUsed t tid pos size =
      scanTable L file2 pool stUsed t tid pos size := by
  have hM := half_le_ulongMod L
  unfold scanTable
  rw [← fread1_agree file1 file2 k pos _ hl hagree hpos]
  cases hr : fread1 file1 pos L.tiSize with
  | none => rfl
  | some th =>
    have hb := fread1_some file1 pos L.tiSize th hr
    have e : (pos + L.tiSize) % L.ulongMod = pos + L.tiSize := Nat.mod_eq_of_lt (by omega)
    simp only [e]
    rw [slice_agree file1 file2 k (pos + L.tiSize) _ hagree (by omega),
      fillBuf_agree file1 file2 k (pos + L.tiSize) _ hagree (by omega)]

theorem scanTableRun_agree (L : Layout) (mch : Machine) (file1 file2 : List Byte)
    (pool : Pool) (stUsed k t tid pos size : Nat)
    (hlen : file1.length < 2 ^ (8 * L.ulongSize - 1))
    (hl : file1.length = file2.length) (hagree : file1.drop k = file2.drop k)
    (hpos : k ≤ pos) :
    scanTableRun L mch file1 pool stUsed t tid pos size =
      scanTableRun L mch file2 pool stUsed t tid pos size := by
  rw [scanTableRun_eq, scanTableRun_eq, fread1_agree file1 file2 k pos _ hl hagree hpos,
    scanTable_agree L file1 file2 pool stUsed k t tid pos size hlen hl hagree hpos]

/-- The string table load is the same in two files of the same length that agree
from byte `k` on, when the string table is declared at or after `k`, at a
position inside the file, with the same offset and size in both. -/
theorem loadStringTableRun_agree (L : Layout) (mch : Machine) (file1 file2 : List Byte)
    (k used : Nat) (ids offsets1 sizes1 offsets2 sizes2 : List Nat) (fuel : Nat)
    (hlen : file1.length < 2 ^ (8 * L.ulongSize - 1))
    (hl : file1.length = file2.length) (hagree : file1.drop k = file2.drop k)
    (hst : ∀ i : Nat, stringTableIndex used ids = (i : Int) →
      offsets1.getD i 0 = offsets2.getD i 0 ∧ sizes1.getD i 0 = sizes2.getD i 0
        ∧ k ≤ offsets1.getD i 0 ∧ offsets1.getD i 0 ≤ file1.length) :
    loadStringTableRun L mch file1 used ids offsets1 sizes1 fuel =
      loadStringTableRun L mch file2 used ids offsets2 sizes2 fuel := by
  have hM := half_le_ulongMod L
  unfold loadStringTableRun
  simp only []
  by_cases h0 : stringTableIndex used ids < 0
  · rw [if_pos h0, if_pos h0]
  · rw [if_neg h0, if_neg h0]
    obtain ⟨e1, e2, hpos, hin⟩ := hst (stringTableIndex used ids).toNat
      (Int.toNat_of_nonneg (by omega)).symm
    rw [← e1, ← e2]
    have hseek : fseekOk L (offsets1.getD (stringTableIndex used ids).toNat 0) = true := by
      unfold fseekOk
      exact decide_eq_true (by omega)
    simp only [hseek, if_true]
    rw [← fread1_agree file1 file2 k _ _ hl hagree hpos]
    cases hr : fread1 file1 (offsets1.getD (stringTableIndex used ids).toNat 0) L.tiSize with
    | none => simp only []
    | some th =>
      have hb := fread1_some file1 _ L.tiSize th hr
      have e : (offsets1.getD (stringTableIndex used ids).toNat 0 + L.tiSize) % L.ulongMod =
          offsets1.getD (stringTableIndex used ids).toNat 0 + L.tiSize :=
        Nat.mod_eq_of_lt (by omega)
      simp only [e]
      rw [slice_agree file1 file2 k _ _ hagree (by omega : k ≤
          offsets1.getD (stringTableIndex used ids).toNat 0 + L.tiSize),
        fillBuf_agree file1 file2 k _ _ hagree (by omega : k ≤
          offsets1.getD (stringTableIndex used ids).toNat 0 + L.tiSize)]

/-- The table loop of `emit_instances` on two inputs that treat every entry
other than `t` alike, where the first input gets nothing from entry `t`: the
first loop pushes what the second pushes for the entries other than `t`. -/
theorem emitLoopRun_drop_entry (L : Layout) (mch : Machine) (file1 file2 : List Byte)
    (ids offsets1 sizes1 offsets2 sizes2 : List Nat) (t : Nat)
    (h1 : ids.getD t 0 ∈ targetIds →
      ∃ r, decodeTableRun L mch file1 t (offsets1.getD t 0) (sizes1.getD t 0) = some r
        ∧ r.records = []) :
    ∀ (l : List Nat),
      (∀ j, j ∈ l → j ≠ t → ids.getD j 0 ∈ targetIds →
        decodeTableRun L mch file1 j (offsets1.getD j 0) (sizes1.getD j 0) =
          decodeTableRun L mch file2 j (offsets2.getD j 0) (sizes2.getD j 0)) →
      ∀ (recs2 : List (Nat × Record)),
        emitLoopRun L mch file2 ids offsets2 sizes2 l = some recs2 →
          emitLoopRun L mch file1 ids offsets1 sizes1 l =
            some (recs2.filter (fun e => decide (e.2.table_index ≠ t))) := by
  intro l
  induction l with
  | nil =>
    intro _ recs2 h
    simp only [emitLoopRun] at h
    rw [← Option.some.inj h]
    rfl
  | cons j ts ih =>
    intro h2 recs2 h
    have ih := ih (fun j hj => h2 j (List.mem_cons_of_mem _ hj))
    have h2 := h2 j (List.mem_cons_self _ _)
    rw [emitLoopRun] at h
    rw [emitLoopRun]
    by_cases hi : ids.getD j 0 ∈ targetIds
    · rw [if_pos hi] at h
      rw [if_pos hi]
      cases hd : decodeTableRun L mch file2 j (offsets2.getD j 0) (sizes2.getD j 0) with
      | none => simp only [hd] at h; cases h
      | some r2 =>
        simp only [hd] at h
        cases hrest : emitLoopRun L mch file2 ids offsets2 sizes2 ts with
        | none => simp only [hrest] at h; cases h
        | some rest =>
          simp only [hrest] at h
          rw [← Option.some.inj h, List.filter_append, ih rest hrest]
          have hidx : ∀ e ∈ r2.records.map (fun x => (ids.getD j 0, x)),
              e.2.table_index = j := by
            intro e he
            rw [List.mem_map] at he
            obtain ⟨x, hx, rfl⟩ := he
            rw [decodeTableRun_some L mch file2 j _ _ r2 hd] at hx
            exact decodeTable_index L file2 j _ _ x hx
          by_cases hjt : j = t
          · subst hjt
            obtain ⟨r, hr, hrec⟩ := h1 hi
            have hA : (r2.records.map (fun x => (ids.getD j 0, x))).filter
                (fun e => decide (e.2.table_index ≠ j)) = [] :=
              List.filter_eq_nil_iff.mpr (fun e he => by
                simp only [hidx e he, ne_eq, not_true_eq_false, decide_False,
                  Bool.false_eq_true, not_false_eq_true])
            simp only [hr, hrec, List.map_nil, List.nil_append, hA]
          · have hA : (r2.records.map (fun x => (ids.getD j 0, x))).filter
                (fun e => decide (e.2.table_index ≠ t)) =
                r2.records.map (fun x => (ids.getD j 0, x)) :=
              List.filter_eq_self.mpr (fun e he => by
                simp only [hidx e he, ne_eq, hjt, not_false_eq_true, decide_True])
            rw [h2 hjt hi, hd]
            simp only [hA]
    · rw [if_neg hi] at h
      rw [if_neg hi]
      exact ih recs2 h

/-- The table loop of `scan_connectivity` on two inputs that treat every entry
other than `t` alike, where the first input gets nothing from entry `t`. -/
theorem scanTablesRun_drop_entry (L : Layout) (mch : Machine) (file1 file2 : List Byte)
    (pool : Pool) (stUsed used : Nat) (ids offsets1 sizes1 offsets2 sizes2 : List Nat)
    (t : Nat)
    (h1 : toInt t ≠ stringTableIndex used ids →
      scanTableRun L mch file1 pool stUsed t (ids.getD t 0) (offsets1.getD t 0)
        (sizes1.getD t 0) = some []) :
    ∀ (l : List Nat),
      (∀ j, j ∈ l → j ≠ t → toInt j ≠ stringTableIndex used ids →
        scanTableRun L mch file1 pool stUsed j (ids.getD j 0) (offsets1.getD j 0)
            (sizes1.getD j 0) =
          scanTableRun L mch file2 pool stUsed j (ids.getD j 0) (offsets2.getD j 0)
            (sizes2.getD j 0)) →
      ∀ (cs2 : List Candidate),
        scanTablesRun L mch file2 pool stUsed used ids offsets2 sizes2 l = some cs2 →
          scanTablesRun L mch file1 pool stUsed used ids offsets1 sizes1 l =
            some (cs2.filter (fun c => decide (c.tableIndex ≠ t))) := by
  intro l
  induction l with
  | nil =>
    intro _ cs2 h
    simp only [scanTablesRun] at h
    rw [← Option.some.inj h]
    rfl
  | cons j ts ih =>
    intro h2 cs2 h
    have ih := ih (fun j hj => h2 j (List.mem_cons_of_mem _ hj))
    have h2 := h2 j (List.mem_cons_self _ _)
    rw [scanTablesRun] at h
    rw [scanTablesRun]
    by_cases hi : toInt j = stringTableIndex used ids
    · rw [if_pos hi] at h
      rw [if_pos hi]
      exact ih cs2 h
    · rw [if_neg hi] at h
      rw [if_neg hi]
      cases hd : scanTableRun L mch file2 pool stUsed j (ids.getD j 0) (offsets2.getD j 0)
          (sizes2.getD j 0) with
      | none => simp only [hd] at h; cases h
      | some c2 =>
        simp only [hd] at h
        cases hrest : scanTablesRun L mch file2 pool stUsed used ids offsets2 sizes2 ts with
        | none => simp only [hrest] at h; cases h
        | some rest =>
          simp only [hrest] at h
          rw [← Option.some.inj h, List.filter_append, ih rest hrest]
          have hidx : ∀ c ∈ c2, c.tableIndex = j := by
            intro c hc
            rw [scanTableRun_some L mch file2 pool stUsed j _ _ _ c2 hd] at hc
            obtain ⟨_, p, _, _, _, _, rfl⟩ := scanTable_mem L file2 pool stUsed j _ _ _ c hc
            rfl
          by_cases hjt : j = t
          · subst hjt
            have hA : c2.filter (fun c => decide (c.tableIndex ≠ j)) = [] :=
              List.filter_eq_nil_iff.mpr (fun c hc => by
                simp only [hidx c hc, ne_eq, not_true_eq_false, decide_False,
                  Bool.false_eq_true, not_false_eq_true])
            simp only [h1 hi, List.nil_append, hA]
          · have hA : c2.filter (fun c => decide (c.tableIndex ≠ t)) = c2 :=
              List.filter_eq_self.mpr (fun c hc => by
                simp only [hidx c hc, ne_eq, hjt, not_false_eq_true, decide_True])
            rw [h2 hjt hi, hd]
            simp only [hA]

theorem stringTableIndex_lt (used : Nat) (ids : List Nat) (i : Nat)
    (h : stringTableIndex used ids = (i : Int)) : i < used := by
  rcases stringTableIndex_cases used ids with h1 | ⟨j, hj, _, h2⟩
  · rw [h1] at h
    omega
  · rw [h2] at h
    unfold toInt at h
    have hle := Nat.mod_le j (2 ^ 32)
    split_ifs at h with c
    · omega
    · omega

/-! ### C11 -/

set_option maxRecDepth 8192 in
/-- C11 (counterexample), three pairs of files that differ in the declared size
of one table only, the size being below the 12-byte table header in the first
file of each pair. `connFile 5 5 22` against `connFile 17 5 22`: the table is
the string table, and with the undersized one the other entry loses its
candidate. `sizeOverlapFile 4` against `sizeOverlapFile 12`: the other table is
declared over the size field, and its record changes with the size. And
`recoveryFile 4` against `recoveryFile (2 ^ 63 + 13)`: with the second size the
buffer construction throws and the record of the other entry is never
printed. -/
theorem C11_undersized_entry_alters_pass :
    loadDirectory (mkLayout 8 24 12) (connFile 5 5 22) = .loaded 2 [10, 12] [72, 96] [5, 22]
    ∧ loadDirectory (mkLayout 8 24 12) (connFile 17 5 22)
        = .loaded 2 [10, 12] [72, 96] [17, 22]
    ∧ scanConnectivityRun (mkLayout 8 24 12) stdMachine (connFile 5 5 22) 8
        = .finished { status := 0, records := [] }
    ∧ scanConnectivityRun (mkLayout 8 24 12) stdMachine (connFile 17 5 22) 8
        = .finished { status := 0,
                      records := [{ tableId := 12, tableIndex := 1, fileOffset := 109,
                                    name := [67, 68], oids := [7] }] }
    ∧ loadDirectory (mkLayout 8 24 12) (sizeOverlapFile 4)
        = .loaded 2 [0x0b, 0x0b] [52, 72] [24, 4]
    ∧ loadDirectory (mkLayout 8 24 12) (sizeOverlapFile 12)
        = .loaded 2 [0x0b, 0x0b] [52, 72] [24, 12]
    ∧ emitInstancesRun (mkLayout 8 24 12) stdMachine (sizeOverlapFile 4)
        = .finished { status := 0,
                      records := [(0x0b, { table_index := 0, record_index := 0,
                                           instance_value := 4, master_value := 0,
                                           file_offset := 64 })] }
    ∧ emitInstancesRun (mkLayout 8 24 12) stdMachine (sizeOverlapFile 12)
        = .finished { status := 0,
                      records := [(0x0b, { table_index := 0, record_index := 0,
                                           instance_value := 12, master_value := 0,
                                           file_offset := 64 })] }
    ∧ loadDirectory (mkLayout 8 24 12) (recoveryFile 4)
        = .loaded 2 [0x0b, 0x0b] [72, 92] [4, 28]
    ∧ loadDirectory (mkLayout 8 24 12) (recoveryFile (2 ^ 63 + 13))
        = .loaded 2 [0x0b, 0x0b] [72, 92] [2 ^ 63 + 13, 28]
    ∧ emitInstancesRun (mkLayout 8 24 12) stdMachine (recoveryFile 4)
        = .finished { status := 0,
                      records := [(0x0b, { table_index := 1, record_index := 0,
                                           instance_value := 1, master_value := 100,
                                           file_offset := 104 })] }
    ∧ emitInstancesRun (mkLayout 8 24 12) stdMachine (recoveryFile (2 ^ 63 + 13))
        = .terminated := by
  decide

/-- C11 (amended): in a file whose table `t` declares a size below the
payload-header size, the table gives no record in `emit_instances` and no
candidate in `scan_connectivity`, and no buffer is built for it. Let a second
file of the same length have the same ids and the same bytes from `k` on, and
finish its run. If the target tables other than `t` have the same offset and
size in both files and are declared at or after `k`, the run of
`emit_instances` on the first file finishes with the records of the second
run for the entries other than `t`. If all entries other than `t` have the
same offset and size in both files and are declared at or after `k` and
inside the file, and `t` is not the string table, the run of
`scan_connectivity` on the first file finishes with the candidates of the
second run for the entries other than `t`. When `t` is the string table, the
pool is empty and `string_table_used` is 0, and a run that finishes has no
candidate. -/
theorem C11_malformed_table_recovery (L : Layout) (mch : Machine) (file1 file2 : List Byte)
    (k used : Nat) (ids offsets1 sizes1 offsets2 sizes2 : List Nat) (t fuel : Nat)
    (hlen : file1.length < 2 ^ (8 * L.ulongSize - 1))
    (hd1 : loadDirectory L file1 = .loaded used ids offsets1 sizes1)
    (hd2 : loadDirectory L file2 = .loaded used ids offsets2 sizes2)
    (hsmall : sizes1.getD t 0 < L.tiSize)
    (hl : file1.length = file2.length) (hagree : file1.drop k = file2.drop k) :
    decodeTableRun L mch file1 t (offsets1.getD t 0) (sizes1.getD t 0) = some .skipped
    ∧ (∀ (pool : Pool) (stUsed : Nat),
        scanTableRun L mch file1 pool stUsed t (ids.getD t 0) (offsets1.getD t 0)
          (sizes1.getD t 0) = some [])
    ∧ ((∀ j, j < used → j ≠ t → ids.getD j 0 ∈ targetIds →
          offsets1.getD j 0 = offsets2.getD j 0 ∧ sizes1.getD j 0 = sizes2.getD j 0
            ∧ k ≤ offsets1.getD j 0) →
        ∀ out2, emitInstancesRun L mch file2 = .finished out2 →
          emitInstancesRun L mch file1 =
            .finished { status := out2.status,
                        records := out2.records.filter
                          (fun e => decide (e.2.table_index ≠ t)) })
    ∧ ((∀ j, j < used → j ≠ t →
          offsets1.getD j 0 = offsets2.getD j 0 ∧ sizes1.getD j 0 = sizes2.getD j 0
            ∧ k ≤ offsets1.getD j 0 ∧ offsets1.getD j 0 ≤ file1.length) →
        stringTableIndex used ids ≠ (t : Int) →
        ∀ out2, scanConnectivityRun L mch file2 fuel = .finished out2 →
          scanConnectivityRun L mch file1 fuel =
            .finished { status := out2.status,
                        records := out2.records.filter
                          (fun c => decide (c.tableIndex ≠ t)) })
    ∧ (stringTableIndex used ids = (t : Int) →
        loadStringTableRun L mch file1 used ids offsets1 sizes1 fuel = .finished ([], 0)
        ∧ ∀ out1, scanConnectivityRun L mch file1 fuel = .finished out1 →
            out1.records = []) := by
  have hdec := decodeTableRun_small L mch file1 t (offsets1.getD t 0) (sizes1.getD t 0) hsmall
  have hscan : ∀ (pool : Pool) (stUsed : Nat),
      scanTableRun L mch file1 pool stUsed t (ids.getD t 0) (offsets1.getD t 0)
        (sizes1.getD t 0) = some [] :=
    fun pool stUsed => scanTableRun_small L mch file1 pool stUsed t _ _ _ hsmall
  refine ⟨hdec, hscan, ?_, ?_, ?_⟩
  · intro hother out2 h2
    rw [emitInstancesRun_of_loaded L mch file2 used ids offsets2 sizes2 hd2] at h2
    rw [emitInstancesRun_of_loaded L mch file1 used ids offsets1 sizes1 hd1]
    split_ifs at h2 with hheap
    rw [if_neg hheap]
    cases he : emitLoopRun L mch file2 ids offsets2 sizes2 (List.range used) with
    | none => simp only [he] at h2; cases h2
    | some recs2 =>
      simp only [he] at h2
      injection h2 with h2
      rw [emitLoopRun_drop_entry L mch file1 file2 ids offsets1 sizes1 offsets2 sizes2 t
        (fun _ => ⟨.skipped, hdec, rfl⟩) (List.range used) ?_ recs2 he, ← h2]
      intro j hj hjt hi
      obtain ⟨e1, e2, hk⟩ := hother j (List.mem_range.mp hj) hjt hi
      rw [← e1, ← e2]
      exact decodeTableRun_agree L mch file1 file2 k j _ _ hlen hl hagree hk
  · intro hother hnot out2 h2
    have hload : loadStringTableRun L mch file1 used ids offsets1 sizes1 fuel =
        loadStringTableRun L mch file2 used ids offsets2 sizes2 fuel := by
      apply loadStringTableRun_agree L mch file1 file2 k used ids offsets1 sizes1 offsets2
        sizes2 fuel hlen hl hagree
      intro i hi
      exact hother i (stringTableIndex_lt used ids i hi)
        (fun e => hnot (by rw [hi, e]))
    rw [scanConnectivityRun_of_loaded L mch file2 used ids offsets2 sizes2 fuel hd2] at h2
    rw [scanConnectivityRun_of_loaded L mch file1 used ids offsets1 sizes1 fuel hd1, hload]
    split_ifs at h2 with hheap
    rw [if_neg hheap]
    cases hp : loadStringTableRun L mch file2 used ids offsets2 sizes2 fuel with
    | terminated => simp only [hp] at h2; cases h2
    | running => simp only [hp] at h2; cases h2
    | finished ps =>
      obtain ⟨pool, stUsed⟩ := ps
      simp only [hp] at h2
      cases hs : scanTablesRun L mch file2 pool stUsed used ids offsets2 sizes2
          (List.range used) with
      | none => simp only [hs] at h2; cases h2
      | some cs2 =>
        simp only [hs] at h2
        injection h2 with h2
        simp only []
        rw [scanTablesRun_drop_entry L mch file1 file2 pool stUsed used ids offsets1 sizes1
          offsets2 sizes2 t (fun _ => hscan pool stUsed) (List.range used) ?_ cs2 hs, ← h2]
        intro j hj hjt _
        obtain ⟨e1, e2, hk, _⟩ := hother j (List.mem_range.mp hj) hjt
        rw [← e1, ← e2]
        exact scanTableRun_agree L mch file1 file2 pool stUsed k j _ _ _ hlen hl hagree hk
  · intro hst
    have hload : loadStringTableRun L mch file1 used ids offsets1 sizes1 fuel =
        .finished ([], 0) := by
      unfold loadStringTableRun
      simp only [hst, Int.toNat_ofNat, hsmall, if_true]
      split_ifs <;> rfl
    refine ⟨hload, ?_⟩
    intro out1 h1
    rw [scanConnectivityRun_of_loaded L mch file1 used ids offsets1 sizes1 fuel hd1, hload]
      at h1
    split_ifs at h1 with hheap
    simp only [] at h1
    cases hs : scanTablesRun L mch file1 [] 0 used ids offsets1 sizes1 (List.range used) with
    | none => simp only [hs] at h1; cases h1
    | some cs =>
      simp only [hs] at h1
      injection h1 with h1
      rw [← h1]
      simp only []
      rw [scanTablesRun_some L mch file1 [] 0 used ids offsets1 sizes1 _ cs hs]
      exact scanTables_used_zero L file1 [] used ids offsets1 sizes1

set_option maxRecDepth 8192 in
/-- Witness of C11 (amended). `recoveryFile 4` against `recoveryFile 24`: table 0
declares 4 bytes in the first file and gives two records in the second; the
first run gives the record of table 1 alone. `scanFile 4` against
`scanFile 24`: the first run gives the candidate of table 2 alone. -/
theorem C11_malformed_table_recovery_witness :
    [4, 28].getD 0 0 < (mkLayout 8 24 12).tiSize
    ∧ loadDirectory (mkLayout 8 24 12) (recoveryFile 4)
        = .loaded 2 [0x0b, 0x0b] [72, 92] [4, 28]
    ∧ loadDirectory (mkLayout 8 24 12) (recoveryFile 24)
        = .loaded 2 [0x0b, 0x0b] [72, 92] [24, 28]
    ∧ (recoveryFile 4).drop 72 = (recoveryFile 24).drop 72
    ∧ emitInstancesRun (mkLayout 8 24 12) stdMachine (recoveryFile 24)
        = .finished { status := 0,
                      records := [(0x0b, { table_index := 0, record_index := 0,
                                           instance_value := 7, master_value := 8,
                                           file_offset := 84 }),
                                  (0x0b, { table_index := 0, record_index := 0,
                                           instance_value := 8, master_value := 0,
                                           file_offset := 88 }),
                                  (0x0b, { table_index := 1, record_index := 0,
                                           instance_value := 1, master_value := 100,
                                           file_offset := 104 })] }
    ∧ emitInstancesRun (mkLayout 8 24 12) stdMachine (recoveryFile 4)
        = .finished { status := 0,
                      records := [(0x0b, { table_index := 1, record_index := 0,
                                           instance_value := 1, master_value := 100,
                                           file_offset := 104 })] }
    ∧ loadDirectory (mkLayout 8 24 12) (scanFile 4)
        = .loaded 3 [0x0c, 0x0a, 0x0d] [96, 120, 137] [4, 17, 18]
    ∧ loadDirectory (mkLayout 8 24 12) (scanFile 24)
        = .loaded 3 [0x0c, 0x0a, 0x0d] [96, 120, 137] [24, 17, 18]
    ∧ scanConnectivityRun (mkLayout 8 24 12) stdMachine (scanFile 24) 8
        = .finished { status := 0,
                      records := [{ tableId := 12, tableIndex := 0, fileOffset := 108,
                                    name := [67, 68], oids := [7, 524291] },
                                  { tableId := 12, tableIndex := 0, fileOffset := 112,
                                    name := [65, 66], oids := [524291] },
                                  { tableId := 12, tableIndex := 0, fileOffset := 114,
                                    name := [67, 68], oids := [8] },
                                  { tableId := 13, tableIndex := 2, fileOffset := 149,
                                    name := [67, 68], oids := [9] }] }
    ∧ scanConnectivityRun (mkLayout 8 24 12) stdMachine (scanFile 4) 8
        = .finished { status := 0,
                      records := [{ tableId := 13, tableIndex := 2, fileOffset := 149,
                                    name := [67, 68], oids := [9] }] } :=
  ⟨by decide, by decide, by decide, by decide, by decide,
    (C11_malformed_table_recovery (mkLayout 8 24 12) stdMachine (recoveryFile 4)
      (recoveryFile 24) 72 2 [0x0b, 0x0b] [72, 92] [4, 28] [72, 92] [24, 28] 0 8
      (by decide) (by decide) (by decide) (by decide) (by decide) (by decide)).2.2.1
      (by decide)
      { status := 0,
        records := [(0x0b, { table_index := 0, record_index := 0,
                             instance_value := 7, master_value := 8, file_offset := 84 }),
                    (0x0b, { table_index := 0, record_index := 0,
                             instance_value := 8, master_value := 0, file_offset := 88 }),
                    (0x0b, { table_index := 1, record_index := 0,
                             instance_value := 1, master_value := 100,
                             file_offset := 104 })] }
      (by decide),
    by decide, by decide, by decide,
    (C11_malformed_table_recovery (mkLayout 8 24 12) stdMachine (scanFile 4)
      (scanFile 24) 96 3 [0x0c, 0x0a, 0x0d] [96, 120, 137] [4, 17, 18] [96, 120, 137]
      [24, 17, 18] 0 8
      (by decide) (by decide) (by decide) (by decide) (by decide) (by decide)).2.2.2.1
      (by decide) (by decide)
      { status := 0,
        records := [{ tableId := 12, tableIndex := 0, fileOffset := 108,
                      name := [67, 68], oids := [7, 524291] },
                    { tableId := 12, tableIndex := 0, fileOffset := 112,
                      name := [65, 66], oids := [524291] },
                    { tableId := 12, tableIndex := 0, fileOffset := 114,
                      name := [67, 68], oids := [8] },
                    { tableId := 13, tableIndex := 2, fileOffset := 149,
                      name := [67, 68], oids := [9] }] }
      (by decide)⟩

/-! ### C26 -/

/-- A run of `scan_connectivity` that finishes on a file whose directory is read:
the string table was loaded, and the candidates are those of the table loop. -/
theorem scanConnectivityRun_finished (L : Layout) (mch : Machine) (file : List Byte)
    (used : Nat) (ids offsets sizes : List Nat) (fuel : Nat) (out : Outcome Candidate)
    (hd : loadDirectory L file = .loaded used ids offsets sizes)
    (h : scanConnectivityRun L mch file fuel = .finished out) :
    ∃ pool stUsed, loadStringTableRun L mch file used ids offsets sizes fuel
        = .finished (pool, stUsed)
      ∧ out = { status := 0, records := scanTables L file pool stUsed used ids offsets sizes } := by
  rw [scanConnectivityRun_of_loaded L mch file used ids offsets sizes fuel hd] at h
  split_ifs at h with hheap
  cases hp : loadStringTableRun L mch file used ids offsets sizes fuel with
  | terminated => simp only [hp] at h; cases h
  | running => simp only [hp] at h; cases h
  | finished ps =>
    obtain ⟨pool, stUsed⟩ := ps
    simp only [hp] at h
    cases hs : scanTablesRun L mch file pool stUsed used ids offsets sizes (List.range used) with
    | none => simp only [hs] at h; cases h
    | some cs =>
      simp only [hs] at h
      injection h with h
      refine ⟨pool, stUsed, rfl, ?_⟩
      rw [← h, scanTablesRun_some L mch file pool stUsed used ids offsets sizes _ cs hs]
      rfl

set_option maxRecDepth 8192 in
/-- C26 (counterexample): `baseOverlapFile 7` and `baseOverlapFile 9` differ in one
byte only, byte 48, the offset field of the entry with id 1 (the index base).
The table with id `0x04` is declared at offset 34, so its payload holds that
field, and the candidate of the table differs: OID 7 against OID 9. -/
theorem C26_overlapping_table_reads_index_base :
    loadDirectory (mkLayout 8 24 12) (baseOverlapFile 7)
        = .loaded 3 [1, 0x0a, 0x04] [7, 96, 34] [0, 17, 22]
    ∧ loadDirectory (mkLayout 8 24 12) (baseOverlapFile 9)
        = .loaded 3 [1, 0x0a, 0x04] [9, 96, 34] [0, 17, 22]
    ∧ (baseOverlapFile 7).take 48 = (baseOverlapFile 9).take 48
    ∧ (baseOverlapFile 7).drop 49 = (baseOverlapFile 9).drop 49
    ∧ scanConnectivityRun (mkLayout 8 24 12) stdMachine (baseOverlapFile 7) 8
        = .finished { status := 0,
                      records := [{ tableId := 4, tableIndex := 2, fileOffset := 46,
                                    name := [65, 66], oids := [7] }] }
    ∧ scanConnectivityRun (mkLayout 8 24 12) stdMachine (baseOverlapFile 9) 8
        = .finished { status := 0,
                      records := [{ tableId := 4, tableIndex := 2, fileOffset := 46,
                                    name := [65, 66], oids := [9] }] } := by
  decide

/-- C26 (amended): the connectivity scan reads table `t` at its directory offset
as it stands, whatever its id. When the run finishes, the candidates with table
index `t` are those of the table body run at `offsets[t]` with the loaded pool,
and each lies at `offsets[t] + payloadHeaderSize + p` for a position `p` of the
payload read. Two files of the same length with the same ids and the same bytes
from `k` on, in which table `t` and the string table have the same offset and
size and are declared at or after `k` and inside the file, give the same
candidates for table `t`, whatever the other directory fields are, the offset
of the entry with id 1 among them. -/
theorem C26_scan_offset_resolution (L : Layout) (mch : Machine) (file1 file2 : List Byte)
    (k used : Nat) (ids offsets1 sizes1 offsets2 sizes2 : List Nat) (t fuel : Nat)
    (ht : t < used) (hlen : file1.length < 2 ^ (8 * L.ulongSize - 1))
    (hd1 : loadDirectory L file1 = .loaded used ids offsets1 sizes1)
    (hd2 : loadDirectory L file2 = .loaded used ids offsets2 sizes2)
    (hl : file1.length = file2.length) (hagree : file1.drop k = file2.drop k)
    (hsame : ∀ j, j < used → (j = t ∨ stringTableIndex used ids = (j : Int)) →
      offsets1.getD j 0 = offsets2.getD j 0 ∧ sizes1.getD j 0 = sizes2.getD j 0
        ∧ k ≤ offsets1.getD j 0 ∧ offsets1.getD j 0 ≤ file1.length) :
    (∀ (pool : Pool) (stUsed : Nat) (out1 : Outcome Candidate),
        loadStringTableRun L mch file1 used ids offsets1 sizes1 fuel
          = .finished (pool, stUsed) →
        scanConnectivityRun L mch file1 fuel = .finished out1 →
        out1.records.filter (fun c => decide (c.tableIndex = t)) =
          (if toInt t = stringTableIndex used ids then []
           else scanTable L file1 pool stUsed t (ids.getD t 0) (offsets1.getD t 0)
             (sizes1.getD t 0)))
    ∧ (∀ (out1 : Outcome Candidate),
        scanConnectivityRun L mch file1 fuel = .finished out1 →
        ∀ c, c ∈ out1.records → c.tableIndex = t →
          c.tableId = ids.getD t 0
          ∧ ∃ p, p + 1 < tableGot L file1 (offsets1.getD t 0) (sizes1.getD t 0)
            ∧ c.fileOffset = offsets1.getD t 0 + L.tiSize + p)
    ∧ (∀ (out1 out2 : Outcome Candidate),
        scanConnectivityRun L mch file1 fuel = .finished out1 →
        scanConnectivityRun L mch file2 fuel = .finished out2 →
        out1.records.filter (fun c => decide (c.tableIndex = t)) =
          out2.records.filter (fun c => decide (c.tableIndex = t))) := by
  refine ⟨?_, ?_, ?_⟩
  · intro pool stUsed out1 hp h1
    obtain ⟨pool1, stUsed1, hp1, ho1⟩ :=
      scanConnectivityRun_finished L mch file1 used ids offsets1 sizes1 fuel out1 hd1 h1
    rw [hp] at hp1
    injection hp1 with hp1
    injection hp1 with e1 e2
    subst e1
    subst e2
    rw [ho1]
    simp only []
    rw [scanTables_filter _ _ _ _ _ _ _ _ t ht]
    rfl
  · intro out1 h1 c hc hct
    obtain ⟨pool1, stUsed1, hp1, ho1⟩ :=
      scanConnectivityRun_finished L mch file1 used ids offsets1 sizes1 fuel out1 hd1 h1
    rw [ho1] at hc
    simp only [] at hc
    obtain ⟨s, hs, hne, hmem⟩ :=
      scanTables_mem L file1 pool1 stUsed1 used ids offsets1 sizes1 c hc
    obtain ⟨_, p, hp, _, _, _, hceq⟩ := scanTable_mem L file1 pool1 stUsed1 s _ _ _ c hmem
    have hst : s = t := by
      rw [hceq] at hct
      exact hct
    subst hst
    refine ⟨by rw [hceq], p, hp, ?_⟩
    rw [hceq]
    exact scanTable_offset_plain L file1 pool1 stUsed1 s _ _ _ c p hlen hmem hp
  · intro out1 out2 h1 h2
    obtain ⟨pool1, stUsed1, hp1, ho1⟩ :=
      scanConnectivityRun_finished L mch file1 used ids offsets1 sizes1 fuel out1 hd1 h1
    obtain ⟨pool2, stUsed2, hp2, ho2⟩ :=
      scanConnectivityRun_finished L mch file2 used ids offsets2 sizes2 fuel out2 hd2 h2
    have hload : loadStringTableRun L mch file1 used ids offsets1 sizes1 fuel =
        loadStringTableRun L mch file2 used ids offsets2 sizes2 fuel := by
      apply loadStringTableRun_agree L mch file1 file2 k used ids offsets1 sizes1 offsets2
        sizes2 fuel hlen hl hagree
      intro i hi
      exact hsame i (stringTableIndex_lt used ids i hi) (Or.inr hi)
    rw [hp1, hp2] at hload
    injection hload with hload
    injection hload with e1 e2
    subst e1
    subst e2
    rw [ho1, ho2]
    simp only []
    rw [scanTables_filter _ _ _ _ _ _ _ _ t ht, scanTables_filter _ _ _ _ _ _ _ _ t ht]
    unfold scanEntry
    obtain ⟨e1, e2, hk, _⟩ := hsame t ht (Or.inl rfl)
    rw [← e1, ← e2,
      scanTable_agree L file1 file2 pool1 stUsed1 k t _ _ _ hlen hl hagree hk]

set_option maxRecDepth 8192 in
/-- Witness of C26 (amended): `indexBaseFile 7` and `indexBaseFile 1000` differ in
the index base only, and the string table and the table with id `0x04` lie
after the directory. Both runs give the candidate at file offset
`113 + 12 + 0` for the table, while `parse` decodes the table at `1000 + 113`
in the second file. -/
theorem C26_scan_offset_resolution_witness :
    2 < 3
    ∧ loadDirectory (mkLayout 8 24 12) (indexBaseFile 7)
        = .loaded 3 [1, 0x0a, 0x04] [7, 96, 113] [0, 17, 18]
    ∧ loadDirectory (mkLayout 8 24 12) (indexBaseFile 1000)
        = .loaded 3 [1, 0x0a, 0x04] [1000, 96, 113] [0, 17, 18]
    ∧ (indexBaseFile 7).drop 96 = (indexBaseFile 1000).drop 96
    ∧ scanConnectivityRun (mkLayout 8 24 12) stdMachine (indexBaseFile 7) 8 =
        .finished { status := 0,
                    records := [{ tableId := 4, tableIndex := 2, fileOffset := 125,
                                  name := [67, 68], oids := [9] }] }
    ∧ scanConnectivityRun (mkLayout 8 24 12) stdMachine (indexBaseFile 1000) 8 =
        .finished { status := 0,
                    records := [{ tableId := 4, tableIndex := 2, fileOffset := 125,
                                  name := [67, 68], oids := [9] }] }
    ∧ (parseRun (mkLayout 8 24 12) stdMachine 8 (indexBaseFile 1000)).calls
        = [⟨.read0x0a, 96, 17⟩, ⟨.read0x04, 1113, 18⟩]
    ∧ (∀ (out1 out2 : Outcome Candidate),
        scanConnectivityRun (mkLayout 8 24 12) stdMachine (indexBaseFile 7) 8
          = .finished out1 →
        scanConnectivityRun (mkLayout 8 24 12) stdMachine (indexBaseFile 1000) 8
          = .finished out2 →
        out1.records.filter (fun c => decide (c.tableIndex = 2)) =
          out2.records.filter (fun c => decide (c.tableIndex = 2))) :=
  ⟨by decide, by decide, by decide, by decide, by decide, by decide, by decide,
    (C26_scan_offset_resolution (mkLayout 8 24 12) stdMachine (indexBaseFile 7)
      (indexBaseFile 1000) 96 3 [1, 0x0a, 0x04] [7, 96, 113] [0, 17, 18] [1000, 96, 113]
      [0, 17, 18] 2 8 (by decide) (by decide) (by decide) (by decide) (by decide) (by decide)
      (by decide)).2.2⟩

/-! ### C14 -/

/-- The run of `emit_instances` on a file whose directory is read: it is
terminated when the construction of a directory vector or of the buffer of
some target table throws, and otherwise finishes with the records of all
entries, in directory order. -/
theorem emitInstancesRun_cases (L : Layout) (mch : Machine) (file : List Byte) (used : Nat)
    (ids offsets sizes : List Nat)
    (hd : loadDirectory L file = .loaded used ids offsets sizes) :
    ((heapOk L mch (L.ulongSize * used) = false
        ∨ ∃ j, j < used ∧ ids.getD j 0 ∈ targetIds
            ∧ decodeTableRun L mch file j (offsets.getD j 0) (sizes.getD j 0) = none) →
      emitInstancesRun L mch file = .terminated)
    ∧ (heapOk L mch (L.ulongSize * used) = true →
        (∀ j, j < used → ids.getD j 0 ∈ targetIds →
          decodeTableRun L mch file j (offsets.getD j 0) (sizes.getD j 0) ≠ none) →
        emitInstancesRun L mch file =
          .finished { status := 0, records := emitTables L file used ids offsets sizes }) := by
  rw [emitInstancesRun_of_loaded L mch file used ids offsets sizes hd]
  constructor
  · rintro (h | ⟨j, hj, hi, hn⟩)
    · rw [if_pos h]
    · have hnone : emitLoopRun L mch file ids offsets sizes (List.range used) = none :=
        (emitLoopRun_none L mch file ids offsets sizes (List.range used)).mpr
          ⟨j, List.mem_range.mpr hj, hi, hn⟩
      rw [hnone]
      split_ifs <;> rfl
  · intro hheap hall
    rw [if_neg (by rw [hheap]; exact Bool.noConfusion)]
    cases he : emitLoopRun L mch file ids offsets sizes (List.range used) with
    | none =>
      obtain ⟨j, hj, hi, hn⟩ :=
        (emitLoopRun_none L mch file ids offsets sizes (List.range used)).mp he
      exact absurd hn (hall j (List.mem_range.mp hj) hi)
    | some recs =>
      simp only []
      rw [emitLoopRun_some L mch file ids offsets sizes _ recs he]
      rfl

/-- The run of `scan_connectivity` on a file whose directory is read and whose
string table is loaded: it is terminated when the construction of the buffer
of some scanned table throws, and otherwise finishes with the candidates of
all entries, in directory order. -/
theorem scanConnectivityRun_cases (L : Layout) (mch : Machine) (file : List Byte)
    (used : Nat) (ids offsets sizes : List Nat) (fuel : Nat) (pool : Pool) (stUsed : Nat)
    (hd : loadDirectory L file = .loaded used ids offsets sizes)
    (hheap : heapOk L mch (L.ulongSize * used) = true)
    (hp : loadStringTableRun L mch file used ids offsets sizes fuel
      = .finished (pool, stUsed)) :
    ((∃ j, j < used ∧ toInt j ≠ stringTableIndex used ids
        ∧ scanTableRun L mch file pool stUsed j (ids.getD j 0) (offsets.getD j 0)
            (sizes.getD j 0) = none) →
      scanConnectivityRun L mch file fuel = .terminated)
    ∧ ((∀ j, j < used → toInt j ≠ stringTableIndex used ids →
          scanTableRun L mch file pool stUsed j (ids.getD j 0) (offsets.getD j 0)
            (sizes.getD j 0) ≠ none) →
        scanConnectivityRun L mch file fuel =
          .finished { status := 0,
                      records := scanTables L file pool stUsed used ids offsets sizes }) := by
  rw [scanConnectivityRun_of_loaded L mch file used ids offsets sizes fuel hd,
    if_neg (by rw [hheap]; exact Bool.noConfusion), hp]
  simp only []
  constructor
  · rintro ⟨j, hj, hi, hn⟩
    have hnone : scanTablesRun L mch file pool stUsed used ids offsets sizes
        (List.range used) = none :=
      (scanTablesRun_none L mch file pool stUsed used ids offsets sizes
        (List.range used)).mpr ⟨j, List.mem_range.mpr hj, hi, hn⟩
    rw [hnone]
  · intro hall
    cases he : scanTablesRun L mch file pool stUsed used ids offsets sizes
        (List.range used) with
    | none =>
      obtain ⟨j, hj, hi, hn⟩ :=
        (scanTablesRun_none L mch file pool stUsed used ids offsets sizes
          (List.range used)).mp he
      exact absurd hn (hall j (List.mem_range.mp hj) hi)
    | some cs =>
      simp only []
      rw [scanTablesRun_some L mch file pool stUsed used ids offsets sizes _ cs he]
      rfl

/-- The table body of `emit_instances` on a table whose header is in the file and
whose declared region ends after the end of the file. -/
theorem decodeTableRun_past_end (L : Layout) (mch : Machine) (file : List Byte)
    (t pos size : Nat) (hti : 0 < L.tiSize) (hlen : file.length < 2 ^ (8 * L.ulongSize - 1))
    (hhdr : pos + L.tiSize ≤ file.length) (hpast : file.length < pos + size) :
    decodeTableRun L mch file t pos size =
      if (size - L.tiSize) % 8 = 0 then
        some (.fixedRecords (fixedSpec L file t (pos + L.tiSize) ((size - L.tiSize) / 8)))
      else if heapOk L mch (size - L.tiSize) = false then none
      else
        some (.pairCandidates (pairScanSpec
          (file.drop (pos + L.tiSize) ++ List.replicate (pos + size - file.length) 0) t
          (pos + L.tiSize) (fun x => x % L.ulongMod))) := by
  have hseek : fseekOk L pos = true := by
    unfold fseekOk
    exact decide_eq_true (by omega)
  have hread : fread1 file pos L.tiSize ≠ none := by
    rw [fread1_of_le file pos L.tiSize hti hhdr]
    exact Option.some_ne_none _
  have hfill : fillBuf file (pos + L.tiSize) (size - L.tiSize) =
      file.drop (pos + L.tiSize) ++ List.replicate (pos + size - file.length) 0 := by
    rw [fillBuf_past_end file (pos + L.tiSize) (size - L.tiSize) hhdr (by omega)]
    congr 2
    omega
  rw [decodeTableRun_eq, decodeTable_exact L file t pos size hti hlen hhdr (by omega), hfill]
  by_cases h8 : (size - L.tiSize) % 8 = 0
  · rw [if_pos h8, if_pos h8, if_neg (fun h => h.2.2.2.1 h8)]
  · rw [if_neg h8, if_neg h8]
    by_cases hh : heapOk L mch (size - L.tiSize) = false
    · rw [if_pos hh, if_pos ⟨by omega, hseek, hread, h8, hh⟩]
    · rw [if_neg hh, if_neg (fun h => hh h.2.2.2.2)]

/-- The table body of `scan_connectivity` on a table whose header is in the file
and whose declared region ends after the end of the file: the scan runs over
the bytes read, `file.length - dataStart` of them. -/
theorem scanTableRun_past_end (L : Layout) (mch : Machine) (file : List Byte) (pool : Pool)
    (stUsed t tid pos size : Nat) (hti : 0 < L.tiSize)
    (hlen : file.length < 2 ^ (8 * L.ulongSize - 1))
    (hhdr : pos + L.tiSize ≤ file.length) (hpast : file.length < pos + size) :
    scanTableRun L mch file pool stUsed t tid pos size =
      if heapOk L mch (size - L.tiSize) = false then none
      else
        some (scanSpec L pool stUsed
          (file.drop (pos + L.tiSize) ++ List.replicate (pos + size - file.length) 0)
          (file.length - (pos + L.tiSize)) t tid (pos + L.tiSize)) := by
  have hM := half_le_ulongMod L
  have hseek : fseekOk L pos = true := by
    unfold fseekOk
    exact decide_eq_true (by omega)
  have hread : fread1 file pos L.tiSize ≠ none := by
    rw [fread1_of_le file pos L.tiSize hti hhdr]
    exact Option.some_ne_none _
  have hds : tableDataStart L pos = pos + L.tiSize := by
    unfold tableDataStart
    exact Nat.mod_eq_of_lt (by omega)
  have hseek2 : fseekOk L (pos + L.tiSize) = true := by
    unfold fseekOk
    exact decide_eq_true (by omega)
  have hfill : tableBuf L file pos size =
      file.drop (pos + L.tiSize) ++ List.replicate (pos + size - file.length) 0 := by
    unfold tableBuf
    rw [hds, fillBuf_past_end file (pos + L.tiSize) (size - L.tiSize) hhdr (by omega)]
    congr 2
    omega
  have hgot : tableGot L file pos size = file.length - (pos + L.tiSize) := by
    unfold tableGot
    rw [hds, length_slice]
    omega
  rw [scanTableRun_eq, scanTable_eq_spec, hds, hfill, hgot]
  by_cases hh : heapOk L mch (size - L.tiSize) = false
  · rw [if_pos hh, if_pos ⟨by omega, hseek, hread, by omega, hh⟩]
  · rw [if_neg hh, if_neg (fun h => hh h.2.2.2.2), if_neg]
    rintro (h | h | h | h)
    · omega
    · rw [hseek] at h
      cases h
    · exact hread h
    · rw [hseek2] at h
      cases h

set_option maxRecDepth 8192 in
/-- C14 (counterexample), tables whose declared region ends after the end of the
file. In `partialFile 32` (data size 20, 16 payload bytes in the file) the
heuristic branch gives four records, the last one from the last 4 bytes of the
file and zeros. In `partialFile 44` (data size 32) the fixed-record branch
gives the record of the 16 bytes read. In `connFile 17 5 30` (data size 18,
11 payload bytes in the file) the scan gives the candidate of the bytes read.
In `recoveryFile (2 ^ 63 + 13)` and `scanFile (2 ^ 63 + 12)` the construction of
the buffer throws: the run is terminated, and the record of table 1 and the
candidate of table 2, which the runs on `recoveryFile 4` and `scanFile 4` give,
are never printed. -/
theorem C14_partial_payload_is_used :
    loadDirectory (mkLayout 8 24 12) (partialFile 32) = .loaded 1 [0x0b] [48] [32]
    ∧ (partialFile 32).length = 76
    ∧ emitInstancesRun (mkLayout 8 24 12) stdMachine (partialFile 32)
        = .finished { status := 0,
                      records := [(0x0b, { table_index := 0, record_index := 0,
                                           instance_value := 1, master_value := 100,
                                           file_offset := 60 }),
                                  (0x0b, { table_index := 0, record_index := 0,
                                           instance_value := 100, master_value := 2,
                                           file_offset := 64 }),
                                  (0x0b, { table_index := 0, record_index := 1,
                                           instance_value := 2, master_value := 100,
                                           file_offset := 68 }),
                                  (0x0b, { table_index := 0, record_index := 1,
                                           instance_value := 100, master_value := 0,
                                           file_offset := 72 })] }
    ∧ loadDirectory (mkLayout 8 24 12) (partialFile 44) = .loaded 1 [0x0b] [48] [44]
    ∧ emitInstancesRun (mkLayout 8 24 12) stdMachine (partialFile 44)
        = .finished { status := 0,
                      records := [(0x0b, { table_index := 0, record_index := 0,
                                           instance_value := 429496729601,
                                           master_value := 429496729602,
                                           file_offset := 60 })] }
    ∧ loadDirectory (mkLayout 8 24 12) (connFile 17 5 30)
        = .loaded 2 [10, 12] [72, 96] [17, 30]
    ∧ (connFile 17 5 30).length = 119
    ∧ scanConnectivityRun (mkLayout 8 24 12) stdMachine (connFile 17 5 30) 8
        = .finished { status := 0,
                      records := [{ tableId := 12, tableIndex := 1, fileOffset := 109,
                                    name := [67, 68], oids := [7] }] }
    ∧ loadDirectory (mkLayout 8 24 12) (recoveryFile (2 ^ 63 + 13))
        = .loaded 2 [0x0b, 0x0b] [72, 92] [2 ^ 63 + 13, 28]
    ∧ emitInstancesRun (mkLayout 8 24 12) stdMachine (recoveryFile (2 ^ 63 + 13))
        = .terminated
    ∧ emitInstancesRun (mkLayout 8 24 12) stdMachine (recoveryFile 4)
        = .finished { status := 0,
                      records := [(0x0b, { table_index := 1, record_index := 0,
                                           instance_value := 1, master_value := 100,
                                           file_offset := 104 })] }
    ∧ loadDirectory (mkLayout 8 24 12) (scanFile (2 ^ 63 + 12))
        = .loaded 3 [0x0c, 0x0a, 0x0d] [96, 120, 137] [2 ^ 63 + 12, 17, 18]
    ∧ scanConnectivityRun (mkLayout 8 24 12) stdMachine (scanFile (2 ^ 63 + 12)) 8
        = .terminated
    ∧ scanConnectivityRun (mkLayout 8 24 12) stdMachine (scanFile 4) 8
        = .finished { status := 0,
                      records := [{ tableId := 13, tableIndex := 2, fileOffset := 149,
                                    name := [67, 68], oids := [9] }] } := by
  decide

/-- C14 (amended): let table `t` declare a region that ends after the end of the
file. When the table header is itself cut off, the table gives no record and no
candidate. When the header is in the file, the table is decoded from the bytes
that are read: the fixed-record branch gives the records whose two fields lie
wholly in the file; the heuristic branch scans the buffer made of the bytes
read followed by zeros, and `scan_connectivity` scans the bytes read; these two
build a buffer of the declared data size first, and its construction throws
when the allocator refuses that size. A run is terminated, with nothing
printed, when such a construction throws for some entry; otherwise every
directory entry is processed, in order. -/
theorem C14_short_reads (L : Layout) (mch : Machine) (file : List Byte) (used : Nat)
    (ids offsets sizes : List Nat) (t : Nat) (hti : 0 < L.tiSize)
    (hlen : file.length < 2 ^ (8 * L.ulongSize - 1))
    (hd : loadDirectory L file = .loaded used ids offsets sizes)
    (hpast : file.length < offsets.getD t 0 + sizes.getD t 0) :
    (file.length < offsets.getD t 0 + L.tiSize →
        decodeTableRun L mch file t (offsets.getD t 0) (sizes.getD t 0) = some .skipped
        ∧ ∀ (pool : Pool) (stUsed : Nat),
            scanTableRun L mch file pool stUsed t (ids.getD t 0) (offsets.getD t 0)
              (sizes.getD t 0) = some [])
    ∧ (offsets.getD t 0 + L.tiSize ≤ file.length →
        decodeTableRun L mch file t (offsets.getD t 0) (sizes.getD t 0) =
          (if (sizes.getD t 0 - L.tiSize) % 8 = 0 then
            some (.fixedRecords (fixedSpec L file t (offsets.getD t 0 + L.tiSize)
              ((sizes.getD t 0 - L.tiSize) / 8)))
          else if heapOk L mch (sizes.getD t 0 - L.tiSize) = false then none
          else
            some (.pairCandidates (pairScanSpec
              (file.drop (offsets.getD t 0 + L.tiSize)
                ++ List.replicate (offsets.getD t 0 + sizes.getD t 0 - file.length) 0) t
              (offsets.getD t 0 + L.tiSize) (fun x => x % L.ulongMod))))
        ∧ ∀ (pool : Pool) (stUsed : Nat),
            scanTableRun L mch file pool stUsed t (ids.getD t 0) (offsets.getD t 0)
                (sizes.getD t 0) =
              (if heapOk L mch (sizes.getD t 0 - L.tiSize) = false then none
              else
                some (scanSpec L pool stUsed
                  (file.drop (offsets.getD t 0 + L.tiSize)
                    ++ List.replicate (offsets.getD t 0 + sizes.getD t 0 - file.length) 0)
                  (file.length - (offsets.getD t 0 + L.tiSize)) t (ids.getD t 0)
                  (offsets.getD t 0 + L.tiSize))))
    ∧ ((heapOk L mch (L.ulongSize * used) = false
          ∨ ∃ j, j < used ∧ ids.getD j 0 ∈ targetIds
              ∧ decodeTableRun L mch file j (offsets.getD j 0) (sizes.getD j 0) = none) →
        emitInstancesRun L mch file = .terminated)
    ∧ (heapOk L mch (L.ulongSize * used) = true →
        (∀ j, j < used → ids.getD j 0 ∈ targetIds →
          decodeTableRun L mch file j (offsets.getD j 0) (sizes.getD j 0) ≠ none) →
        emitInstancesRun L mch file =
          .finished { status := 0, records := emitTables L file used ids offsets sizes })
    ∧ (∀ (fuel : Nat) (pool : Pool) (stUsed : Nat),
        heapOk L mch (L.ulongSize * used) = true →
        loadStringTableRun L mch file used ids offsets sizes fuel
          = .finished (pool, stUsed) →
        ((∃ j, j < used ∧ toInt j ≠ stringTableIndex used ids
            ∧ scanTableRun L mch file pool stUsed j (ids.getD j 0) (offsets.getD j 0)
                (sizes.getD j 0) = none) →
          scanConnectivityRun L mch file fuel = .terminated)
        ∧ ((∀ j, j < used → toInt j ≠ stringTableIndex used ids →
              scanTableRun L mch file pool stUsed j (ids.getD j 0) (offsets.getD j 0)
                (sizes.getD j 0) ≠ none) →
            scanConnectivityRun L mch file fuel =
              .finished { status := 0,
                          records := scanTables L file pool stUsed used ids offsets
                            sizes })) := by
  refine ⟨?_, ?_, (emitInstancesRun_cases L mch file used ids offsets sizes hd).1,
    (emitInstancesRun_cases L mch file used ids offsets sizes hd).2,
    fun fuel pool stUsed hheap hp =>
      scanConnectivityRun_cases L mch file used ids offsets sizes fuel pool stUsed hd hheap hp⟩
  · intro hcut
    have hread : fread1 file (offsets.getD t 0) L.tiSize = none :=
      fread1_short file _ _ hcut
    constructor
    · unfold decodeTableRun
      rw [hread]
      split_ifs <;> rfl
    · intro pool stUsed
      unfold scanTableRun
      rw [hread]
      split_ifs <;> rfl
  · intro hhdr
    exact ⟨decodeTableRun_past_end L mch file t _ _ hti hlen hhdr hpast,
      fun pool stUsed => scanTableRun_past_end L mch file pool stUsed t _ _ _ hti hlen hhdr
        hpast⟩

set_option maxRecDepth 8192 in
/-- Witness of C14 (amended) on `partialFile 32`: the table region `[48, 80)` ends
after the 76 bytes of the file, the header is in the file, the data size 20
is not a multiple of 8, and the heuristic branch gives the four records of
the buffer made of the 16 bytes read and 4 zeros; the scan of the table as
entry of `scan_connectivity` runs over the 16 bytes read. -/
theorem C14_short_reads_witness :
    0 < (mkLayout 8 24 12).tiSize
    ∧ (partialFile 32).length < 2 ^ (8 * (mkLayout 8 24 12).ulongSize - 1)
    ∧ loadDirectory (mkLayout 8 24 12) (partialFile 32) = .loaded 1 [0x0b] [48] [32]
    ∧ (partialFile 32).length < [48].getD 0 0 + [32].getD 0 0
    ∧ [48].getD 0 0 + (mkLayout 8 24 12).tiSize ≤ (partialFile 32).length
    ∧ decodeTableRun (mkLayout 8 24 12) stdMachine (partialFile 32) 0 48 32 =
        some (.pairCandidates
          [{ table_index := 0, record_index := 0, instance_value := 1, master_value := 100,
             file_offset := 60 },
           { table_index := 0, record_index := 0, instance_value := 100, master_value := 2,
             file_offset := 64 },
           { table_index := 0, record_index := 1, instance_value := 2, master_value := 100,
             file_offset := 68 },
           { table_index := 0, record_index := 1, instance_value := 100, master_value := 0,
             file_offset := 72 }])
    ∧ (∀ (pool : Pool) (stUsed : Nat),
        scanTableRun (mkLayout 8 24 12) stdMachine (partialFile 32) pool stUsed 0 0x0b 48 32 =
          some (scanSpec (mkLayout 8 24 12) pool stUsed
            ((partialFile 32).drop 60 ++ List.replicate 4 0) 16 0 0x0b 60)) :=
  ⟨by decide, by decide, by decide, by decide, by decide,
    ((C14_short_reads (mkLayout 8 24 12) stdMachine (partialFile 32) 1 [0x0b] [48] [32] 0
      (by decide) (by decide) (by decide) (by decide)).2.1 (by decide)).1,
    ((C14_short_reads (mkLayout 8 24 12) stdMachine (partialFile 32) 1 [0x0b] [48] [32] 0
      (by decide) (by decide) (by decide) (by decide)).2.1 (by decide)).2⟩

/-! ### C1 -/

/-- C1: the decode of an instance-like table whose header lies in the file, with
`s = size - payloadHeaderSize`. With `s = 0` the table is skipped. With
`s % 8 = 0` the table gives fixed records and nothing else: record `r` holds
the two `unsigned long` values read at `dataStart + 2 * sizeof(unsigned long) * r`,
for the records whose two fields lie wholly in the file, `s / 8` at most.
Otherwise it gives the candidates of the pair scan over the payload buffer and
nothing else. Where `unsigned long` has 4 bytes and the table lies wholly in
the file, the fixed records are the `s / 8` pairs of 4-byte integers of the
payload. -/
theorem C1_instance_table_shape (L : Layout) (file : List Byte) (t pos size : Nat)
    (hti : 0 < L.tiSize) (hlen : file.length < 2 ^ (8 * L.ulongSize - 1))
    (hhdr : pos + L.tiSize ≤ file.length) (hs : L.tiSize ≤ size) :
    decodeTable L file t pos size =
      (if size - L.tiSize = 0 then .skipped
       else if (size - L.tiSize) % 8 = 0 then
        .fixedRecords (fixedSpec L file t (pos + L.tiSize) ((size - L.tiSize) / 8))
       else
        .pairCandidates (pairScanSpec (fillBuf file (pos + L.tiSize) (size - L.tiSize)) t
          (pos + L.tiSize) (fun x => x % L.ulongMod)))
    ∧ (fixedSpec L file t (pos + L.tiSize) ((size - L.tiSize) / 8)).length =
        min ((size - L.tiSize) / 8)
          ((file.length - (pos + L.tiSize)) / (L.ulongSize + L.ulongSize))
    ∧ (L.ulongSize = 4 → pos + size ≤ file.length → L.tiSize < size →
        (size - L.tiSize) % 8 = 0 →
        decodeTable L file t pos size =
          .fixedRecords ((List.range ((size - L.tiSize) / 8)).map (fun r =>
            { table_index := t, record_index := r,
              instance_value := le4 file (pos + L.tiSize + 8 * r),
              master_value := le4 file (pos + L.tiSize + 8 * r + 4),
              file_offset := pos + L.tiSize + 8 * r }))) := by
  refine ⟨?_, ?_, ?_⟩
  · by_cases h0 : size - L.tiSize = 0
    · rw [if_pos h0]
      have hseek : fseekOk L pos = true := by
        unfold fseekOk
        exact decide_eq_true (by omega)
      unfold decodeTable
      rw [fread1_of_le file pos L.tiSize hti hhdr]
      simp only [dataSize_eq, hseek, h0]
      split_ifs <;> first | rfl | omega
    · rw [if_neg h0]
      exact decodeTable_exact L file t pos size hti hlen hhdr (by omega)
  · unfold fixedSpec
    rw [List.length_map, List.length_range]
  · intro hW hin hs2 hm
    exact fixed_decode_ulong4 L hW file t pos size hti (by rw [hW] at hlen; exact hlen) hin
      hs2 hm

set_option maxRecDepth 8192 in
/-- Witness of C1. With an 8-byte `unsigned long`: the table of
`shapeFile 20 (1, 100)` has `s = 8` and lies wholly in the 68-byte file, and the
fixed-record branch gives no record, because one record takes 16 bytes; with
8 more bytes in the file it gives a record made of the 16 bytes from the data
start on; the table of `shapeFile 24 (1, 100, 2)` has `s = 12` and gives the two
candidates of the pair scan. With a 4-byte `unsigned long` the table of
`shapeFile32` (`s = 8`) gives the record `(1, 100)`. -/
theorem C1_instance_table_shape_witness :
    0 < (mkLayout 8 24 12).tiSize
    ∧ (shapeFile 20 (encodeLE 4 1 ++ encodeLE 4 100)).length = 68
    ∧ loadDirectory (mkLayout 8 24 12) (shapeFile 20 (encodeLE 4 1 ++ encodeLE 4 100))
        = .loaded 1 [0x0b] [48] [20]
    ∧ decodeTable (mkLayout 8 24 12) (shapeFile 20 (encodeLE 4 1 ++ encodeLE 4 100)) 0 48 20
        = .fixedRecords []
    ∧ emitInstancesRun (mkLayout 8 24 12) stdMachine
          (shapeFile 20 (encodeLE 4 1 ++ encodeLE 4 100))
        = .finished { status := 0, records := [] }
    ∧ decodeTable (mkLayout 8 24 12)
          (shapeFile 20 (encodeLE 4 1 ++ encodeLE 4 100 ++ encodeLE 4 2 ++ encodeLE 4 100))
          0 48 20
        = .fixedRecords [{ table_index := 0, record_index := 0,
                           instance_value := 1 + 100 * 2 ^ 32,
                           master_value := 2 + 100 * 2 ^ 32, file_offset := 60 }]
    ∧ decodeTable (mkLayout 8 24 12)
          (shapeFile 24 (encodeLE 4 1 ++ encodeLE 4 100 ++ encodeLE 4 2)) 0 48 24
        = .pairCandidates [{ table_index := 0, record_index := 0, instance_value := 1,
                             master_value := 100, file_offset := 60 },
                           { table_index := 0, record_index := 0, instance_value := 100,
                             master_value := 2, file_offset := 64 }]
    ∧ loadDirectory (mkLayout 4 24 12) shapeFile32 = .loaded 1 [0x0b] [36] [20]
    ∧ decodeTable (mkLayout 4 24 12) shapeFile32 0 36 20
        = .fixedRecords [{ table_index := 0, record_index := 0, instance_value := 1,
                           master_value := 100, file_offset := 48 }]
    ∧ emitInstancesRun (mkLayout 4 24 12) stdMachine shapeFile32
        = .finished { status := 0,
                      records := [(0x0b, { table_index := 0, record_index := 0,
                                           instance_value := 1, master_value := 100,
                                           file_offset := 48 })] } :=
  ⟨by decide, by decide, by decide,
    (C1_instance_table_shape (mkLayout 8 24 12)
      (shapeFile 20 (encodeLE 4 1 ++ encodeLE 4 100)) 0 48 20
      (by decide) (by decide) (by decide) (by decide)).1,
    by decide,
    (C1_instance_table_shape (mkLayout 8 24 12)
      (shapeFile 20 (encodeLE 4 1 ++ encodeLE 4 100 ++ encodeLE 4 2 ++ encodeLE 4 100)) 0 48 20
      (by decide) (by decide) (by decide) (by decide)).1,
    (C1_instance_table_shape (mkLayout 8 24 12)
      (shapeFile 24 (encodeLE 4 1 ++ encodeLE 4 100 ++ encodeLE 4 2)) 0 48 24
      (by decide) (by decide) (by decide) (by decide)).1,
    by decide,
    (C1_instance_table_shape (mkLayout 4 24 12) shapeFile32 0 36 20
      (by decide) (by decide) (by decide) (by decide)).2.2 rfl (by decide) (by decide)
      (by decide),
    by decide⟩

/-! ### The dispatch loop of `parse`, call by call -/

/-- The ending of `parse` after a decoder call that ended as `e`. -/
theorem parseLoop_cons_some (L : Layout) (m : Machine) (aiSize : Nat) (file : List Byte)
    (c : Call) (rest : List (Option Call))
    (h : callEnding L m aiSize file c = .returns) :
    parseLoop L m aiSize file (some c :: rest) =
      { calls := c :: (parseLoop L m aiSize file rest).calls
        ending := (parseLoop L m aiSize file rest).ending } := by
  rw [parseLoop, h]

theorem parseLoop_stop (L : Layout) (m : Machine) (aiSize : Nat) (file : List Byte)
    (c : Call) (rest : List (Option Call))
    (h : callEnding L m aiSize file c ≠ .returns) :
    (parseLoop L m aiSize file (some c :: rest)).calls = [c]
    ∧ (parseLoop L m aiSize file (some c :: rest)).ending ≠ .done := by
  rw [parseLoop]
  cases he : callEnding L m aiSize file c with
  | returns => exact absurd he h
  | throws => exact ⟨rfl, by simp⟩
  | crashes => exact ⟨rfl, by simp⟩
  | undefined => exact ⟨rfl, by simp⟩

/-- The dispatch loop over entries whose calls all return goes on with the
entries after them. -/
theorem parseLoop_append (L : Layout) (m : Machine) (aiSize : Nat) (file : List Byte)
    (rest : List (Option Call)) :
    ∀ (pre : List (Option Call)),
      (∀ c, some c ∈ pre → callEnding L m aiSize file c = .returns) →
      parseLoop L m aiSize file (pre ++ rest) =
        { calls := pre.filterMap id ++ (parseLoop L m aiSize file rest).calls
          ending := (parseLoop L m aiSize file rest).ending } := by
  intro pre
  induction pre with
  | nil => intro _; rfl
  | cons x xs ih =>
    intro h
    have ih := ih (fun c hc => h c (List.mem_cons_of_mem _ hc))
    cases x with
    | none =>
      rw [List.cons_append, parseLoop, ih]
      rfl
    | some c =>
      rw [List.cons_append, parseLoop_cons_some L m aiSize file c _
        (h c (List.mem_cons_self _ _)), ih]
      rfl

/-- The calls `parse` makes are calls the `switch` selects, in directory order,
from the first entry on. -/
theorem parseLoop_calls_selected (L : Layout) (m : Machine) (aiSize : Nat) (file : List Byte) :
    ∀ (l : List (Option Call)), (parseLoop L m aiSize file l).calls <+: l.filterMap id := by
  intro l
  induction l with
  | nil => exact List.prefix_refl _
  | cons x xs ih =>
    cases x with
    | none =>
      rw [parseLoop]
      exact ih
    | some c =>
      rw [parseLoop]
      cases he : callEnding L m aiSize file c with
      | returns =>
        simp only [List.filterMap_cons_some (rfl : id (some c) = some c)]
        exact (List.prefix_cons_inj c).mpr ih
      | throws =>
        simp only [List.filterMap_cons_some (rfl : id (some c) = some c)]
        exact (List.prefix_cons_inj c).mpr List.nil_prefix
      | crashes =>
        simp only [List.filterMap_cons_some (rfl : id (some c) = some c)]
        exact (List.prefix_cons_inj c).mpr List.nil_prefix
      | undefined =>
        simp only [List.filterMap_cons_some (rfl : id (some c) = some c)]
        exact (List.prefix_cons_inj c).mpr List.nil_prefix

/-- The function `parse` on a file whose directory is read and fits the stack. -/
theorem parseRun_of_directory (L : Layout) (m : Machine) (aiSize : Nat) (file : List Byte)
    (used : Nat) (ids offsets sizes : List Nat)
    (hd : parseDirectory L file = some (used, ids, offsets, sizes))
    (hstack : 3 * (L.ulongSize * used) ≤ m.stack) :
    parseRun L m aiSize file =
      parseLoop L m aiSize file (parseCalls L used ids offsets sizes) := by
  unfold parseRun
  have hd0 := hd
  unfold parseDirectory at hd
  cases hf : fread1 file 0 L.fhSize with
  | none => simp only [hf] at hd; cases hd
  | some fh =>
    simp only [hf] at hd
    have hu : L.fhUsed fh = used := by
      split_ifs at hd with h0
      · injection hd with hd
        injection hd with e1 _
        rw [h0, ← e1]
      · cases h1 : fread1 file L.fhSize (L.ulongSize * L.fhUsed fh) with
        | none => simp only [h1] at hd; cases hd
        | some a =>
          cases h2 : fread1 file (L.fhSize + L.ulongSize * L.fhUsed fh)
              (L.ulongSize * L.fhUsed fh) with
          | none => simp only [h1, h2] at hd; cases hd
          | some b =>
            cases h3 : fread1 file (L.fhSize + L.ulongSize * L.fhUsed fh
                + L.ulongSize * L.fhUsed fh) (L.ulongSize * L.fhUsed fh) with
            | none => simp only [h1, h2, h3] at hd; cases hd
            | some c =>
              simp only [h1, h2, h3] at hd
              injection hd with hd
              injection hd with e1 _
    simp only [hu, hd0]
    rw [if_neg (by omega)]

/-- How the call selected for entry `i` relates to the list of selected calls. -/
theorem list_split_at {α : Type} (l : List α) (i : Nat) (x : α) (h : l[i]? = some x) :
    l = l.take i ++ x :: l.drop (i + 1) := by
  have hi : i < l.length := by
    by_contra hc
    rw [List.getElem?_eq_none (by omega)] at h
    cases h
  rw [List.getElem?_eq_getElem hi] at h
  injection h with h
  rw [← h, ← List.drop_eq_getElem_cons hi, List.take_append_drop]

theorem mem_take_getElem {α : Type} (l : List α) (i : Nat) (x : α) (h : x ∈ l.take i) :
    ∃ j, j < i ∧ l[j]? = some x := by
  obtain ⟨j, hj, hx⟩ := List.getElem_of_mem h
  rw [List.length_take] at hj
  rw [List.getElem_take] at hx
  exact ⟨j, by omega, by rw [List.getElem?_eq_getElem (by omega), hx]⟩

/-! ### C7 -/

set_option maxRecDepth 8192 in
/-- C7 (counterexample): in `abortFile` the entry with id `0x04` follows an
instance table of declared size 4. The `switch` selects `read0x04` at
`0 + 76` for it, but the call `read0x0b(file, 72, 4)` made for the entry before
it requests arrays that `new[]` refuses: the exception is caught by `parse`,
which returns 1, and the table with id `0x04` is not decoded at all. -/
theorem C7_entry_after_throwing_decoder :
    parseDirectory (mkLayout 8 24 12) abortFile = some (2, [0x0b, 0x04], [72, 76], [4, 4])
    ∧ startOffset 2 [0x0b, 0x04] [72, 76] = 0
    ∧ parseCalls (mkLayout 8 24 12) 2 [0x0b, 0x04] [72, 76] [4, 4]
        = [some ⟨.read0x0b, 72, 4⟩, some ⟨.read0x04, 76, 4⟩]
    ∧ read0x0b (mkLayout 8 24 12) stdMachine abortFile 72 4
        = { hook := none, ending := .throws }
    ∧ parseRun (mkLayout 8 24 12) stdMachine 8 abortFile
        = { calls := [⟨.read0x0b, 72, 4⟩], ending := .caught } := by
  decide

/-- C7 (amended): index-base resolution in `parse`. `startOffset` is the directory
offset of the first entry with `id == 1`, and `0` when no entry has id 1. For
every entry whose id is in the index-relative set `0x04, 0x05, 0x06, 0x07,
0x19, 0x1c, 0x1d, 0x28` the `switch` selects the decoder call at position
`offsets[i] + startOffset` (the `unsigned long` sum, which is the plain sum
whenever that is representable), with `sizes[i]` as table size. The calls
`parse` makes are the selected calls in directory order, from the first entry
up to the first call that does not return: the call selected for an entry is
made when every call for an earlier entry returns, all selected calls are made
when all of them return, and a call that throws or does not survive is the
last one. -/
theorem C7_index_base_resolution (L : Layout) (m : Machine) (aiSize : Nat)
    (file : List Byte) (used : Nat) (ids offsets sizes : List Nat)
    (hd : parseDirectory L file = some (used, ids, offsets, sizes))
    (hstack : 3 * (L.ulongSize * used) ≤ m.stack) :
    (∀ i, i < used → ids.getD i 0 = 1 → (∀ j, j < i → ids.getD j 0 ≠ 1) →
        startOffset used ids offsets = offsets.getD i 0)
    ∧ ((∀ i, i < used → ids.getD i 0 ≠ 1) → startOffset used ids offsets = 0)
    ∧ (∀ i, i < used → ids.getD i 0 ∈ [0x04, 0x05, 0x06, 0x07, 0x19, 0x1c, 0x1d, 0x28] →
        ∃ d, (parseCalls L used ids offsets sizes)[i]? =
              some (some ⟨d, (offsets.getD i 0 + startOffset used ids offsets) % L.ulongMod,
                sizes.getD i 0⟩)
          ∧ (offsets.getD i 0 + startOffset used ids offsets < L.ulongMod →
              (parseCalls L used ids offsets sizes)[i]? =
                some (some ⟨d, offsets.getD i 0 + startOffset used ids offsets,
                  sizes.getD i 0⟩)))
    ∧ (parseRun L m aiSize file).calls <+: (parseCalls L used ids offsets sizes).filterMap id
    ∧ (∀ (i : Nat) (c : Call), (parseCalls L used ids offsets sizes)[i]? = some (some c) →
        (∀ (j : Nat) (c' : Call), j < i → (parseCalls L used ids offsets sizes)[j]? = some (some c') →
          callEnding L m aiSize file c' = .returns) →
        c ∈ (parseRun L m aiSize file).calls
        ∧ (callEnding L m aiSize file c ≠ .returns →
            (parseRun L m aiSize file).calls =
              ((parseCalls L used ids offsets sizes).take i).filterMap id ++ [c]
            ∧ (parseRun L m aiSize file).ending ≠ .done))
    ∧ ((∀ (i : Nat) (c : Call), (parseCalls L used ids offsets sizes)[i]? = some (some c) →
          callEnding L m aiSize file c = .returns) →
        parseRun L m aiSize file =
          { calls := (parseCalls L used ids offsets sizes).filterMap id, ending := .done }) := by
  have hrun := parseRun_of_directory L m aiSize file used ids offsets sizes hd hstack
  refine ⟨?_, ?_, ?_, ?_, ?_, ?_⟩
  · intro i hi h1 hmin
    unfold startOffset
    rw [find_range_first _ used i hi (by simpa using h1) (by simpa using hmin)]
  · intro h
    unfold startOffset
    rw [find_range_none _ used (by simpa using h)]
  · intro i hi hid
    obtain ⟨d, hd⟩ := dispatch_index_relative L (startOffset used ids offsets) (ids.getD i 0)
      (offsets.getD i 0) (sizes.getD i 0) hid
    refine ⟨d, ?_, ?_⟩
    · rw [parseCalls_getElem L used ids offsets sizes i hi, hd, Nat.add_comm]
    · intro hlt
      rw [parseCalls_getElem L used ids offsets sizes i hi, hd, Nat.add_comm,
        Nat.mod_eq_of_lt hlt]
  · rw [hrun]
    exact parseLoop_calls_selected L m aiSize file _
  · intro i c hc hearlier
    have hsplit := list_split_at (parseCalls L used ids offsets sizes) i (some c) hc
    have hpre : ∀ c', some c' ∈ (parseCalls L used ids offsets sizes).take i →
        callEnding L m aiSize file c' = .returns := by
      intro c' hc'
      obtain ⟨j, hj, hjc⟩ := mem_take_getElem _ i (some c') hc'
      exact hearlier j c' hj hjc
    have happ := parseLoop_append L m aiSize file
      (some c :: (parseCalls L used ids offsets sizes).drop (i + 1))
      ((parseCalls L used ids offsets sizes).take i) hpre
    rw [← hsplit, ← hrun] at happ
    constructor
    · rw [happ]
      apply List.mem_append_right
      rw [parseLoop]
      cases callEnding L m aiSize file c <;> exact List.mem_cons_self _ _
    · intro hne
      obtain ⟨h1, h2⟩ := parseLoop_stop L m aiSize file c
        ((parseCalls L used ids offsets sizes).drop (i + 1)) hne
      rw [happ]
      exact ⟨by rw [h1], h2⟩
  · intro hall
    have hpre : ∀ c, some c ∈ parseCalls L used ids offsets sizes →
        callEnding L m aiSize file c = .returns := by
      intro c hc
      obtain ⟨i, hi, hic⟩ := List.getElem_of_mem hc
      exact hall i c (by rw [List.getElem?_eq_getElem hi, hic])
    have happ := parseLoop_append L m aiSize file [] (parseCalls L used ids offsets sizes) hpre
    rw [List.append_nil, ← hrun] at happ
    rw [happ]
    simp [parseLoop]

set_option maxRecDepth 8192 in
/-- Witness of C7 (amended) on `indexBaseFile 1000`: the index base is 1000, the
directory fits the stack, the call for the string table returns, and the
table with id `0x04` (directory offset 113) is decoded at `113 + 1000`. -/
theorem C7_index_base_resolution_witness :
    parseDirectory (mkLayout 8 24 12) (indexBaseFile 1000)
        = some (3, [1, 0x0a, 0x04], [1000, 96, 113], [0, 17, 18])
    ∧ 3 * ((mkLayout 8 24 12).ulongSize * 3) ≤ stdMachine.stack
    ∧ startOffset 3 [1, 0x0a, 0x04] [1000, 96, 113] = 1000
    ∧ (parseCalls (mkLayout 8 24 12) 3 [1, 0x0a, 0x04] [1000, 96, 113] [0, 17, 18])[2]?
        = some (some ⟨.read0x04, 1113, 18⟩)
    ∧ (⟨.read0x04, 1113, 18⟩ : Call) ∈
        (parseRun (mkLayout 8 24 12) stdMachine 8 (indexBaseFile 1000)).calls
    ∧ parseRun (mkLayout 8 24 12) stdMachine 8 (indexBaseFile 1000)
        = { calls := [⟨.read0x0a, 96, 17⟩, ⟨.read0x04, 1113, 18⟩], ending := .done } :=
  ⟨by decide, by decide,
    (C7_index_base_resolution (mkLayout 8 24 12) stdMachine 8 (indexBaseFile 1000) 3
      [1, 0x0a, 0x04] [1000, 96, 113] [0, 17, 18] (by decide) (by decide)).1 0
      (by decide) (by decide) (fun j hj => absurd hj (by omega)),
    by decide,
    ((C7_index_base_resolution (mkLayout 8 24 12) stdMachine 8 (indexBaseFile 1000) 3
      [1, 0x0a, 0x04] [1000, 96, 113] [0, 17, 18] (by decide) (by decide)).2.2.2.2.1 2
      ⟨.read0x04, 1113, 18⟩ (by decide)
      (by
        intro j c' hj h
        have h2 : parseCalls (mkLayout 8 24 12) 3 [1, 0x0a, 0x04] [1000, 96, 113] [0, 17, 18]
            = [none, some ⟨.read0x0a, 96, 17⟩, some ⟨.read0x04, 1113, 18⟩] := by decide
        rw [h2] at h
        have hj2 : j = 0 ∨ j = 1 := by omega
        rcases hj2 with e | e
        · subst e
          simp at h
        · subst e
          simp at h
          subst h
          decide)).1,
    by decide⟩

/-! ### C17 -/

set_option maxRecDepth 8192 in
/-- C17 (counterexample): `parse` hands the first table of `dbMapAbortFile` to
`read0x07`. The table has the counts `numRes = 1`, `numData = 0`. `read0x07`
makes no check: it derives `numOther = 2^32 - 1` and declares its four arrays
with these counts, 51539607552 bytes of stack. The call reports nothing, does
not return and throws nothing, and the table with id `0x04` after it is never
decoded. -/
theorem C17_negative_count_is_derived :
    parseDirectory (mkLayout 8 24 12) dbMapAbortFile
        = some (2, [0x07, 0x04], [72, 92], [20, 4])
    ∧ le4 dbMapAbortFile 72 = 1 ∧ le4 dbMapAbortFile 76 = 0
    ∧ read0x07_numOther 1 0 = 4294967295
    ∧ read0x07_stackBytes (mkLayout 8 24 12) 1 4294967295 = 51539607552
    ∧ read0x07 (mkLayout 8 24 12) stdMachine dbMapAbortFile 72
        = { hook := none, ending := .crashes }
    ∧ parseCalls (mkLayout 8 24 12) 2 [0x07, 0x04] [72, 92] [20, 4]
        = [some ⟨.read0x07, 72, 20⟩, some ⟨.read0x04, 92, 4⟩]
    ∧ parseRun (mkLayout 8 24 12) stdMachine 8 dbMapAbortFile
        = { calls := [⟨.read0x07, 72, 20⟩], ending := .crashed } := by
  decide

/-- C17 (amended): when the two counts `numRes` (resourceCount) and `numData`
(total) are read, `read0x07` derives `numOther = (numData - numRes) mod 2^32`
without a check and declares its four arrays on the stack; it never throws or
reports a failure. With `numData < numRes` the arrays take
`(sizeof(unsigned long) + 4) * (2^32 + numData)` bytes, and on a machine whose
stack is below `(sizeof(unsigned long) + 4) * 2^32` bytes the call does not
survive and reports nothing. With `numData ≥ numRes` the arrays take
`(sizeof(unsigned long) + 4) * numData` bytes; when they fit the stack the
decoder reports `numRes` resources and `numData - numRes` tables and returns,
and when all the table data is in the file the four arrays are the `numRes`
resource ids, the `numRes` resource types, the `numOther` table ids and the
`numOther` table types, read contiguously in that order after the two
counts. -/
theorem C17_database_map (L : Layout) (mch : Machine) (file : List Byte) (pos : Nat)
    (hseek : fseekOk L pos = true) (hcnt : pos + 8 ≤ file.length) :
    (read0x07 L mch file pos).ending ≠ .throws
    ∧ (le4 file (pos + 4) < le4 file pos →
        read0x07_numOther (le4 file pos) (le4 file (pos + 4)) =
          2 ^ 32 - (le4 file pos - le4 file (pos + 4))
        ∧ read0x07_stackBytes L (le4 file pos)
            (read0x07_numOther (le4 file pos) (le4 file (pos + 4))) =
          (L.ulongSize + 4) * (2 ^ 32 + le4 file (pos + 4))
        ∧ (mch.stack < (L.ulongSize + 4) * 2 ^ 32 →
            read0x07 L mch file pos = { hook := none, ending := .crashes }))
    ∧ (le4 file pos ≤ le4 file (pos + 4) →
        (mch.stack < (L.ulongSize + 4) * le4 file (pos + 4) →
          read0x07 L mch file pos = { hook := none, ending := .crashes })
        ∧ ((L.ulongSize + 4) * le4 file (pos + 4) ≤ mch.stack →
            ∃ dm, read0x07 L mch file pos = { hook := some dm, ending := .returns }
              ∧ dm.numRes = le4 file pos
              ∧ dm.numOther = le4 file (pos + 4) - le4 file pos
              ∧ (pos + 8 + (L.ulongSize + 4) * le4 file (pos + 4) ≤ file.length →
                  dm.ids = some ((List.range dm.numRes).map (fun i =>
                      leNat (slice file (pos + 8 + L.ulongSize * i) L.ulongSize)))
                  ∧ dm.types = some ((List.range dm.numRes).map (fun i =>
                      le4 file (pos + 8 + L.ulongSize * dm.numRes + 4 * i)))
                  ∧ dm.tblIds = some ((List.range dm.numOther).map (fun i =>
                      leNat (slice file
                        (pos + 8 + L.ulongSize * dm.numRes + 4 * dm.numRes + L.ulongSize * i)
                        L.ulongSize)))
                  ∧ dm.tblTypes = some ((List.range dm.numOther).map (fun i =>
                      le4 file (pos + 8 + L.ulongSize * dm.numRes + 4 * dm.numRes
                        + L.ulongSize * dm.numOther + 4 * i)))))) := by
  have h1 : fread1 file pos 4 = some (slice file pos 4) :=
    fread1_of_le file pos 4 (by decide) (by omega)
  have h2 : fread1 file (pos + 4) 4 = some (slice file (pos + 4) 4) :=
    fread1_of_le file (pos + 4) 4 (by decide) (by omega)
  have e1 : leNat (slice file pos 4) = le4 file pos := leNat_slice4 file pos (by omega)
  have e2 : leNat (slice file (pos + 4) 4) = le4 file (pos + 4) :=
    leNat_slice4 file (pos + 4) (by omega)
  have ha := le4_lt file pos
  have hb := le4_lt file (pos + 4)
  have hr : read0x07 L mch file pos =
      if read0x07_stackBytes L (le4 file pos)
          (read0x07_numOther (le4 file pos) (le4 file (pos + 4))) > mch.stack then
        { hook := none, ending := .crashes }
      else
        { hook := some
            { ids := (freadArr file (pos + 8) (L.ulongSize * le4 file pos)).map
                (fun bs => decodeULongs L bs (le4 file pos))
              types := (freadArr file (pos + 8 + L.ulongSize * le4 file pos)
                (4 * le4 file pos)).map (fun bs => decodeUInts bs (le4 file pos))
              numRes := le4 file pos
              tblIds := (freadArr file (pos + 8 + L.ulongSize * le4 file pos + 4 * le4 file pos)
                (L.ulongSize * read0x07_numOther (le4 file pos) (le4 file (pos + 4)))).map
                (fun bs => decodeULongs L bs
                  (read0x07_numOther (le4 file pos) (le4 file (pos + 4))))
              tblTypes := (freadArr file
                (pos + 8 + L.ulongSize * le4 file pos + 4 * le4 file pos
                  + L.ulongSize * read0x07_numOther (le4 file pos) (le4 file (pos + 4)))
                (4 * read0x07_numOther (le4 file pos) (le4 file (pos + 4)))).map
                (fun bs => decodeUInts bs
                  (read0x07_numOther (le4 file pos) (le4 file (pos + 4))))
              numOther := read0x07_numOther (le4 file pos) (le4 file (pos + 4)) }
          ending := .returns } := by
    unfold read0x07
    rw [if_neg (by simp [hseek])]
    simp only [h1, h2, e1, e2]
  refine ⟨?_, ?_, ?_⟩
  · rw [hr]
    split_ifs <;> simp
  · intro hlt
    have hno : read0x07_numOther (le4 file pos) (le4 file (pos + 4)) =
        2 ^ 32 - (le4 file pos - le4 file (pos + 4)) := by
      unfold read0x07_numOther
      have e : le4 file (pos + 4) + (2 ^ 32 - le4 file pos) =
          2 ^ 32 - (le4 file pos - le4 file (pos + 4)) := by omega
      rw [e]
      exact Nat.mod_eq_of_lt (by omega)
    have hst : read0x07_stackBytes L (le4 file pos)
        (read0x07_numOther (le4 file pos) (le4 file (pos + 4))) =
        (L.ulongSize + 4) * (2 ^ 32 + le4 file (pos + 4)) := by
      rw [hno]
      unfold read0x07_stackBytes
      have e : 2 ^ 32 + le4 file (pos + 4) =
          le4 file pos + (2 ^ 32 - (le4 file pos - le4 file (pos + 4))) := by omega
      rw [e]
      ring
    refine ⟨hno, hst, ?_⟩
    intro hstack
    rw [hr, if_pos]
    rw [hst]
    have : (L.ulongSize + 4) * 2 ^ 32 ≤ (L.ulongSize + 4) * (2 ^ 32 + le4 file (pos + 4)) :=
      Nat.mul_le_mul_left _ (by omega)
    omega
  · intro hle
    have hno : read0x07_numOther (le4 file pos) (le4 file (pos + 4)) =
        le4 file (pos + 4) - le4 file pos := by
      unfold read0x07_numOther
      have e : le4 file (pos + 4) + (2 ^ 32 - le4 file pos) =
          (le4 file (pos + 4) - le4 file pos) + 2 ^ 32 := by omega
      rw [e, Nat.add_mod_right, Nat.mod_eq_of_lt (by omega)]
    have hsum : le4 file pos + (le4 file (pos + 4) - le4 file pos) = le4 file (pos + 4) := by
      omega
    have hexp : (L.ulongSize + 4) * le4 file (pos + 4) =
        L.ulongSize * le4 file pos + 4 * le4 file pos
          + L.ulongSize * (le4 file (pos + 4) - le4 file pos)
          + 4 * (le4 file (pos + 4) - le4 file pos) := by
      rw [← hsum]
      simp only [Nat.add_sub_cancel_left]
      ring
    have hst : read0x07_stackBytes L (le4 file pos)
        (read0x07_numOther (le4 file pos) (le4 file (pos + 4))) =
        (L.ulongSize + 4) * le4 file (pos + 4) := by
      rw [hno, hexp]
      rfl
    constructor
    · intro hstack
      rw [hr, if_pos (by rw [hst]; exact hstack)]
    · intro hstack
      rw [hr, if_neg (by rw [hst]; omega)]
      refine ⟨_, rfl, rfl, hno, ?_⟩
      intro hin
      simp only [hno]
      rw [hexp] at hin
      refine ⟨?_, ?_, ?_, ?_⟩
      · rw [freadArr_of_le file _ _ (by omega), Option.map_some', decodeULongs_slice]
      · rw [freadArr_of_le file _ _ (by omega), Option.map_some', decodeUInts_slice]
      · rw [freadArr_of_le file _ _ (by omega), Option.map_some', decodeULongs_slice]
      · rw [freadArr_of_le file _ _ (by omega), Option.map_some', decodeUInts_slice]

set_option maxRecDepth 8192 in
/-- Witness of C17 (amended) on `dbMapOkTableFile`: counts 1 and 3, one resource
`(7, 3)` and two tables `(8, 4)`, `(9, 5)`; the four arrays take 36 bytes of
stack. -/
theorem C17_database_map_witness :
    fseekOk (mkLayout 8 24 12) 48 = true ∧ 48 + 8 ≤ dbMapOkTableFile.length
    ∧ le4 dbMapOkTableFile 48 ≤ le4 dbMapOkTableFile (48 + 4)
    ∧ parseRun (mkLayout 8 24 12) stdMachine 8 dbMapOkTableFile
        = { calls := [⟨.read0x07, 48, 44⟩], ending := .done }
    ∧ read0x07 (mkLayout 8 24 12) stdMachine dbMapOkTableFile 48 =
        { hook := some { ids := some [7], types := some [3], numRes := 1,
                         tblIds := some [8, 9], tblTypes := some [4, 5], numOther := 2 }
          ending := .returns }
    ∧ ∃ dm, read0x07 (mkLayout 8 24 12) stdMachine dbMapOkTableFile 48
          = { hook := some dm, ending := .returns }
        ∧ dm.numRes = le4 dbMapOkTableFile 48
        ∧ dm.numOther = le4 dbMapOkTableFile (48 + 4) - le4 dbMapOkTableFile 48 :=
  ⟨by decide, by decide, by decide, by decide, by decide,
    let ⟨dm, h1, h2, h3, _⟩ :=
      ((C17_database_map (mkLayout 8 24 12) stdMachine dbMapOkTableFile 48 (by decide)
        (by decide)).2.2 (by decide)).2 (by decide)
    ⟨dm, h1, h2, h3⟩⟩

/-! ### C19 -/

theorem takeWhile_append_stop (l r : List Byte) :
    (l.takeWhile (fun c => decide (c ≠ 0))).length < l.length →
      (l ++ r).takeWhile (fun c => decide (c ≠ 0)) =
        l.takeWhile (fun c => decide (c ≠ 0)) := by
  induction l with
  | nil => intro h; exact absurd h (by simp)
  | cons a l ih =>
    intro h
    by_cases ha : a = 0
    · subst ha
      simp [List.takeWhile]
    · have e : (a :: l).takeWhile (fun c => decide (c ≠ 0)) =
          a :: l.takeWhile (fun c => decide (c ≠ 0)) := by
        simp [List.takeWhile, ha]
      have e2 : (a :: l ++ r).takeWhile (fun c => decide (c ≠ 0)) =
          a :: (l ++ r).takeWhile (fun c => decide (c ≠ 0)) := by
        simp [List.takeWhile, ha]
      rw [e] at h ⊢
      rw [e2, ih (by simpa using h)]

theorem takeWhile_append_all (l r : List Byte) :
    ¬ (l.takeWhile (fun c => decide (c ≠ 0))).length < l.length →
      (l ++ r).takeWhile (fun c => decide (c ≠ 0)) =
        l ++ r.takeWhile (fun c => decide (c ≠ 0)) := by
  induction l with
  | nil => intro _; rfl
  | cons a l ih =>
    intro h
    by_cases ha : a = 0
    · subst ha
      exact absurd (by simp [List.takeWhile]) h
    · have e : (a :: l).takeWhile (fun c => decide (c ≠ 0)) =
          a :: l.takeWhile (fun c => decide (c ≠ 0)) := by
        simp [List.takeWhile, ha]
      have e2 : (a :: l ++ r).takeWhile (fun c => decide (c ≠ 0)) =
          a :: (l ++ r).takeWhile (fun c => decide (c ≠ 0)) := by
        simp [List.takeWhile, ha]
      rw [e] at h
      rw [e2, ih (by simpa using h)]
      rfl

/-- A `strlen` that ends inside the array does not depend on the memory after
the array. -/
theorem strlen_append_some (buffer after : List Byte) (b n : Nat)
    (h : strlen buffer b = some n) : strlen (buffer ++ after) b = some n := by
  have hb := strlen_some buffer b n h
  unfold strlen at h ⊢
  split_ifs at h with hlt
  rw [List.drop_append_of_le_length (by omega), takeWhile_append_stop _ _ hlt,
    if_pos (by rw [List.length_append]; omega)]
  exact h

/-- A `strlen` that finds no terminator inside the array and ends in the memory
after it has counted up to the end of the array at least. -/
theorem strlen_append_none (buffer after : List Byte) (b n : Nat)
    (h : strlen buffer b = none) (h2 : strlen (buffer ++ after) b = some n) :
    buffer.length ≤ b + n := by
  by_cases hb : b ≤ buffer.length
  · unfold strlen at h h2
    split_ifs at h with hlt
    rw [List.drop_append_of_le_length hb, takeWhile_append_all _ _ hlt] at h2
    split_ifs at h2 with hlt2
    have hn := Option.some.inj h2
    rw [List.length_append, List.length_drop] at hn
    omega
  · omega

/-- The run of `read0x1d` when the array fits the stack, the table is read and
both `strlen` calls find a terminator in the readable memory. -/
theorem read0x1dRun_reported (L : Layout) (mch : Machine) (aiSize : Nat) (file : List Byte)
    (pos tblSize : Nat) (ai buffer : List Byte) (la lk : Nat)
    (hstack : read0x1d_bufferSize L tblSize ≤ mch.stack) (hseek : fseekOk L pos = true)
    (h1 : fread1 file pos aiSize = some ai)
    (h2 : freadArr file (pos + aiSize) (read0x1d_bufferSize L tblSize) = some buffer)
    (h3 : strlen (buffer ++ mch.beyond) 0 = some la)
    (h4 : strlen (buffer ++ mch.beyond) ((0 + roundAlign8Bit L la) % 2 ^ 32) = some lk) :
    read0x1dRun L mch aiSize file pos tblSize =
      { hook := some
          { ai := ai
            buffer := buffer
            appBuildName := 0
            kitBuildName := (0 + roundAlign8Bit L la) % 2 ^ 32
            platforName :=
              ((0 + roundAlign8Bit L la) % 2 ^ 32 + roundAlign8Bit L lk) % 2 ^ 32 }
        ending := .returns } := by
  unfold read0x1dRun
  rw [if_neg (by omega), if_neg (by simp [hseek])]
  simp only [h1, h2, h3, h4]

/-- The run of `read0x1d` when one of the `strlen` calls finds no terminator in the
readable memory. -/
theorem read0x1dRun_crashes (L : Layout) (mch : Machine) (aiSize : Nat) (file : List Byte)
    (pos tblSize : Nat) (ai buffer : List Byte)
    (hstack : read0x1d_bufferSize L tblSize ≤ mch.stack) (hseek : fseekOk L pos = true)
    (h1 : fread1 file pos aiSize = some ai)
    (h2 : freadArr file (pos + aiSize) (read0x1d_bufferSize L tblSize) = some buffer)
    (h3 : strlen (buffer ++ mch.beyond) 0 = none
      ∨ ∃ la, strlen (buffer ++ mch.beyond) 0 = some la
          ∧ strlen (buffer ++ mch.beyond) ((0 + roundAlign8Bit L la) % 2 ^ 32) = none) :
    read0x1dRun L mch aiSize file pos tblSize = { hook := none, ending := .crashes } := by
  unfold read0x1dRun
  rw [if_neg (by omega), if_neg (by simp [hseek])]
  rcases h3 with h3 | ⟨la, h3, h4⟩
  · simp only [h1, h2, h3]
  · simp only [h1, h2, h3, h4]

set_option maxRecDepth 8192 in
/-- C19 (counterexample). `parse` hands the only table of
`buildInfoTightTableFile` to `read0x1d`: its payload has 16 bytes and holds only
the app and kit build names, so the computed start offset of the platform
name, 16, lies at the payload bound; `read0x1d` still reports the build
information, with that offset as the platform name. The only table of
`unterminatedTableFile` has the 8-byte payload `"ABCDEFGH"`, with no
terminator: `strlen` reads on in the memory after the array. With the bytes of
`dirtyStackMachine` there, `read0x1d` reports an app build name of 9
characters and a kit build name that starts at offset 16, both outside the
payload; with no readable byte there the call does not survive. In neither
case is a failure reported. -/
theorem C19_names_outside_payload :
    parseRun (mkLayout 8 24 12) stdMachine 8 buildInfoTightTableFile
        = { calls := [⟨.read0x1d, 48, 24⟩], ending := .done }
    ∧ (buildInfoFileTight.drop 8).length = 16
    ∧ read0x1dRun (mkLayout 8 24 12) stdMachine 8 buildInfoTightTableFile 48 24 =
        { hook := some { ai := buildInfoFileTight.take 8, buffer := buildInfoFileTight.drop 8,
                         appBuildName := 0, kitBuildName := 8, platforName := 16 }
          ending := .returns }
    ∧ parseDirectory (mkLayout 8 24 12) unterminatedTableFile = some (1, [0x1d], [48], [16])
    ∧ strlen [65, 66, 67, 68, 69, 70, 71, 72] 0 = none
    ∧ strlen ([65, 66, 67, 68, 69, 70, 71, 72] ++ dirtyStackMachine.beyond) 0 = some 9
    ∧ read0x1dRun (mkLayout 8 24 12) dirtyStackMachine 8 unterminatedTableFile 48 16 =
        { hook := some { ai := [1, 0, 2, 0, 3, 0, 4, 0],
                         buffer := [65, 66, 67, 68, 69, 70, 71, 72],
                         appBuildName := 0, kitBuildName := 16, platforName := 24 }
          ending := .returns }
    ∧ parseRun (mkLayout 8 24 12) dirtyStackMachine 8 unterminatedTableFile
        = { calls := [⟨.read0x1d, 48, 16⟩], ending := .done }
    ∧ read0x1dRun (mkLayout 8 24 12) stdMachine 8 unterminatedTableFile 48 16 =
        { hook := none, ending := .crashes }
    ∧ parseRun (mkLayout 8 24 12) stdMachine 8 unterminatedTableFile
        = { calls := [⟨.read0x1d, 48, 16⟩], ending := .crashed } := by
  decide

/-- C19 (amended): `read0x1d` makes no check and has no failure outcome. Let the
array `buffer` fit the stack and the table be read. When the app and kit build
names are terminated within the payload, `read0x1d` reports the build
information, whatever follows the array in memory, and both names with their
terminators lie inside the payload; the platform-name offset is passed on
without a test. Whenever `read0x1d` reports, the lengths it has used are those
`strlen` finds in the array followed by the memory after it: a name with no
terminator within the payload is reported with bytes from outside the payload.
When a `strlen` finds no terminator in the readable memory, the call does not
survive. -/
theorem C19_build_info_reported (L : Layout) (mch : Machine) (aiSize : Nat)
    (file : List Byte) (pos tblSize : Nat) (ai buffer : List Byte)
    (hstack : read0x1d_bufferSize L tblSize ≤ mch.stack) (hseek : fseekOk L pos = true)
    (h1 : fread1 file pos aiSize = some ai)
    (h2 : freadArr file (pos + aiSize) (read0x1d_bufferSize L tblSize) = some buffer) :
    (read0x1dRun L mch aiSize file pos tblSize).ending ≠ .throws
    ∧ (∀ la lk, strlen buffer 0 = some la →
        strlen buffer ((0 + roundAlign8Bit L la) % 2 ^ 32) = some lk →
        read0x1dRun L mch aiSize file pos tblSize =
          { hook := some { ai := ai, buffer := buffer, appBuildName := 0,
                           kitBuildName := (0 + roundAlign8Bit L la) % 2 ^ 32,
                           platforName :=
                             ((0 + roundAlign8Bit L la) % 2 ^ 32 + roundAlign8Bit L lk)
                               % 2 ^ 32 }
            ending := .returns }
        ∧ 0 + la < buffer.length
        ∧ (0 + roundAlign8Bit L la) % 2 ^ 32 + lk < buffer.length)
    ∧ (∀ info, (read0x1dRun L mch aiSize file pos tblSize).hook = some info →
        info.buffer = buffer ∧ info.appBuildName = 0
        ∧ ∃ la lk, strlen (buffer ++ mch.beyond) 0 = some la
            ∧ strlen (buffer ++ mch.beyond) info.kitBuildName = some lk
            ∧ info.kitBuildName = (0 + roundAlign8Bit L la) % 2 ^ 32
            ∧ info.platforName = (info.kitBuildName + roundAlign8Bit L lk) % 2 ^ 32
            ∧ (strlen buffer 0 = none → buffer.length ≤ la)
            ∧ (strlen buffer info.kitBuildName = none →
                buffer.length ≤ info.kitBuildName + lk))
    ∧ ((strlen (buffer ++ mch.beyond) 0 = none
          ∨ ∃ la, strlen (buffer ++ mch.beyond) 0 = some la
              ∧ strlen (buffer ++ mch.beyond) ((0 + roundAlign8Bit L la) % 2 ^ 32) = none) →
        read0x1dRun L mch aiSize file pos tblSize = { hook := none, ending := .crashes }) := by
  have hcases : (strlen (buffer ++ mch.beyond) 0 = none
        ∨ ∃ la, strlen (buffer ++ mch.beyond) 0 = some la
            ∧ strlen (buffer ++ mch.beyond) ((0 + roundAlign8Bit L la) % 2 ^ 32) = none)
      ∨ ∃ la lk, strlen (buffer ++ mch.beyond) 0 = some la
          ∧ strlen (buffer ++ mch.beyond) ((0 + roundAlign8Bit L la) % 2 ^ 32) = some lk := by
    cases h3 : strlen (buffer ++ mch.beyond) 0 with
    | none => exact Or.inl (Or.inl rfl)
    | some la =>
      cases h4 : strlen (buffer ++ mch.beyond) ((0 + roundAlign8Bit L la) % 2 ^ 32) with
      | none => exact Or.inl (Or.inr ⟨la, rfl, h4⟩)
      | some lk => exact Or.inr ⟨la, lk, rfl, h4⟩
  refine ⟨?_, ?_, ?_, ?_⟩
  · rcases hcases with h | ⟨la, lk, h3, h4⟩
    · rw [read0x1dRun_crashes L mch aiSize file pos tblSize ai buffer hstack hseek h1 h2 h]
      simp
    · rw [read0x1dRun_reported L mch aiSize file pos tblSize ai buffer la lk hstack hseek h1 h2
        h3 h4]
      simp
  · intro la lk h3 h4
    exact ⟨read0x1dRun_reported L mch aiSize file pos tblSize ai buffer la lk hstack hseek h1 h2
        (strlen_append_some buffer mch.beyond 0 la h3)
        (strlen_append_some buffer mch.beyond _ lk h4),
      strlen_some buffer 0 la h3, strlen_some buffer _ lk h4⟩
  · intro info hinfo
    rcases hcases with h | ⟨la, lk, h3, h4⟩
    · rw [read0x1dRun_crashes L mch aiSize file pos tblSize ai buffer hstack hseek h1 h2 h]
        at hinfo
      cases hinfo
    · rw [read0x1dRun_reported L mch aiSize file pos tblSize ai buffer la lk hstack hseek h1 h2
        h3 h4] at hinfo
      have hi := Option.some.inj hinfo
      subst hi
      refine ⟨rfl, rfl, la, lk, h3, h4, rfl, rfl, ?_, ?_⟩
      · intro hn
        have := strlen_append_none buffer mch.beyond 0 la hn h3
        omega
      · intro hn
        exact strlen_append_none buffer mch.beyond _ lk hn h4
  · intro h
    exact read0x1dRun_crashes L mch aiSize file pos tblSize ai buffer hstack hseek h1 h2 h

set_option maxRecDepth 8192 in
/-- Witness of C19 (amended) on `buildInfoTableFile`: the app build name
`"ABCDEFGH"` and the kit build name `"kit"` are terminated within the 32-byte
payload. -/
theorem C19_build_info_reported_witness :
    read0x1d_bufferSize (mkLayout 8 24 12) 40 ≤ stdMachine.stack
    ∧ fseekOk (mkLayout 8 24 12) 48 = true
    ∧ fread1 buildInfoTableFile 48 8 = some (buildInfoFile.take 8)
    ∧ freadArr buildInfoTableFile (48 + 8) (read0x1d_bufferSize (mkLayout 8 24 12) 40)
        = some (buildInfoFile.drop 8)
    ∧ strlen (buildInfoFile.drop 8) 0 = some 8
    ∧ strlen (buildInfoFile.drop 8) ((0 + roundAlign8Bit (mkLayout 8 24 12) 8) % 2 ^ 32)
        = some 3
    ∧ parseRun (mkLayout 8 24 12) stdMachine 8 buildInfoTableFile
        = { calls := [⟨.read0x1d, 48, 40⟩], ending := .done }
    ∧ read0x1dRun (mkLayout 8 24 12) stdMachine 8 buildInfoTableFile 48 40 =
        { hook := some { ai := buildInfoFile.take 8, buffer := buildInfoFile.drop 8,
                         appBuildName := 0, kitBuildName := 16, platforName := 24 }
          ending := .returns } :=
  ⟨by decide, by decide, by decide, by decide, by decide, by decide, by decide,
    ((C19_build_info_reported (mkLayout 8 24 12) stdMachine 8 buildInfoTableFile 48 40
      (buildInfoFile.take 8) (buildInfoFile.drop 8) (by decide) (by decide) (by decide)
      (by decide)).2.1 8 3 (by decide) (by decide)).1⟩

/-! ### C20 -/

/-- The calls `parse` makes on a machine are the first calls of the list `parse`
gives, and all of them when the run ends with `return 0`. -/
theorem parseRun_calls_parse (L : Layout) (m : Machine) (aiSize : Nat) (file : List Byte)
    (calls : List Call) (h : parse L file = some calls) :
    (parseRun L m aiSize file).calls <+: calls
    ∧ ((parseRun L m aiSize file).ending = .done → (parseRun L m aiSize file).calls = calls) := by
  have hloop : ∀ (l : List (Option Call)),
      (parseLoop L m aiSize file l).ending = .done →
        (parseLoop L m aiSize file l).calls = l.filterMap id := by
    intro l
    induction l with
    | nil => intro _; rfl
    | cons x xs ih =>
      cases x with
      | none =>
        intro hd
        rw [parseLoop] at hd ⊢
        exact ih hd
      | some c =>
        intro hd
        rw [parseLoop] at hd ⊢
        cases he : callEnding L m aiSize file c with
        | returns =>
          simp only [he] at hd ⊢
          rw [ih hd]
          rfl
        | throws => simp only [he] at hd; cases hd
        | crashes => simp only [he] at hd; cases hd
        | undefined => simp only [he] at hd; cases hd
  unfold parse at h
  cases hd : parseDirectory L file with
  | none => simp only [hd] at h; cases h
  | some d =>
    obtain ⟨used, ids, offsets, sizes⟩ := d
    simp only [hd] at h
    have hc := Option.some.inj h
    unfold parseRun
    cases hf : fread1 file 0 L.fhSize with
    | none => exact ⟨ List.nil_prefix, fun hd2 => by cases hd2⟩
    | some fh =>
      simp only [hd]
      split_ifs with hs
      · exact ⟨ List.nil_prefix, fun hd2 => by cases hd2⟩
      · rw [← hc]
        exact ⟨parseLoop_calls_selected L m aiSize file _, hloop _⟩

/-- What `read0x1d` gives is what the run of the decoder reports, on every machine
whose stack holds the array. -/
theorem read0x1dRun_of_read0x1d (L : Layout) (m : Machine) (aiSize : Nat)
    (file : List Byte) (pos tblSize : Nat) (info : BuildInformation)
    (hstack : read0x1d_bufferSize L tblSize ≤ m.stack)
    (h : read0x1d L aiSize file pos tblSize = some info) :
    read0x1dRun L m aiSize file pos tblSize = { hook := some info, ending := .returns } := by
  unfold read0x1d at h
  split_ifs at h with hseek
  cases h1 : fread1 file pos aiSize with
  | none => simp only [h1] at h; cases h
  | some ai =>
    cases h2 : freadArr file (pos + aiSize) (read0x1d_bufferSize L tblSize) with
    | none => simp only [h1, h2] at h; cases h
    | some buffer =>
      simp only [h1, h2] at h
      cases h3 : strlen buffer 0 with
      | none => simp only [h3] at h; cases h
      | some la =>
        simp only [h3] at h
        cases h4 : strlen buffer ((0 + roundAlign8Bit L la) % 2 ^ 32) with
        | none => simp only [h4] at h; cases h
        | some lk =>
          simp only [h4] at h
          rw [← Option.some.inj h]
          exact read0x1dRun_reported L m aiSize file pos tblSize ai buffer la lk hstack
            (by simpa using hseek) h1 h2 (strlen_append_some buffer m.beyond 0 la h3)
            (strlen_append_some buffer m.beyond _ lk h4)

set_option maxRecDepth 8192 in
/-- On the files `file0x1f`, `highIdFile` and `buildInfoTableFile` every decoder
call returns, and the run of `parse` makes the calls `parse` gives. -/
theorem parseRun_on_examples :
    parseRun (mkLayout 8 24 12) stdMachine 8 file0x1f = { calls := [], ending := .done }
    ∧ parseRun (mkLayout 8 24 12) stdMachine 8 highIdFile
        = { calls := [⟨.read0x0b, 48, 12⟩], ending := .done }
    ∧ read0x0b (mkLayout 8 24 12) stdMachine highIdFile 48 12
        = { hook := some { numRecords := 0, records := some [] }, ending := .returns }
    ∧ parseRun (mkLayout 8 24 12) stdMachine 8 buildInfoTableFile
        = { calls := [⟨.read0x1d, 48, 40⟩], ending := .done }
    ∧ (read0x1dRun (mkLayout 8 24 12) stdMachine 8 buildInfoTableFile 48 40).hook
        = read0x1d (mkLayout 8 24 12) 8 buildInfoTableFile 48 40 := by
  decide

/-- A run of `scan_connectivity` that finishes gives what `scanConnectivity` gives. -/
theorem scanConnectivityRun_finished_eq (L : Layout) (m : Machine) (file : List Byte)
    (fuel : Nat) (out : Outcome Candidate)
    (h : scanConnectivityRun L m file fuel = .finished out) :
    scanConnectivity L file fuel = some out := by
  cases hd : loadDirectory L file with
  | exit s =>
    unfold scanConnectivity
    unfold scanConnectivityRun at h
    simp only [hd] at h ⊢
    cases hf : fread1 file 0 L.fhSize with
    | none =>
      unfold loadDirectory at hd
      simp only [hf] at hd h
      injection hd with hd
      injection h with h
      rw [← h, ← hd]
    | some fh =>
      simp only [hf] at h
      split_ifs at h with h0 hheap
      · unfold loadDirectory at hd
        simp only [hf, h0, if_true] at hd
        injection hd with hd
        injection h with h
        rw [← h, ← hd]
      · injection h with h
        rw [← h]
  | loaded used ids offsets sizes =>
    obtain ⟨pool, stUsed, hp, ho⟩ :=
      scanConnectivityRun_finished L m file used ids offsets sizes fuel out hd h
    have hl : loadStringTable L file used ids offsets sizes fuel = some (pool, stUsed) := by
      unfold loadStringTableRun at hp
      unfold loadStringTable
      simp only [] at hp ⊢
      split_ifs at hp ⊢ with c1 c2 c3
      · exact congrArg some (Pass.finished.inj hp)
      · exact congrArg some (Pass.finished.inj hp)
      all_goals
        cases hr : fread1 file _ L.tiSize with
        | none =>
          simp only [hr] at hp ⊢
          exact congrArg some (Pass.finished.inj hp)
        | some th =>
          simp only [hr] at hp ⊢
          first
            | exact congrArg some (Pass.finished.inj hp)
            | cases hp
            | (cases hq : poolLoop _ _ fuel 0 [] with
               | none => simp only [hq] at hp; cases hp
               | some q =>
                 simp only [hq] at hp ⊢
                 exact congrArg some (Pass.finished.inj hp))
    rw [scanConnectivity_of_loaded L file fuel used ids offsets sizes hd, hl, ho]
    rfl

end oafp
